import Mathlib

/-!
# tsha: SHA-256 and SHA-512/256 as byte-at-a-time finite state machines

Shallow embedding of the reference implementations `main-tsha256r.c` and
`main-tsha512t256r.c`, and of the hybrid-plain variants `main-tsha256hp.c` and
`main-tsha512t256hp.c`.

Conventions of the embedding.

* A C struct is a Lean structure with the fields of the non-DEBUG layout, in
  the order of the source.
* `u8`, `u32`, `u64` values are natural numbers; every operation that can wrap
  is followed by an explicit `% 2 ^ w`.
* A C array is a `List Nat`; `a[i]` is `a.getD i 0` and `a[i] = v` is
  `a.set i v`.
* The cast `W32 = (u32*)state->W8` is the little-endian view of the byte array
  (the sources are x86 only: they include `x86intrin.h`).
* A pointer that may be `NULL` is an `Option`.
* A loop whose trip count is not a constant takes a fuel argument and returns
  `none` when the fuel runs out.
-/

/-- The C loop `for (j = lo; j < hi; j++) body`, with `body` a state transformer. -/
def for_loop {σ : Type} (lo hi : Nat) (body : Nat → σ → σ) (s : σ) : σ :=
  (List.range' lo (hi - lo)).foldl (fun acc j => body j acc) s

/-- The value of `EINVAL` in `errno.h`. -/
def EINVAL : Int := 22

namespace tsha256r

def LSIZE_BYTES : Nat := 8
def WSIZE_BYTES : Nat := 4
def WSIZE_BITS : Nat := 32
def NROUNDS : Nat := 64
def MSIZE_BYTES : Nat := 64
def NW : Nat := 64
def DIGEST_SIZE_WORDS : Nat := 8

def SHA256B_FSM_INPUT : Nat := 0
def SHA256B_FSM_INPUT_UPDATE : Nat := 1
def SHA256B_FSM_APPEND_1BIT : Nat := 2
def SHA256B_FSM_APPEND_0_PADDING : Nat := 3
def SHA256B_FSM_APPEND_LENGTH : Nat := 4
def SHA256B_FSM_COMPLETE : Nat := 5
def SHA256B_FSM_ERROR : Nat := 255

/-- The record `struct tsha256` of `main-tsha256r.c` (fields of the build without `DEBUG`). -/
structure tsha256 where
  digest : List Nat
  msglen : Nat
  i_message : Nat
  event : Nat
  A : List Nat
  W8 : List Nat
  sig0 : Nat
  sig1 : Nat
  Ch : Nat
  Maj : Nat
  SIG0 : Nat
  SIG1 : Nat
  T1 : Nat
  T2 : Nat
deriving DecidableEq

/-- Initial hash value table `H_0`. -/
def H_0 : List Nat := [
  0x6A09E667,
  0xBB67AE85,
  0x3C6EF372,
  0xA54FF53A,
  0x510E527F,
  0x9B05688C,
  0x1F83D9AB,
  0x5BE0CD19]

/-- Round constant table `K`. -/
def K : List Nat := [
  0x428A2F98, 0x71374491, 0xB5C0FBCF, 0xE9B5DBA5,
  0x3956C25B, 0x59F111F1, 0x923F82A4, 0xAB1C5ED5,
  0xD807AA98, 0x12835B01, 0x243185BE, 0x550C7DC3,
  0x72BE5D74, 0x80DEB1FE, 0x9BDC06A7, 0xC19BF174,
  0xE49B69C1, 0xEFBE4786, 0x0FC19DC6, 0x240CA1CC,
  0x2DE92C6F, 0x4A7484AA, 0x5CB0A9DC, 0x76F988DA,
  0x983E5152, 0xA831C66D, 0xB00327C8, 0xBF597FC7,
  0xC6E00BF3, 0xD5A79147, 0x06CA6351, 0x14292967,
  0x27B70A85, 0x2E1B2138, 0x4D2C6DFC, 0x53380D13,
  0x650A7354, 0x766A0ABB, 0x81C2C92E, 0x92722C85,
  0xA2BFE8A1, 0xA81A664B, 0xC24B8B70, 0xC76C51A3,
  0xD192E819, 0xD6990624, 0xF40E3585, 0x106AA070,
  0x19A4C116, 0x1E376C08, 0x2748774C, 0x34B0BCB5,
  0x391C0CB3, 0x4ED8AA4A, 0x5B9CCA4F, 0x682E6FF3,
  0x748F82EE, 0x78A5636F, 0x84C87814, 0x8CC70208,
  0x90BEFFFA, 0xA4506CEB, 0xBEF9A3F7, 0xC67178F2]

/-- Byte placement table `seq`: stream position to index in `W8`. -/
def seq : List Nat := [
  3,  2,   1,  0,
  7,  6,   5,  4,
  11, 10,  9,  8,
  15, 14, 13, 12,
  19, 18, 17, 16,
  23, 22, 21, 20,
  27, 26, 25, 24,
  31, 30, 29, 28,
  35, 34, 33, 32,
  39, 38, 37, 36,
  43, 42, 41, 40,
  47, 46, 45, 44,
  51, 50, 49, 48,
  55, 54, 53, 52,
  59, 58, 57, 56,
  63, 62, 61, 60]

/-- Placement table `seq2` of the eight bytes of the length field. -/
def seq2 : List Nat := [
  60, 61, 62, 63,
  56, 57, 58, 59]

/-- Rotate right on `u32`: `v >> amt | v << (WSIZE_BITS - amt)`. -/
def ROTR (v amt : Nat) : Nat :=
  ((v >>> amt) ||| (v <<< (WSIZE_BITS - amt))) % 2 ^ 32

/-- The word `W32[j]` of the view `W32 = (u32*)W8`: the little-endian load of the four bytes
`W8[4j]`..`W8[4j+3]`. -/
def W32_load (W8 : List Nat) (j : Nat) : Nat :=
  W8.getD (4 * j) 0 + W8.getD (4 * j + 1) 0 * 2 ^ 8
    + W8.getD (4 * j + 2) 0 * 2 ^ 16 + W8.getD (4 * j + 3) 0 * 2 ^ 24

/-- The view `W32 = (u32*)state->W8`: the `NW` words of the byte array. -/
def W32_of_W8 (W8 : List Nat) : List Nat :=
  (List.range NW).map (W32_load W8)

/-- The byte array behind the view `W32`: every word stored little-endian. -/
def W8_of_W32 : List Nat → List Nat
  | [] => []
  | v :: rest =>
    (v % 256) :: (v / 2 ^ 8 % 256) :: (v / 2 ^ 16 % 256) :: (v / 2 ^ 24 % 256) :: W8_of_W32 rest

/-- `memset(p, 0, n)` on a byte array. -/
def memset0 (p : List Nat) (n : Nat) : List Nat :=
  List.replicate n 0 ++ p.drop n

/-- The all-zero record: `memset(state, 0, sizeof(struct tsha256))`. -/
def zero_state : tsha256 :=
  { digest := List.replicate DIGEST_SIZE_WORDS 0, msglen := 0, i_message := 0, event := 0,
    A := List.replicate DIGEST_SIZE_WORDS 0, W8 := List.replicate (NW * WSIZE_BYTES) 0,
    sig0 := 0, sig1 := 0, Ch := 0, Maj := 0, SIG0 := 0, SIG1 := 0, T1 := 0, T2 := 0 }

def tsha256r_get_hashcode (state : tsha256) : List Nat :=
  state.digest

def tsha256r_reset (_state : tsha256) : tsha256 :=
  { zero_state with digest := H_0 }

def tsha256r_close (_state : tsha256) : tsha256 :=
  zero_state

/-- Function `tsha256r_getch`: the returned pair is the `s32` result and the record after the
call. The parameter `c` is a `u8`: the byte stored is `c % 256`. -/
def tsha256r_getch (state : Option tsha256) (c : Nat) : Int × Option tsha256 :=
  match state with
  | none => (-EINVAL, none)
  | some s =>
    if s.event ≠ SHA256B_FSM_INPUT then (0, some s)
    else if s.i_message < MSIZE_BYTES then
      (1, some { s with
        W8 := s.W8.set (seq.getD s.i_message 0) (c % 256)
        i_message := (s.i_message + 1) % 2 ^ 32
        msglen := (s.msglen + 1) % 2 ^ 64 })
    else (0, some { s with event := SHA256B_FSM_INPUT_UPDATE })

/-- Body of the expansion loop of `_tsha256r_complete_message_block`, on the record and the
view `W32`. -/
def expansion_body (j : Nat) (p : tsha256 × List Nat) : tsha256 × List Nat :=
  let s := p.1
  let W32 := p.2
  let s := { s with sig0 := ROTR (W32.getD (j - 15) 0) 7
                            ^^^ ROTR (W32.getD (j - 15) 0) 18
                            ^^^ (W32.getD (j - 15) 0 >>> 3) }
  let s := { s with sig1 := ROTR (W32.getD (j - 2) 0) 17
                            ^^^ ROTR (W32.getD (j - 2) 0) 19
                            ^^^ (W32.getD (j - 2) 0 >>> 10) }
  (s, W32.set j ((W32.getD (j - 16) 0
                  + s.sig0
                  + W32.getD (j - 7) 0
                  + s.sig1) % 2 ^ 32))

/-- Body of the compression loop of `_tsha256r_complete_message_block`;
`a`..`h` are `A[0]`..`A[7]`. -/
def compression_body (W32 : List Nat) (j : Nat) (s : tsha256) : tsha256 :=
  let a := s.A.getD 0 0
  let b := s.A.getD 1 0
  let c := s.A.getD 2 0
  let d := s.A.getD 3 0
  let e := s.A.getD 4 0
  let f := s.A.getD 5 0
  let g := s.A.getD 6 0
  let h := s.A.getD 7 0
  let s := { s with Ch := (e &&& f) ^^^ ((e ^^^ 0xffffffff) &&& g) }
  let s := { s with Maj := (a &&& b) ^^^ (a &&& c) ^^^ (b &&& c) }
  let s := { s with SIG0 := ROTR a 2 ^^^ ROTR a 13 ^^^ ROTR a 22 }
  let s := { s with SIG1 := ROTR e 6 ^^^ ROTR e 11 ^^^ ROTR e 25 }
  let s := { s with T1 := (h
                           + s.SIG1
                           + s.Ch
                           + K.getD j 0
                           + W32.getD j 0) % 2 ^ 32 }
  let s := { s with T2 := (s.SIG0 + s.Maj) % 2 ^ 32 }
  { s with A := [(s.T1 + s.T2) % 2 ^ 32, a, b, c, (d + s.T1) % 2 ^ 32, e, f, g] }

/-- Function `_tsha256r_complete_message_block` (the Block Finalizer; the Lean name drops the
leading underscore). The words are read and
written through the view `W32`; the bytes behind it are put back before the final `memset`. -/
def tsha256r_complete_message_block (state : tsha256) : tsha256 :=
  let r := for_loop 16 NROUNDS expansion_body (state, W32_of_W8 state.W8)
  let s := r.1
  let W32 := r.2
  let s := { s with A :=
    [s.digest.getD 0 0, s.digest.getD 1 0, s.digest.getD 2 0, s.digest.getD 3 0,
     s.digest.getD 4 0, s.digest.getD 5 0, s.digest.getD 6 0, s.digest.getD 7 0] }
  let s := for_loop 0 NROUNDS (compression_body W32) s
  let s := { s with digest :=
    [(s.A.getD 0 0 + s.digest.getD 0 0) % 2 ^ 32, (s.A.getD 1 0 + s.digest.getD 1 0) % 2 ^ 32,
     (s.A.getD 2 0 + s.digest.getD 2 0) % 2 ^ 32, (s.A.getD 3 0 + s.digest.getD 3 0) % 2 ^ 32,
     (s.A.getD 4 0 + s.digest.getD 4 0) % 2 ^ 32, (s.A.getD 5 0 + s.digest.getD 5 0) % 2 ^ 32,
     (s.A.getD 6 0 + s.digest.getD 6 0) % 2 ^ 32, (s.A.getD 7 0 + s.digest.getD 7 0) % 2 ^ 32] }
  { s with i_message := 0, W8 := memset0 (W8_of_W32 W32) MSIZE_BYTES }

/-- Lines 430-443 of `tsha256r_update`: `*len64 = state->msglen*8` and the loop that stores
the bytes `len8[i]` of `len64` (least significant first) at `W8[seq2[i]]`. -/
def store_length (state : tsha256) : tsha256 :=
  let len64 := state.msglen * 8 % 2 ^ 64
  for_loop 0 LSIZE_BYTES
    (fun i s => { s with W8 := s.W8.set (seq2.getD i 0) (len64 / 2 ^ (8 * i) % 256) }) state

/-- Function `tsha256r_update`, instrumented: the second component lists, in call order, the
records on which `_tsha256r_complete_message_block` was invoked during the call. The `s32`
result of the source is always 0 and is left out. -/
def tsha256r_update_traced (state : tsha256) (finish : Nat) : tsha256 × List tsha256 :=
  if finish = 1 ∨ state.i_message ≥ MSIZE_BYTES then
    if state.event = SHA256B_FSM_INPUT then
      if finish = 1 then
        ({ state with event := SHA256B_FSM_INPUT_UPDATE }, [])
      else (state, [])
    else if state.event = SHA256B_FSM_INPUT_UPDATE then
      if finish = 1 then
        ({ state with event := SHA256B_FSM_APPEND_1BIT }, [])
      else
        let s := tsha256r_complete_message_block state
        ({ s with event := SHA256B_FSM_INPUT }, [state])
    else if state.event = SHA256B_FSM_APPEND_1BIT then
      if state.i_message < MSIZE_BYTES then
        let s := { state with W8 := state.W8.set (seq.getD state.i_message 0) 0x80 }
        let s := { s with i_message := (s.i_message + 1) % 2 ^ 32 }
        ({ s with event := SHA256B_FSM_APPEND_0_PADDING }, [])
      else
        let s := tsha256r_complete_message_block state
        let s := { s with W8 := s.W8.set (seq.getD s.i_message 0) 0x80 }
        let s := { s with i_message := (s.i_message + 1) % 2 ^ 32 }
        ({ s with event := SHA256B_FSM_APPEND_0_PADDING }, [state])
    else if state.event = SHA256B_FSM_APPEND_0_PADDING then
      if state.i_message < MSIZE_BYTES - LSIZE_BYTES then
        ({ state with event := SHA256B_FSM_APPEND_LENGTH }, [])
      else
        let s := tsha256r_complete_message_block state
        ({ s with event := SHA256B_FSM_APPEND_0_PADDING }, [state])
    else if state.event = SHA256B_FSM_APPEND_LENGTH then
      if state.i_message < MSIZE_BYTES - LSIZE_BYTES then
        let s := store_length state
        let s1 := tsha256r_complete_message_block s
        ({ s1 with event := SHA256B_FSM_COMPLETE }, [s])
      else
        ({ state with event := SHA256B_FSM_ERROR }, [])
    else
      ({ state with event := SHA256B_FSM_ERROR }, [])
  else (state, [])

/-- Function `tsha256r_update`: the record after the call. -/
def tsha256r_update (state : tsha256) (finish : Nat) : tsha256 :=
  (tsha256r_update_traced state finish).1

/-- Outcome of the hashing sequence of `run_tests`: the record when the do-while loop has
ended together with the trace of finalizer invocations, or the early exit `goto DONE_RT`. -/
inductive outcome where
  | done (state : tsha256) (calls : List tsha256)
  | einval
deriving DecidableEq

/-- The loop `while (i < bytes)` of `run_tests`; `bytes` is the length of `message`. -/
def run_tests_while : Nat → List Nat → Nat → tsha256 → List tsha256 →
    Option (Option (tsha256 × List tsha256))
  | 0, _, _, _, _ => none
  | fuel + 1, message, i, state, calls =>
    if i < message.length then
      match tsha256r_getch (some state) (message.getD i 0) with
      | (bytes_read, some state1) =>
        if bytes_read < 0 then some none
        else
          let i1 := i + bytes_read.toNat
          if state1.event = SHA256B_FSM_INPUT_UPDATE then
            let r := tsha256r_update_traced state1 0
            run_tests_while fuel message i1 r.1 (calls ++ r.2)
          else run_tests_while fuel message i1 state1 calls
      | (_, none) => some none
    else some (some (state, calls))

/-- The loop `do tsha256r_update(&state, 1); while (event != COMPLETE && event != ERROR)`
of `run_tests`. -/
def run_tests_do_while : Nat → tsha256 → List tsha256 → Option (tsha256 × List tsha256)
  | 0, _, _ => none
  | fuel + 1, state, calls =>
    let r := tsha256r_update_traced state 1
    if r.1.event ≠ SHA256B_FSM_COMPLETE ∧ r.1.event ≠ SHA256B_FSM_ERROR then
      run_tests_do_while fuel r.1 (calls ++ r.2)
    else some (r.1, calls ++ r.2)

/-- The hashing sequence of one test case of `run_tests` (lines 520-544), up to the call of
`tsha256r_get_hashcode`: `state` is the content of the local variable
before the test case, `none` is returned when the fuel does not suffice. -/
def run_tests_hash (fuel : Nat) (state : tsha256) (message : List Nat) : Option outcome :=
  match run_tests_while fuel message 0 (tsha256r_reset state) [] with
  | none => none
  | some none => some outcome.einval
  | some (some (state, calls)) =>
    match run_tests_do_while fuel state calls with
    | none => none
    | some (state1, calls1) => some (outcome.done state1 calls1)

/-- What `run_tests` holds after `memcpy(digest, hashcode, DIGEST_SIZE_BYTES)`: the event on
which the do-while loop ended and the copied array `digest`. -/
def run_tests_digest (fuel : Nat) (state : tsha256) (message : List Nat) : Option (Nat × List Nat) :=
  match run_tests_hash fuel state message with
  | some (outcome.done state1 _) => some (state1.event, tsha256r_get_hashcode state1)
  | _ => none

/-- The number of invocations of the Block Finalizer during the hashing sequence. -/
def run_tests_calls (fuel : Nat) (state : tsha256) (message : List Nat) : Option Nat :=
  match run_tests_hash fuel state message with
  | some (outcome.done _ calls) => some calls.length
  | _ => none

/-- The event and the number of buffered bytes when the loop `while (i < bytes)` of `run_tests`
has ended, that is when finish is requested. -/
def run_tests_buffer (fuel : Nat) (state : tsha256) (message : List Nat) : Option (Nat × Nat) :=
  match run_tests_while fuel message 0 (tsha256r_reset state) [] with
  | some (some (state1, _)) => some (state1.event, state1.i_message)
  | _ => none

/-- The first `MSIZE_BYTES` bytes of a byte array in stream order: byte `p` of the block is
`W8[seq[p]]`. -/
def stream_of (W8 : List Nat) : List Nat :=
  (List.range MSIZE_BYTES).map (fun p => W8.getD (seq.getD p 0) 0)

/-- The message buffer of a record in stream order. -/
def stream_bytes (state : tsha256) : List Nat :=
  stream_of state.W8

/-- The record after `tsha256r_update` has stored the marker byte `0x80` (lines 394-396). -/
def marker_stored (s : tsha256) : tsha256 :=
  { s with
    W8 := s.W8.set (seq.getD s.i_message 0) 0x80
    i_message := (s.i_message + 1) % 2 ^ 32
    event := SHA256B_FSM_APPEND_0_PADDING }

/-- The record after `tsha256r_getch` has stored a byte (lines 225-227). -/
def getch_accepted (s : tsha256) (c : Nat) : tsha256 :=
  { s with
    W8 := s.W8.set (seq.getD s.i_message 0) (c % 256)
    i_message := (s.i_message + 1) % 2 ^ 32
    msglen := (s.msglen + 1) % 2 ^ 64 }

end tsha256r

namespace tsha512t256r

def LSIZE_BYTES : Nat := 16
def WSIZE_BYTES : Nat := 8
def WSIZE_BITS : Nat := 64
def NROUNDS : Nat := 80
def MSIZE_BYTES : Nat := 128
def NW : Nat := 80
def DIGEST_SIZE_WORDS : Nat := 8
def DIGEST_SIZE_WORDS_TRUNCATED : Nat := 4

def SHA512T256_FSM_INPUT : Nat := 0
def SHA512T256_FSM_INPUT_UPDATE : Nat := 1
def SHA512T256_FSM_APPEND_1BIT : Nat := 2
def SHA512T256_FSM_APPEND_0_PADDING : Nat := 3
def SHA512T256_FSM_APPEND_LENGTH : Nat := 4
def SHA512T256_FSM_COMPLETE : Nat := 5
def SHA512T256_FSM_ERROR : Nat := 255

/-- The record `struct tsha512` of `main-tsha512t256r.c` (fields of the build without `DEBUG`). -/
structure tsha512 where
  digest : List Nat
  msglen : Nat
  i_message : Nat
  event : Nat
  A : List Nat
  W8 : List Nat
  sig0 : Nat
  sig1 : Nat
  Ch : Nat
  Maj : Nat
  SIG0 : Nat
  SIG1 : Nat
  T1 : Nat
  T2 : Nat
deriving DecidableEq

/-- Initial hash value table `H_0` (SHA-512/256). -/
def H_0 : List Nat := [
  0x22312194FC2BF72C,
  0x9F555FA3C84C64C2,
  0x2393B86B6F53B151,
  0x963877195940EABD,
  0x96283EE2A88EFFE3,
  0xBE5E1E2553863992,
  0x2B0199FC2C85B8AA,
  0x0EB72DDC81C52CA2]

/-- Round constant table `K`. -/
def K : List Nat := [
  0x428A2F98D728AE22, 0x7137449123EF65CD, 0xB5C0FBCFEC4D3B2F, 0xE9B5DBA58189DBBC,
  0x3956C25BF348B538, 0x59F111F1B605D019, 0x923F82A4AF194F9B, 0xAB1C5ED5DA6D8118,
  0xD807AA98A3030242, 0x12835B0145706FBE, 0x243185BE4EE4B28C, 0x550C7DC3D5FFB4E2,
  0x72BE5D74F27B896F, 0x80DEB1FE3B1696B1, 0x9BDC06A725C71235, 0xC19BF174CF692694,
  0xE49B69C19EF14AD2, 0xEFBE4786384F25E3, 0x0FC19DC68B8CD5B5, 0x240CA1CC77AC9C65,
  0x2DE92C6F592B0275, 0x4A7484AA6EA6E483, 0x5CB0A9DCBD41FBD4, 0x76F988DA831153B5,
  0x983E5152EE66DFAB, 0xA831C66D2DB43210, 0xB00327C898FB213F, 0xBF597FC7BEEF0EE4,
  0xC6E00BF33DA88FC2, 0xD5A79147930AA725, 0x06CA6351E003826F, 0x142929670A0E6E70,
  0x27B70A8546D22FFC, 0x2E1B21385C26C926, 0x4D2C6DFC5AC42AED, 0x53380D139D95B3DF,
  0x650A73548BAF63DE, 0x766A0ABB3C77B2A8, 0x81C2C92E47EDAEE6, 0x92722C851482353B,
  0xA2BFE8A14CF10364, 0xA81A664BBC423001, 0xC24B8B70D0F89791, 0xC76C51A30654BE30,
  0xD192E819D6EF5218, 0xD69906245565A910, 0xF40E35855771202A, 0x106AA07032BBD1B8,
  0x19A4C116B8D2D0C8, 0x1E376C085141AB53, 0x2748774CDF8EEB99, 0x34B0BCB5E19B48A8,
  0x391C0CB3C5C95A63, 0x4ED8AA4AE3418ACB, 0x5B9CCA4F7763E373, 0x682E6FF3D6B2B8A3,
  0x748F82EE5DEFB2FC, 0x78A5636F43172F60, 0x84C87814A1F0AB72, 0x8CC702081A6439EC,
  0x90BEFFFA23631E28, 0xA4506CEBDE82BDE9, 0xBEF9A3F7B2C67915, 0xC67178F2E372532B,
  0xCA273ECEEA26619C, 0xD186B8C721C0C207, 0xEADA7DD6CDE0EB1E, 0xF57D4F7FEE6ED178,
  0x06F067AA72176FBA, 0x0A637DC5A2C898A6, 0x113F9804BEF90DAE, 0x1B710B35131C471B,
  0x28DB77F523047D84, 0x32CAAB7B40C72493, 0x3C9EBE0A15C9BEBC, 0x431D67C49C100D4C,
  0x4CC5D4BECB3E42B6, 0x597F299CFC657E2A, 0x5FCB6FAB3AD6FAEC, 0x6C44198C4A475817]

/-- Byte placement table `seq`: stream position to index in `W8`. -/
def seq : List Nat := [
  7,  6,  5,  4,  3,  2,  1,  0,
  15, 14, 13, 12, 11, 10,  9,  8,
  23, 22, 21, 20, 19, 18, 17, 16,
  31, 30, 29, 28, 27, 26, 25, 24,
  39, 38, 37, 36, 35, 34, 33, 32,
  47, 46, 45, 44, 43, 42, 41, 40,
  55, 54, 53, 52, 51, 50, 49, 48,
  63, 62, 61, 60, 59, 58, 57, 56,
  71, 70, 69, 68, 67, 66, 65, 64,
  79, 78, 77, 76, 75, 74, 73, 72,
  87, 86, 85, 84, 83, 82, 81, 80,
  95, 94, 93, 92, 91, 90, 89, 88,
  103, 102, 101, 100, 99, 98, 97, 96,
  111, 110, 109, 108, 107, 106, 105, 104,
  119, 118, 117, 116, 115, 114, 113, 112,
  127, 126, 125, 124, 123, 122, 121, 120]

/-- Placement table `seq2` of the sixteen bytes of the length field. -/
def seq2 : List Nat := [
  120, 121, 122, 123, 124, 125, 126, 127,
  112, 113, 114, 115, 116, 117, 118, 119]

/-- Rotate right on `u64`: `v >> amt | v << (WSIZE_BITS - amt)`. -/
def ROTR (v amt : Nat) : Nat :=
  ((v >>> amt) ||| (v <<< (WSIZE_BITS - amt))) % 2 ^ 64

/-- The word `W64[j]` of the view `W64 = (u64*)W8`: the little-endian load of the eight bytes
`W8[8j]`..`W8[8j+7]`. -/
def W64_load (W8 : List Nat) (j : Nat) : Nat :=
  W8.getD (8 * j) 0 + W8.getD (8 * j + 1) 0 * 2 ^ 8
    + W8.getD (8 * j + 2) 0 * 2 ^ 16 + W8.getD (8 * j + 3) 0 * 2 ^ 24
    + W8.getD (8 * j + 4) 0 * 2 ^ 32 + W8.getD (8 * j + 5) 0 * 2 ^ 40
    + W8.getD (8 * j + 6) 0 * 2 ^ 48 + W8.getD (8 * j + 7) 0 * 2 ^ 56

/-- The view `W64 = (u64*)state->W8`: the `NW` words of the byte array. -/
def W64_of_W8 (W8 : List Nat) : List Nat :=
  (List.range NW).map (W64_load W8)

/-- The byte array behind the view `W64`: every word stored little-endian. -/
def W8_of_W64 : List Nat → List Nat
  | [] => []
  | v :: rest =>
    (v % 256) :: (v / 2 ^ 8 % 256) :: (v / 2 ^ 16 % 256) :: (v / 2 ^ 24 % 256)
      :: (v / 2 ^ 32 % 256) :: (v / 2 ^ 40 % 256) :: (v / 2 ^ 48 % 256) :: (v / 2 ^ 56 % 256)
      :: W8_of_W64 rest

/-- `memset(p, 0, n)` on a byte array. -/
def memset0 (p : List Nat) (n : Nat) : List Nat :=
  List.replicate n 0 ++ p.drop n

/-- The all-zero record: `memset(state, 0, sizeof(struct tsha512))`. -/
def zero_state : tsha512 :=
  { digest := List.replicate DIGEST_SIZE_WORDS 0, msglen := 0, i_message := 0, event := 0,
    A := List.replicate DIGEST_SIZE_WORDS 0, W8 := List.replicate (NW * WSIZE_BYTES) 0,
    sig0 := 0, sig1 := 0, Ch := 0, Maj := 0, SIG0 := 0, SIG1 := 0, T1 := 0, T2 := 0 }

def plain_sha512t256_get_hashcode (state : tsha512) : List Nat :=
  state.digest

def plain_sha512t256_reset (_state : tsha512) : tsha512 :=
  { zero_state with digest := H_0 }

def plain_sha512t256_close (_state : tsha512) : tsha512 :=
  zero_state

/-- Function `plain_sha512t256_getch`: the returned pair is the `s32` result and the record
after the call. The parameter `c` is a `u8`: the byte stored is `c % 256`. -/
def plain_sha512t256_getch (state : Option tsha512) (c : Nat) : Int × Option tsha512 :=
  match state with
  | none => (-EINVAL, none)
  | some s =>
    if s.event ≠ SHA512T256_FSM_INPUT then (0, some s)
    else if s.i_message < MSIZE_BYTES then
      (1, some { s with
        W8 := s.W8.set (seq.getD s.i_message 0) (c % 256)
        i_message := (s.i_message + 1) % 2 ^ 64
        msglen := (s.msglen + 1) % 2 ^ 64 })
    else (0, some { s with event := SHA512T256_FSM_INPUT_UPDATE })

/-- Body of the expansion loop of `_plain_sha512t256_complete_message_block`, on the record
and the view `W64`. -/
def expansion_body (j : Nat) (p : tsha512 × List Nat) : tsha512 × List Nat :=
  let s := p.1
  let W64 := p.2
  let s := { s with sig0 := ROTR (W64.getD (j - 15) 0) 1
                            ^^^ ROTR (W64.getD (j - 15) 0) 8
                            ^^^ (W64.getD (j - 15) 0 >>> 7) }
  let s := { s with sig1 := ROTR (W64.getD (j - 2) 0) 19
                            ^^^ ROTR (W64.getD (j - 2) 0) 61
                            ^^^ (W64.getD (j - 2) 0 >>> 6) }
  (s, W64.set j ((W64.getD (j - 16) 0
                  + s.sig0
                  + W64.getD (j - 7) 0
                  + s.sig1) % 2 ^ 64))

/-- Body of the compression loop of `_plain_sha512t256_complete_message_block`;
`a`..`h` are `A[0]`..`A[7]`. -/
def compression_body (W64 : List Nat) (j : Nat) (s : tsha512) : tsha512 :=
  let a := s.A.getD 0 0
  let b := s.A.getD 1 0
  let c := s.A.getD 2 0
  let d := s.A.getD 3 0
  let e := s.A.getD 4 0
  let f := s.A.getD 5 0
  let g := s.A.getD 6 0
  let h := s.A.getD 7 0
  let s := { s with Ch := (e &&& f) ^^^ ((e ^^^ 0xffffffffffffffff) &&& g) }
  let s := { s with Maj := (a &&& b) ^^^ (a &&& c) ^^^ (b &&& c) }
  let s := { s with SIG0 := ROTR a 28 ^^^ ROTR a 34 ^^^ ROTR a 39 }
  let s := { s with SIG1 := ROTR e 14 ^^^ ROTR e 18 ^^^ ROTR e 41 }
  let s := { s with T1 := (h
                           + s.SIG1
                           + s.Ch
                           + K.getD j 0
                           + W64.getD j 0) % 2 ^ 64 }
  let s := { s with T2 := (s.SIG0 + s.Maj) % 2 ^ 64 }
  { s with A := [(s.T1 + s.T2) % 2 ^ 64, a, b, c, (d + s.T1) % 2 ^ 64, e, f, g] }

/-- Function `_plain_sha512t256_complete_message_block` (the Block Finalizer; the Lean name
drops the leading underscore). The words are
read and written through the view `W64`; the bytes behind it are put back before the final
`memset`. -/
def plain_sha512t256_complete_message_block (state : tsha512) : tsha512 :=
  let r := for_loop 16 NROUNDS expansion_body (state, W64_of_W8 state.W8)
  let s := r.1
  let W64 := r.2
  let s := { s with A :=
    [s.digest.getD 0 0, s.digest.getD 1 0, s.digest.getD 2 0, s.digest.getD 3 0,
     s.digest.getD 4 0, s.digest.getD 5 0, s.digest.getD 6 0, s.digest.getD 7 0] }
  let s := for_loop 0 NROUNDS (compression_body W64) s
  let s := { s with digest :=
    [(s.A.getD 0 0 + s.digest.getD 0 0) % 2 ^ 64, (s.A.getD 1 0 + s.digest.getD 1 0) % 2 ^ 64,
     (s.A.getD 2 0 + s.digest.getD 2 0) % 2 ^ 64, (s.A.getD 3 0 + s.digest.getD 3 0) % 2 ^ 64,
     (s.A.getD 4 0 + s.digest.getD 4 0) % 2 ^ 64, (s.A.getD 5 0 + s.digest.getD 5 0) % 2 ^ 64,
     (s.A.getD 6 0 + s.digest.getD 6 0) % 2 ^ 64, (s.A.getD 7 0 + s.digest.getD 7 0) % 2 ^ 64] }
  { s with i_message := 0, W8 := memset0 (W8_of_W64 W64) MSIZE_BYTES }

/-- Lines 432-445 of `plain_sha512t256_update`: `*len128 = state->msglen*8`, a product of two
`u64` values widened to `u128` afterwards, and the loop that stores the bytes `len8[i]` of
`len128` (least significant first) at `W8[seq2[i]]`. -/
def store_length (state : tsha512) : tsha512 :=
  let len128 := state.msglen * 8 % 2 ^ 64
  for_loop 0 LSIZE_BYTES
    (fun i s => { s with W8 := s.W8.set (seq2.getD i 0) (len128 / 2 ^ (8 * i) % 256) }) state

/-- Function `plain_sha512t256_update`, instrumented: the second component lists, in call
order, the records on which `_plain_sha512t256_complete_message_block` was invoked during
the call. -/
def plain_sha512t256_update_traced (state : tsha512) (finish : Nat) : tsha512 × List tsha512 :=
  if finish = 1 ∨ state.i_message ≥ MSIZE_BYTES then
    if state.event = SHA512T256_FSM_INPUT then
      if finish = 1 then
        ({ state with event := SHA512T256_FSM_INPUT_UPDATE }, [])
      else (state, [])
    else if state.event = SHA512T256_FSM_INPUT_UPDATE then
      if finish = 1 then
        ({ state with event := SHA512T256_FSM_APPEND_1BIT }, [])
      else
        let s := plain_sha512t256_complete_message_block state
        ({ s with event := SHA512T256_FSM_INPUT }, [state])
    else if state.event = SHA512T256_FSM_APPEND_1BIT then
      if state.i_message < MSIZE_BYTES then
        let s := { state with W8 := state.W8.set (seq.getD state.i_message 0) 0x80 }
        let s := { s with i_message := (s.i_message + 1) % 2 ^ 64 }
        ({ s with event := SHA512T256_FSM_APPEND_0_PADDING }, [])
      else
        let s := plain_sha512t256_complete_message_block state
        let s := { s with W8 := s.W8.set (seq.getD s.i_message 0) 0x80 }
        let s := { s with i_message := (s.i_message + 1) % 2 ^ 64 }
        ({ s with event := SHA512T256_FSM_APPEND_0_PADDING }, [state])
    else if state.event = SHA512T256_FSM_APPEND_0_PADDING then
      if state.i_message < MSIZE_BYTES - LSIZE_BYTES then
        ({ state with event := SHA512T256_FSM_APPEND_LENGTH }, [])
      else
        let s := plain_sha512t256_complete_message_block state
        ({ s with event := SHA512T256_FSM_APPEND_0_PADDING }, [state])
    else if state.event = SHA512T256_FSM_APPEND_LENGTH then
      if state.i_message < MSIZE_BYTES - LSIZE_BYTES then
        let s := store_length state
        let s1 := plain_sha512t256_complete_message_block s
        ({ s1 with event := SHA512T256_FSM_COMPLETE }, [s])
      else
        ({ state with event := SHA512T256_FSM_ERROR }, [])
    else
      ({ state with event := SHA512T256_FSM_ERROR }, [])
  else (state, [])

/-- Function `plain_sha512t256_update`: the record after the call. -/
def plain_sha512t256_update (state : tsha512) (finish : Nat) : tsha512 :=
  (plain_sha512t256_update_traced state finish).1

/-- Outcome of the hashing sequence of `run_tests`: the record when the do-while loop has
ended together with the trace of finalizer invocations, or the early exit `goto DONE_RT`. -/
inductive outcome where
  | done (state : tsha512) (calls : List tsha512)
  | einval
deriving DecidableEq

/-- The loop `while (i < bytes)` of `run_tests`; `bytes` is the length of `message`. The
counter `i` is an `s32` in this source: the model follows it for messages shorter than
`2 ^ 31` bytes. -/
def run_tests_while : Nat → List Nat → Nat → tsha512 → List tsha512 →
    Option (Option (tsha512 × List tsha512))
  | 0, _, _, _, _ => none
  | fuel + 1, message, i, state, calls =>
    if i < message.length then
      match plain_sha512t256_getch (some state) (message.getD i 0) with
      | (bytes_read, some state1) =>
        if bytes_read < 0 then some none
        else
          let i1 := i + bytes_read.toNat
          if state1.event = SHA512T256_FSM_INPUT_UPDATE then
            let r := plain_sha512t256_update_traced state1 0
            run_tests_while fuel message i1 r.1 (calls ++ r.2)
          else run_tests_while fuel message i1 state1 calls
      | (_, none) => some none
    else some (some (state, calls))

/-- The loop `do plain_sha512t256_update(&state, 1); while (event != COMPLETE && event != ERROR)`
of `run_tests`. -/
def run_tests_do_while : Nat → tsha512 → List tsha512 → Option (tsha512 × List tsha512)
  | 0, _, _ => none
  | fuel + 1, state, calls =>
    let r := plain_sha512t256_update_traced state 1
    if r.1.event ≠ SHA512T256_FSM_COMPLETE ∧ r.1.event ≠ SHA512T256_FSM_ERROR then
      run_tests_do_while fuel r.1 (calls ++ r.2)
    else some (r.1, calls ++ r.2)

/-- The hashing sequence of one test case of `run_tests` (lines 514-538), up to the call of
`plain_sha512t256_get_hashcode`: `state` is the content of the local variable
before the test case, `none` is returned when the fuel does not suffice. -/
def run_tests_hash (fuel : Nat) (state : tsha512) (message : List Nat) : Option outcome :=
  match run_tests_while fuel message 0 (plain_sha512t256_reset state) [] with
  | none => none
  | some none => some outcome.einval
  | some (some (state, calls)) =>
    match run_tests_do_while fuel state calls with
    | none => none
    | some (state1, calls1) => some (outcome.done state1 calls1)

/-- What `run_tests` holds after `memcpy(digest, hashcode, DIGEST_SIZE_BYTES)`: the event on
which the do-while loop ended and the copied array `digest`. -/
def run_tests_digest (fuel : Nat) (state : tsha512) (message : List Nat) : Option (Nat × List Nat) :=
  match run_tests_hash fuel state message with
  | some (outcome.done state1 _) => some (state1.event, plain_sha512t256_get_hashcode state1)
  | _ => none

/-- The number of invocations of the Block Finalizer during the hashing sequence. -/
def run_tests_calls (fuel : Nat) (state : tsha512) (message : List Nat) : Option Nat :=
  match run_tests_hash fuel state message with
  | some (outcome.done _ calls) => some calls.length
  | _ => none

/-- What the comparison `memcmp(expected_digest, digest, DIGEST_SIZE_BYTES_TRUNCATED)` of
`run_tests` reads: the event and the first `DIGEST_SIZE_WORDS_TRUNCATED` words of `digest`. -/
def run_tests_digest_truncated (fuel : Nat) (state : tsha512) (message : List Nat) :
    Option (Nat × List Nat) :=
  match run_tests_digest fuel state message with
  | some r => some (r.1, r.2.take DIGEST_SIZE_WORDS_TRUNCATED)
  | none => none

end tsha512t256r

/-! ## The Secure Hash Standard, written from FIPS 180-4

An independent functional definition of SHA-256 and SHA-512/256, parameterised by the
variant (word size, number of rounds, constants, rotation amounts). The round constants and
the initial hash value of SHA-256 are computed from their definition in the standard, as
fractional parts of roots of the first primes. -/

namespace fips180

/-- Primality of a number below 441, by trial division by the numbers below 21. -/
def is_prime_below_441 (n : Nat) : Bool :=
  2 ≤ n && (List.range 21).all (fun d => d < 2 || n ≤ d || n % d != 0)

/-- The first eighty prime numbers. -/
def primes : List Nat :=
  [2, 3, 5, 7, 11, 13, 17, 19, 23, 29, 31, 37, 41, 43, 47, 53, 59, 61, 67, 71,
   73, 79, 83, 89, 97, 101, 103, 107, 109, 113, 127, 131, 137, 139, 149, 151, 157, 163, 167, 173,
   179, 181, 191, 193, 197, 199, 211, 223, 227, 229, 233, 239, 241, 251, 257, 263, 269, 271, 277,
   281, 283, 293, 307, 311, 313, 317, 331, 337, 347, 349, 353, 359, 367, 373, 379, 383, 389, 397,
   401, 409]

/-- Bisection for the integer part of the `k`-th root of `n`: the bits below `bit` of the
root are decided from the most significant one down, `acc` holds the bits above. -/
def root_bits (k n : Nat) : Nat → Nat → Nat
  | 0, acc => acc
  | bit + 1, acc => root_bits k n bit (if (acc + 2 ^ bit) ^ k ≤ n then acc + 2 ^ bit else acc)

/-- The first `w` bits of the fractional part of the `k`-th root of `p`, for roots below
`2 ^ 8`. -/
def root_fraction (k w p : Nat) : Nat :=
  root_bits k (p * 2 ^ (k * w)) (w + 8) 0 % 2 ^ w

/-- One member of the SHA-2 family. -/
structure variant where
  w : Nat
  rounds : Nat
  K : List Nat
  H0 : List Nat
  Sigma0 : Nat × Nat × Nat
  Sigma1 : Nat × Nat × Nat
  sigma0 : Nat × Nat × Nat
  sigma1 : Nat × Nat × Nat
  out_words : Nat

/-- SHA-256 (sections 4.1.2, 4.2.2, 5.3.3): the constants are the first 32 bits of the
fractional parts of the cube roots of the first 64 primes, the initial hash value the first
32 bits of the fractional parts of the square roots of the first 8 primes. -/
def sha256_variant : variant :=
  { w := 32, rounds := 64,
    K := (primes.take 64).map (root_fraction 3 32),
    H0 := (primes.take 8).map (root_fraction 2 32),
    Sigma0 := (2, 13, 22), Sigma1 := (6, 11, 25),
    sigma0 := (7, 18, 3), sigma1 := (17, 19, 10),
    out_words := 8 }

/-- SHA-512/256 (sections 4.1.3, 4.2.3, 5.3.6.2, 6.7): the constants are the first 64 bits of
the fractional parts of the cube roots of the first 80 primes, the initial hash value is the
one listed in section 5.3.6.2. -/
def sha512t256_variant : variant :=
  { w := 64, rounds := 80,
    K := (primes.take 80).map (root_fraction 3 64),
    H0 := [0x22312194fc2bf72c, 0x9f555fa3c84c64c2, 0x2393b86b6f53b151, 0x963877195940eabd,
           0x96283ee2a88effe3, 0xbe5e1e2553863992, 0x2b0199fc2c85b8aa, 0x0eb72ddc81c52ca2],
    Sigma0 := (28, 34, 39), Sigma1 := (14, 18, 41),
    sigma0 := (1, 8, 7), sigma1 := (19, 61, 6),
    out_words := 4 }

/-- Bytes per word, per block and per length field. -/
def word_bytes (v : variant) : Nat := v.w / 8
def block_bytes (v : variant) : Nat := 16 * word_bytes v
def length_bytes (v : variant) : Nat := 2 * word_bytes v

/-- Rotate right on `w`-bit words (section 3.2). -/
def rotr (w n x : Nat) : Nat := ((x >>> n) ||| (x <<< (w - n))) % 2 ^ w

def Ch (w x y z : Nat) : Nat := (x &&& y) ^^^ ((2 ^ w - 1 - x) &&& z)

def Maj (x y z : Nat) : Nat := (x &&& y) ^^^ (x &&& z) ^^^ (y &&& z)

/-- The functions written with a capital sigma: three rotations. -/
def big_sigma (w : Nat) (r : Nat × Nat × Nat) (x : Nat) : Nat :=
  rotr w r.1 x ^^^ rotr w r.2.1 x ^^^ rotr w r.2.2 x

/-- The functions written with a small sigma: two rotations and a shift. -/
def small_sigma (w : Nat) (r : Nat × Nat × Nat) (x : Nat) : Nat :=
  rotr w r.1 x ^^^ rotr w r.2.1 x ^^^ (x >>> r.2.2)

/-- The `n` bytes of `x`, most significant first. -/
def be_bytes (n x : Nat) : List Nat :=
  (List.range n).map (fun i => x / 2 ^ (8 * (n - 1 - i)) % 256)

/-- The number denoted by a byte string, most significant byte first. -/
def be_value (bytes : List Nat) : Nat :=
  bytes.foldl (fun acc b => acc * 256 + b) 0

/-- Number of zero bytes of the padding: the least `k` for which the padded length is a
multiple of the block size (section 5.1). -/
def zero_pad (v : variant) (len : Nat) : Nat :=
  (block_bytes v - (len + 1 + length_bytes v) % block_bytes v) % block_bytes v

/-- Padded message (section 5.1): the message, the byte `0x80`, the zero bytes, the bit length. -/
def pad (v : variant) (msg : List Nat) : List Nat :=
  msg ++ [0x80] ++ List.replicate (zero_pad v msg.length) 0
    ++ be_bytes (length_bytes v) (8 * msg.length)

/-- Blocks of the padded message, each as sixteen big-endian words (section 5.2). -/
def parse (v : variant) (padded : List Nat) : List (List Nat) :=
  (List.range (padded.length / block_bytes v)).map (fun i =>
    (List.range 16).map (fun t =>
      be_value ((padded.drop (block_bytes v * i + word_bytes v * t)).take (word_bytes v))))

/-- Message schedule, newest word first: `n` more words are put in front of the words
`W_(t-1), W_(t-2), ..` computed so far, each from the words 2, 7, 15 and 16 places back
(section 6.2.2 step 1). -/
def schedule_newest_first (v : variant) : Nat → List Nat → List Nat
  | 0, W => W
  | n + 1, W =>
    schedule_newest_first v n
      (((small_sigma v.w v.sigma1 (W.getD 1 0) + W.getD 6 0
          + small_sigma v.w v.sigma0 (W.getD 14 0) + W.getD 15 0) % 2 ^ v.w) :: W)

/-- Message schedule `W_0 .. W_(rounds-1)` of a block. -/
def schedule (v : variant) (M : List Nat) : List Nat :=
  (schedule_newest_first v (v.rounds - 16) M.reverse).reverse

/-- One round on the working variables `a`..`h`, with the constant `K_t` and the word `W_t`
(section 6.2.2 step 3). -/
def round (v : variant) (x : List Nat) (kw : Nat × Nat) : List Nat :=
  match x with
  | [a, b, c, d, e, f, g, h] =>
    let T1 := (h + big_sigma v.w v.Sigma1 e + Ch v.w e f g + kw.1 + kw.2) % 2 ^ v.w
    let T2 := (big_sigma v.w v.Sigma0 a + Maj a b c) % 2 ^ v.w
    [(T1 + T2) % 2 ^ v.w, a, b, c, (d + T1) % 2 ^ v.w, e, f, g]
  | _ => x

/-- The compression function: the hash value after the block `M` (section 6.2.2). -/
def compress (v : variant) (H : List Nat) (M : List Nat) : List Nat :=
  List.zipWith (fun x y => (x + y) % 2 ^ v.w)
    ((List.zip v.K (schedule v M)).foldl (round v) H) H

/-- The message digest as a list of words. -/
def hash (v : variant) (msg : List Nat) : List Nat :=
  ((parse v (pad v msg)).foldl (compress v) v.H0).take v.out_words

def sha256 (msg : List Nat) : List Nat := hash sha256_variant msg

def sha512t256 (msg : List Nat) : List Nat := hash sha512t256_variant msg

end fips180

/-! ## Test messages -/

/-- The characters of a C string literal as bytes. -/
def bytes_of (text : String) : List Nat :=
  text.toList.map Char.toNat

/-- The 3-byte test message of both `run_tests`. -/
def message_abc : List Nat :=
  bytes_of "abc"

/-- The 56-byte test message of `run_tests` in `main-tsha256r.c`. -/
def message_56 : List Nat :=
  bytes_of "abcdbcdecdefdefgefghfghighijhijkijkljklmklmnlmnomnopnopq"

/-- The 128-byte test message of `run_tests` in `main-tsha256r.c`. -/
def message_128 : List Nat :=
  bytes_of ("abcdefghijabcdefghijabcdefghijababcdefghijabcdefghij"
    ++ "abcdefghijababcdefghijabcdefghijabcdefghijababcdefgh"
    ++ "ijabcdefghijabcdefghijab")

/-- The 112-byte test message of `run_tests` in `main-tsha512t256r.c`. -/
def message_112 : List Nat :=
  bytes_of ("abcdefghbcdefghicdefghijdefghijkefghijklfghijklmghij"
    ++ "klmnhijklmnoijklmnopjklmnopqklmnopqrlmnopqrsmnopqrst"
    ++ "nopqrstu")

/-- A message of 55 bytes `a`: one byte short of the place of the length field. -/
def message_55 : List Nat :=
  List.replicate 55 0x61

/-- A message of 111 bytes `a`: the SHA-512/256 counterpart of `message_55`. -/
def message_111 : List Nat :=
  List.replicate 111 0x61

/-- The record after reset and 64 accepted bytes `a`: in `INPUT` with a full buffer. -/
def full_input_state : tsha256r.tsha256 :=
  (List.replicate 64 0x61).foldl tsha256r.getch_accepted
    (tsha256r.tsha256r_reset tsha256r.zero_state)

/-- The record after reset. -/
def fresh_state : tsha256r.tsha256 :=
  tsha256r.tsha256r_reset tsha256r.zero_state

/-! ## Auxiliary definitions for the statements about the Block Finalizer -/

namespace fips180

/-- The word that follows the words of `W` (newest first) in the message schedule. -/
def next_word (v : variant) (W : List Nat) : Nat :=
  (small_sigma v.w v.sigma1 (W.getD 1 0) + W.getD 6 0
    + small_sigma v.w v.sigma0 (W.getD 14 0) + W.getD 15 0) % 2 ^ v.w

end fips180

namespace tsha256r

/-- The sixteen message words the Block Finalizer reads through the view `W32`. -/
def block_words (state : tsha256) : List Nat :=
  (List.range 16).map (W32_load state.W8)

/-- Lines 293-347 of `_tsha256r_complete_message_block`, after the expansion loop: the
working variables are loaded from the digest, the rounds run on the expanded words `W32`, the
digest is updated and the buffer is reset. -/
def compression_phase (s : tsha256) (W32 : List Nat) : tsha256 :=
  let s := { s with A :=
    [s.digest.getD 0 0, s.digest.getD 1 0, s.digest.getD 2 0, s.digest.getD 3 0,
     s.digest.getD 4 0, s.digest.getD 5 0, s.digest.getD 6 0, s.digest.getD 7 0] }
  let s := for_loop 0 NROUNDS (compression_body W32) s
  let s := { s with digest :=
    [(s.A.getD 0 0 + s.digest.getD 0 0) % 2 ^ 32, (s.A.getD 1 0 + s.digest.getD 1 0) % 2 ^ 32,
     (s.A.getD 2 0 + s.digest.getD 2 0) % 2 ^ 32, (s.A.getD 3 0 + s.digest.getD 3 0) % 2 ^ 32,
     (s.A.getD 4 0 + s.digest.getD 4 0) % 2 ^ 32, (s.A.getD 5 0 + s.digest.getD 5 0) % 2 ^ 32,
     (s.A.getD 6 0 + s.digest.getD 6 0) % 2 ^ 32, (s.A.getD 7 0 + s.digest.getD 7 0) % 2 ^ 32] }
  { s with i_message := 0, W8 := memset0 (W8_of_W32 W32) MSIZE_BYTES }

end tsha256r

namespace tsha256r

/-- The record after a refused byte and the call `tsha256r_update(state, 0)` that follows it in
the ingestion loop of `run_tests`: the Block Finalizer has run and the event is `INPUT` again. -/
def flushed (s : tsha256) : tsha256 :=
  { tsha256r_complete_message_block { s with event := SHA256B_FSM_INPUT_UPDATE } with
    event := SHA256B_FSM_INPUT }

end tsha256r

/-- The record after reset, 64 accepted bytes `a` and one call `tsha256r_update(state, 1)`:
in `INPUT_UPDATE` with a full buffer. -/
def input_update_state : tsha256r.tsha256 :=
  tsha256r.tsha256r_update full_input_state 1

/-- The record after reset, the bytes of "abc" and two calls `tsha256r_update(state, 1)`:
in `APPEND_1BIT` with three buffered bytes. -/
def append_1bit_state : tsha256r.tsha256 :=
  tsha256r.tsha256r_update
    (tsha256r.tsha256r_update (message_abc.foldl tsha256r.getch_accepted fresh_state) 1) 1

/-- The record after reset, 64 accepted bytes `a` and two calls `tsha256r_update(state, 1)`:
in `APPEND_1BIT` with a full buffer. -/
def append_1bit_full_state : tsha256r.tsha256 :=
  tsha256r.tsha256r_update input_update_state 1

/-- The record after reset, the 56 bytes of the second test message and three calls
`tsha256r_update(state, 1)`: in `APPEND_0_PADDING` with 57 buffered bytes. -/
def padding_state : tsha256r.tsha256 :=
  tsha256r.tsha256r_update (tsha256r.tsha256r_update (tsha256r.tsha256r_update
    (message_56.foldl tsha256r.getch_accepted fresh_state) 1) 1) 1

/-! ## Auxiliary definitions for the statements about the interface and the loops -/

/-- The record after reset and five calls `tsha256r_update(state, 1)`, the finalization of the
empty message: in `COMPLETE`. -/
def complete_state : tsha256r.tsha256 :=
  tsha256r.tsha256r_update (tsha256r.tsha256r_update (tsha256r.tsha256r_update
    (tsha256r.tsha256r_update (tsha256r.tsha256r_update fresh_state 1) 1) 1) 1) 1

/-- The record after reset, the bytes of "abc" and four calls `tsha256r_update(state, 1)`:
in `APPEND_LENGTH` with four buffered bytes. -/
def append_length_state : tsha256r.tsha256 :=
  tsha256r.tsha256r_update (tsha256r.tsha256r_update append_1bit_state 1) 1

/-- A record in `APPEND_LENGTH` with 57 buffered bytes: `padding_state` with the event
overwritten. No sequence of calls leads to such a record. -/
def append_length_no_room_state : tsha256r.tsha256 :=
  { padding_state with event := tsha256r.SHA256B_FSM_APPEND_LENGTH }

namespace tsha256r

/-- One call of the interface on a record: `tsha256r_getch(state, c)` or
`tsha256r_update(state, finish)`. -/
inductive api_call where
  | getch (c : Nat)
  | update (finish : Nat)
deriving DecidableEq

/-- The record after one call of the interface. -/
def api_step (s : tsha256) : api_call → tsha256
  | api_call.getch c =>
    match tsha256r_getch (some s) c with
    | (_, some s1) => s1
    | (_, none) => s
  | api_call.update finish => tsha256r_update s finish

/-- The record after a sequence of calls of the interface, first call first. -/
def api_run (s : tsha256) (calls : List api_call) : tsha256 :=
  calls.foldl api_step s

end tsha256r

namespace tsha512t256r

/-- One call of the interface on a record: `plain_sha512t256_getch(state, c)` or
`plain_sha512t256_update(state, finish)`. -/
inductive api_call where
  | getch (c : Nat)
  | update (finish : Nat)
deriving DecidableEq

/-- The record after one call of the interface. -/
def api_step (s : tsha512) : api_call → tsha512
  | api_call.getch c =>
    match plain_sha512t256_getch (some s) c with
    | (_, some s1) => s1
    | (_, none) => s
  | api_call.update finish => plain_sha512t256_update s finish

/-- The record after a sequence of calls of the interface, first call first. -/
def api_run (s : tsha512) (calls : List api_call) : tsha512 :=
  calls.foldl api_step s

end tsha512t256r

namespace tsha256r

/-- The function `s0` of the message schedule of SHA-256, in the words of the specification:
`rotr(x,7) ^ rotr(x,18) ^ (x >> 3)`. -/
def spec_s0 (x : Nat) : Nat :=
  fips180.rotr 32 7 x ^^^ fips180.rotr 32 18 x ^^^ (x >>> 3)

/-- The function `s1` of the message schedule of SHA-256, in the words of the specification:
`rotr(x,17) ^ rotr(x,19) ^ (x >> 10)`. -/
def spec_s1 (x : Nat) : Nat :=
  fips180.rotr 32 17 x ^^^ fips180.rotr 32 19 x ^^^ (x >>> 10)

/-- Round `j` of the SHA-256 compression in the words of the specification, on the working
variables `(a,b,c,d,e,f,g,h)`, with the table `K` of the source and the schedule `W`; the
complement `~e` of a 32-bit word is `2^32 - 1 - e`. -/
def spec_round (W : List Nat) (j : Nat) (v : List Nat) : List Nat :=
  match v with
  | [a, b, c, d, e, f, g, h] =>
    let Ch := (e &&& f) ^^^ ((2 ^ 32 - 1 - e) &&& g)
    let Maj := (a &&& b) ^^^ (a &&& c) ^^^ (b &&& c)
    let S0 := fips180.rotr 32 2 a ^^^ fips180.rotr 32 13 a ^^^ fips180.rotr 32 22 a
    let S1 := fips180.rotr 32 6 e ^^^ fips180.rotr 32 11 e ^^^ fips180.rotr 32 25 e
    let T1 := (h + S1 + Ch + K.getD j 0 + W.getD j 0) % 2 ^ 32
    let T2 := (S0 + Maj) % 2 ^ 32
    [(T1 + T2) % 2 ^ 32, a, b, c, (d + T1) % 2 ^ 32, e, f, g]
  | _ => v

/-- The working variables `v_n` after the rounds `0 .. n-1`, starting from `v_0 = H`. -/
def spec_rounds (W : List Nat) (H : List Nat) (n : Nat) : List Nat :=
  (List.range n).foldl (fun v j => spec_round W j v) H

end tsha256r

namespace tsha512t256r

/-- The sixteen message words the Block Finalizer reads through the view `W64`. -/
def block_words (state : tsha512) : List Nat :=
  (List.range 16).map (W64_load state.W8)

/-- Lines 295-349 of `_plain_sha512t256_complete_message_block`, after the expansion loop: the
working variables are loaded from the digest, the rounds run on the expanded words `W64`, the
digest is updated and the buffer is reset. -/
def compression_phase (s : tsha512) (W64 : List Nat) : tsha512 :=
  let s := { s with A :=
    [s.digest.getD 0 0, s.digest.getD 1 0, s.digest.getD 2 0, s.digest.getD 3 0,
     s.digest.getD 4 0, s.digest.getD 5 0, s.digest.getD 6 0, s.digest.getD 7 0] }
  let s := for_loop 0 NROUNDS (compression_body W64) s
  let s := { s with digest :=
    [(s.A.getD 0 0 + s.digest.getD 0 0) % 2 ^ 64, (s.A.getD 1 0 + s.digest.getD 1 0) % 2 ^ 64,
     (s.A.getD 2 0 + s.digest.getD 2 0) % 2 ^ 64, (s.A.getD 3 0 + s.digest.getD 3 0) % 2 ^ 64,
     (s.A.getD 4 0 + s.digest.getD 4 0) % 2 ^ 64, (s.A.getD 5 0 + s.digest.getD 5 0) % 2 ^ 64,
     (s.A.getD 6 0 + s.digest.getD 6 0) % 2 ^ 64, (s.A.getD 7 0 + s.digest.getD 7 0) % 2 ^ 64] }
  { s with i_message := 0, W8 := memset0 (W8_of_W64 W64) MSIZE_BYTES }

end tsha512t256r

/-- The SHA-512/256 record after reset. -/
def fresh_state512 : tsha512t256r.tsha512 :=
  tsha512t256r.plain_sha512t256_reset tsha512t256r.zero_state

/-! ## Auxiliary definitions for the statements about the length field and stale data -/

/-- The SHA-512/256 record after reset and four calls `plain_sha512t256_update(state, 1)`:
in `APPEND_LENGTH` with one buffered byte, the marker. -/
def append_length_state512 : tsha512t256r.tsha512 :=
  tsha512t256r.plain_sha512t256_update (tsha512t256r.plain_sha512t256_update
    (tsha512t256r.plain_sha512t256_update
      (tsha512t256r.plain_sha512t256_update fresh_state512 1) 1) 1) 1

/-- A SHA-512/256 record in `APPEND_LENGTH` whose message length is `2 ^ 61` bytes, that is
`2 ^ 64` bits. -/
def long_message_state512 : tsha512t256r.tsha512 :=
  { append_length_state512 with msglen := 2 ^ 61 }

/-- A record with the digest and the first 64 bytes of `W8` of `full_input_state` and other
contents in the rest of `W8`, the working variables, the scratch fields, `msglen`,
`i_message` and the event. -/
def stale_state : tsha256r.tsha256 :=
  { full_input_state with
    W8 := (full_input_state.W8.set 64 0xAB).set 255 0xCD
    A := [1, 2, 3, 4, 5, 6, 7, 8]
    sig0 := 9, sig1 := 10, Ch := 11, Maj := 12, SIG0 := 13, SIG1 := 14, T1 := 15, T2 := 16
    msglen := 17, i_message := 18, event := tsha256r.SHA256B_FSM_APPEND_0_PADDING }

/-! ## The hybrid-plain variant of SHA-256, `main-tsha256hp.c` with `tsha256.h`

The record `struct tsha256` of `tsha256.h` has, in the build with `ALG_PLAIN` and without
`USE_ASM`, the fields of the record of `main-tsha256r.c` with the same types and the same
array sizes (`digest[8]`, `A[8]`, `W8[256]`); the Lean structure `tsha256r.tsha256` is used
for both. -/

namespace tsha256hp

def MESSAGE_SIZE_BYTES : Nat := 64
def W_SIZE_WORDS : Nat := 64
def L_SIZE_BYTES : Nat := 8
def WORD_SIZE_BITS : Nat := 32
def N_LETTERS : Nat := 8

def TSHA256_FSM_INPUT : Nat := 0
def TSHA256_FSM_INPUT_UPDATE : Nat := 1
def TSHA256_FSM_APPEND_1BIT : Nat := 2
def TSHA256_FSM_APPEND_0_PADDING : Nat := 3
def TSHA256_FSM_APPEND_LENGTH : Nat := 4
def TSHA256_FSM_COMPLETE : Nat := 5
def TSHA256_FSM_ERROR : Nat := 255

/-- Initial hash value table `H_0` of `tsha256.h`. -/
def H_0 : List Nat := [
  0x6A09E667,
  0xBB67AE85,
  0x3C6EF372,
  0xA54FF53A,
  0x510E527F,
  0x9B05688C,
  0x1F83D9AB,
  0x5BE0CD19]

/-- Byte placement table `seq` of `tsha256.h`. -/
def seq : List Nat := [
  3, 2, 1, 0,
  7, 6, 5, 4,
  11, 10, 9, 8,
  15, 14, 13, 12,
  19, 18, 17, 16,
  23, 22, 21, 20,
  27, 26, 25, 24,
  31, 30, 29, 28,
  35, 34, 33, 32,
  39, 38, 37, 36,
  43, 42, 41, 40,
  47, 46, 45, 44,
  51, 50, 49, 48,
  55, 54, 53, 52,
  59, 58, 57, 56,
  63, 62, 61, 60]

/-- Placement table `seq2` of `tsha256.h` for the eight bytes of the length field. -/
def seq2 : List Nat := [
  60, 61, 62, 63,
  56, 57, 58, 59]

/-- Function `ROTRL`, rotate right on `u32`: `v >> amt | v << (WORD_SIZE_BITS - amt)`. -/
def ROTRL (v amt : Nat) : Nat :=
  ((v >>> amt) ||| (v <<< (WORD_SIZE_BITS - amt))) % 2 ^ 32

def tsha256hp_get_hashcode (state : tsha256r.tsha256) : List Nat :=
  state.digest

def tsha256hp_reset (_state : tsha256r.tsha256) : tsha256r.tsha256 :=
  { tsha256r.zero_state with digest := H_0 }

def tsha256hp_close (_state : tsha256r.tsha256) : tsha256r.tsha256 :=
  tsha256r.zero_state

/-- Function `tsha256hp_getch`: the returned pair is the `s32` result and the record after the
call. -/
def tsha256hp_getch (state : Option tsha256r.tsha256) (c : Nat) :
    Int × Option tsha256r.tsha256 :=
  match state with
  | none => (-EINVAL, none)
  | some s =>
    if s.event ≠ TSHA256_FSM_INPUT then (0, some s)
    else if s.i_message < MESSAGE_SIZE_BYTES then
      (1, some { s with
        W8 := s.W8.set (seq.getD s.i_message 0) (c % 256)
        msglen := (s.msglen + 1) % 2 ^ 64
        i_message := (s.i_message + 1) % 2 ^ 32 })
    else (0, some { s with event := TSHA256_FSM_INPUT_UPDATE })

/-- Macro `DO_MESSAGE_EXPANSION_PLAIN(j)`, on the record and the view `W32`. -/
def DO_MESSAGE_EXPANSION_PLAIN (j : Nat) (p : tsha256r.tsha256 × List Nat) :
    tsha256r.tsha256 × List Nat :=
  let s := p.1
  let W32 := p.2
  let s := { s with sig0 := ROTRL (W32.getD (j - 15) 0) 7
                            ^^^ ROTRL (W32.getD (j - 15) 0) 18
                            ^^^ (W32.getD (j - 15) 0 >>> 3) }
  let s := { s with sig1 := ROTRL (W32.getD (j - 2) 0) 17
                            ^^^ ROTRL (W32.getD (j - 2) 0) 19
                            ^^^ (W32.getD (j - 2) 0 >>> 10) }
  (s, W32.set j ((W32.getD (j - 16) 0
                  + s.sig0
                  + W32.getD (j - 7) 0
                  + s.sig1) % 2 ^ 32))

/-- Macro `DO_COMPRESSION_PLAIN(j, k)`; `a`..`h` are `A[0]`..`A[7]`. -/
def DO_COMPRESSION_PLAIN (W32 : List Nat) (j k : Nat) (s : tsha256r.tsha256) :
    tsha256r.tsha256 :=
  let a := s.A.getD 0 0
  let b := s.A.getD 1 0
  let c := s.A.getD 2 0
  let d := s.A.getD 3 0
  let e := s.A.getD 4 0
  let f := s.A.getD 5 0
  let g := s.A.getD 6 0
  let h := s.A.getD 7 0
  let s := { s with Ch := (e &&& f) ^^^ ((e ^^^ 0xffffffff) &&& g) }
  let s := { s with Maj := (a &&& b) ^^^ (a &&& c) ^^^ (b &&& c) }
  let s := { s with SIG0 := ROTRL a 2 ^^^ ROTRL a 13 ^^^ ROTRL a 22 }
  let s := { s with SIG1 := ROTRL e 6 ^^^ ROTRL e 11 ^^^ ROTRL e 25 }
  let s := { s with T1 := (h
                           + s.SIG1
                           + s.Ch
                           + k
                           + W32.getD j 0) % 2 ^ 32 }
  let s := { s with T2 := (s.SIG0 + s.Maj) % 2 ^ 32 }
  { s with A := [(s.T1 + s.T2) % 2 ^ 32, a, b, c, (d + s.T1) % 2 ^ 32, e, f, g] }

/-- The arguments of the 48 `DO_MESSAGE_EXPANSION_PLAIN` steps of the macro
`DO_MESSAGE_EXPANSION`, in the order of the source. -/
def expansion_steps : List Nat := [
  16, 17, 18, 19, 20, 21, 22, 23, 24, 25, 26, 27,
  28, 29, 30, 31, 32, 33, 34, 35, 36, 37, 38, 39,
  40, 41, 42, 43, 44, 45, 46, 47, 48, 49, 50, 51,
  52, 53, 54, 55, 56, 57, 58, 59, 60, 61, 62, 63]

/-- The arguments `(j, k)` of the 64 `DO_COMPRESSION_PLAIN` steps of the macro
`DO_MESSAGE_COMPRESSION`, in the order of the source. -/
def compression_steps : List (Nat × Nat) := [
  (0, 0x428A2F98), (1, 0x71374491), (2, 0xB5C0FBCF), (3, 0xE9B5DBA5),
  (4, 0x3956C25B), (5, 0x59F111F1), (6, 0x923F82A4), (7, 0xAB1C5ED5),
  (8, 0xD807AA98), (9, 0x12835B01), (10, 0x243185BE), (11, 0x550C7DC3),
  (12, 0x72BE5D74), (13, 0x80DEB1FE), (14, 0x9BDC06A7), (15, 0xC19BF174),
  (16, 0xE49B69C1), (17, 0xEFBE4786), (18, 0x0FC19DC6), (19, 0x240CA1CC),
  (20, 0x2DE92C6F), (21, 0x4A7484AA), (22, 0x5CB0A9DC), (23, 0x76F988DA),
  (24, 0x983E5152), (25, 0xA831C66D), (26, 0xB00327C8), (27, 0xBF597FC7),
  (28, 0xC6E00BF3), (29, 0xD5A79147), (30, 0x06CA6351), (31, 0x14292967),
  (32, 0x27B70A85), (33, 0x2E1B2138), (34, 0x4D2C6DFC), (35, 0x53380D13),
  (36, 0x650A7354), (37, 0x766A0ABB), (38, 0x81C2C92E), (39, 0x92722C85),
  (40, 0xA2BFE8A1), (41, 0xA81A664B), (42, 0xC24B8B70), (43, 0xC76C51A3),
  (44, 0xD192E819), (45, 0xD6990624), (46, 0xF40E3585), (47, 0x106AA070),
  (48, 0x19A4C116), (49, 0x1E376C08), (50, 0x2748774C), (51, 0x34B0BCB5),
  (52, 0x391C0CB3), (53, 0x4ED8AA4A), (54, 0x5B9CCA4F), (55, 0x682E6FF3),
  (56, 0x748F82EE), (57, 0x78A5636F), (58, 0x84C87814), (59, 0x8CC70208),
  (60, 0x90BEFFFA), (61, 0xA4506CEB), (62, 0xBEF9A3F7), (63, 0xC67178F2)]

/-- Macro `DO_MESSAGE_EXPANSION`: the unrolled expansion steps, one after the other. -/
def DO_MESSAGE_EXPANSION (p : tsha256r.tsha256 × List Nat) : tsha256r.tsha256 × List Nat :=
  expansion_steps.foldl (fun acc j => DO_MESSAGE_EXPANSION_PLAIN j acc) p

/-- Macro `DO_MESSAGE_COMPRESSION`: the unrolled compression steps, one after the other. -/
def DO_MESSAGE_COMPRESSION (W32 : List Nat) (s : tsha256r.tsha256) : tsha256r.tsha256 :=
  compression_steps.foldl (fun acc jk => DO_COMPRESSION_PLAIN W32 jk.1 jk.2 acc) s

/-- Function `_tsha256hp_complete_message_block` (the Lean name drops the leading
underscore), on the view `W32` of `W8`. -/
def tsha256hp_complete_message_block (state : tsha256r.tsha256) : tsha256r.tsha256 :=
  let r := DO_MESSAGE_EXPANSION (state, tsha256r.W32_of_W8 state.W8)
  let s := r.1
  let W32 := r.2
  let s := { s with A :=
    [s.digest.getD 0 0, s.digest.getD 1 0, s.digest.getD 2 0, s.digest.getD 3 0,
     s.digest.getD 4 0, s.digest.getD 5 0, s.digest.getD 6 0, s.digest.getD 7 0] }
  let s := DO_MESSAGE_COMPRESSION W32 s
  let s := { s with digest :=
    [(s.A.getD 0 0 + s.digest.getD 0 0) % 2 ^ 32, (s.A.getD 1 0 + s.digest.getD 1 0) % 2 ^ 32,
     (s.A.getD 2 0 + s.digest.getD 2 0) % 2 ^ 32, (s.A.getD 3 0 + s.digest.getD 3 0) % 2 ^ 32,
     (s.A.getD 4 0 + s.digest.getD 4 0) % 2 ^ 32, (s.A.getD 5 0 + s.digest.getD 5 0) % 2 ^ 32,
     (s.A.getD 6 0 + s.digest.getD 6 0) % 2 ^ 32, (s.A.getD 7 0 + s.digest.getD 7 0) % 2 ^ 32] }
  { s with i_message := 0, W8 := tsha256r.memset0 (tsha256r.W8_of_W32 W32) MESSAGE_SIZE_BYTES }

/-- Lines 494-503 of `tsha256hp_update`: `*len64 = state->msglen << 3` and the loop that
stores the bytes `len8[i]` of `len64` (least significant first) at `W8[seq2[i]]`. -/
def store_length (state : tsha256r.tsha256) : tsha256r.tsha256 :=
  let len64 := (state.msglen <<< 3) % 2 ^ 64
  for_loop 0 L_SIZE_BYTES
    (fun i s => { s with W8 := s.W8.set (seq2.getD i 0) (len64 / 2 ^ (8 * i) % 256) }) state

/-- Function `tsha256hp_update`, instrumented: the second component lists, in call order, the
records on which `_tsha256hp_complete_message_block` was invoked during the call. -/
def tsha256hp_update_traced (state : tsha256r.tsha256) (finish : Nat) :
    tsha256r.tsha256 × List tsha256r.tsha256 :=
  if finish = 1 ∨ state.i_message ≥ MESSAGE_SIZE_BYTES then
    if state.event = TSHA256_FSM_INPUT then
      if finish = 1 then
        ({ state with event := TSHA256_FSM_INPUT_UPDATE }, [])
      else (state, [])
    else if state.event = TSHA256_FSM_INPUT_UPDATE then
      if finish = 1 then
        ({ state with event := TSHA256_FSM_APPEND_1BIT }, [])
      else
        let s := tsha256hp_complete_message_block state
        ({ s with event := TSHA256_FSM_INPUT }, [state])
    else if state.event = TSHA256_FSM_APPEND_1BIT then
      if state.i_message < MESSAGE_SIZE_BYTES then
        let s := { state with W8 := state.W8.set (seq.getD state.i_message 0) 0x80 }
        let s := { s with i_message := (s.i_message + 1) % 2 ^ 32 }
        ({ s with event := TSHA256_FSM_APPEND_0_PADDING }, [])
      else
        let s := tsha256hp_complete_message_block state
        let s := { s with W8 := s.W8.set (seq.getD s.i_message 0) 0x80 }
        let s := { s with i_message := (s.i_message + 1) % 2 ^ 32 }
        ({ s with event := TSHA256_FSM_APPEND_0_PADDING }, [state])
    else if state.event = TSHA256_FSM_APPEND_0_PADDING then
      if state.i_message < 56 then
        ({ state with event := TSHA256_FSM_APPEND_LENGTH }, [])
      else
        let s := tsha256hp_complete_message_block state
        ({ s with event := TSHA256_FSM_APPEND_0_PADDING }, [state])
    else if state.event = TSHA256_FSM_APPEND_LENGTH then
      if state.i_message < 56 then
        let s := store_length state
        let s1 := tsha256hp_complete_message_block s
        ({ s1 with event := TSHA256_FSM_COMPLETE }, [s])
      else
        ({ state with event := TSHA256_FSM_ERROR }, [])
    else
      ({ state with event := TSHA256_FSM_ERROR }, [])
  else (state, [])

/-- Function `tsha256hp_update`: the record after the call. -/
def tsha256hp_update (state : tsha256r.tsha256) (finish : Nat) : tsha256r.tsha256 :=
  (tsha256hp_update_traced state finish).1

/-- The loop `while (i < bytes)` of `run_tests` in `main-tsha256hp.c`. -/
def run_tests_while : Nat → List Nat → Nat → tsha256r.tsha256 → List tsha256r.tsha256 →
    Option (Option (tsha256r.tsha256 × List tsha256r.tsha256))
  | 0, _, _, _, _ => none
  | fuel + 1, message, i, state, calls =>
    if i < message.length then
      match tsha256hp_getch (some state) (message.getD i 0) with
      | (bytes_read, some state1) =>
        if bytes_read < 0 then some none
        else
          let i1 := i + bytes_read.toNat
          if state1.event = TSHA256_FSM_INPUT_UPDATE then
            let r := tsha256hp_update_traced state1 0
            run_tests_while fuel message i1 r.1 (calls ++ r.2)
          else run_tests_while fuel message i1 state1 calls
      | (_, none) => some none
    else some (some (state, calls))

/-- The loop `do tsha256hp_update(&state, 1); while (event != COMPLETE && event != ERROR)`. -/
def run_tests_do_while : Nat → tsha256r.tsha256 → List tsha256r.tsha256 →
    Option (tsha256r.tsha256 × List tsha256r.tsha256)
  | 0, _, _ => none
  | fuel + 1, state, calls =>
    let r := tsha256hp_update_traced state 1
    if r.1.event ≠ TSHA256_FSM_COMPLETE ∧ r.1.event ≠ TSHA256_FSM_ERROR then
      run_tests_do_while fuel r.1 (calls ++ r.2)
    else some (r.1, calls ++ r.2)

/-- The hashing sequence of one test case of `run_tests` in `main-tsha256hp.c` (lines
581-605), up to the call of `tsha256hp_get_hashcode`. -/
def run_tests_hash (fuel : Nat) (state : tsha256r.tsha256) (message : List Nat) :
    Option tsha256r.outcome :=
  match run_tests_while fuel message 0 (tsha256hp_reset state) [] with
  | none => none
  | some none => some tsha256r.outcome.einval
  | some (some (state, calls)) =>
    match run_tests_do_while fuel state calls with
    | none => none
    | some (state1, calls1) => some (tsha256r.outcome.done state1 calls1)

/-- What `run_tests` holds after `memcpy(digest, hashcode, DIGEST_SIZE_BYTES)`: the event on
which the do-while loop ended and the copied array `digest`. -/
def run_tests_digest (fuel : Nat) (state : tsha256r.tsha256) (message : List Nat) :
    Option (Nat × List Nat) :=
  match run_tests_hash fuel state message with
  | some (tsha256r.outcome.done state1 _) => some (state1.event, tsha256hp_get_hashcode state1)
  | _ => none

end tsha256hp

/-! ## The hybrid-plain variant of SHA-512/256, `main-tsha512t256hp.c` with `tsha512t256.h`

The record `struct tsha512` of `tsha512t256.h` has the fields of the record of
`main-tsha512t256r.c` in the same order, with other array sizes: `digest` has
`N_LETTERS*WORD_SIZE_BYTES = 64` words and `W8` has `W_SIZE_BYTES = 128` bytes. The Lean
structure `tsha512t256r.tsha512` is used for both; the sizes are those of `zero_state`.

The view `W64 = (u64*)state->W8` has 16 words. The macros read and write `W64[16]`, the
eight bytes that follow `W8` in the record: this is the field `sig0`. In the model the
view is a list of 16 words and `W64[16]` is the field `sig0` of the record. -/

namespace tsha512t256hp

def MESSAGE_SIZE_BYTES : Nat := 128
def W_SIZE_WORDS : Nat := 16
def W_SIZE_BYTES : Nat := 128
def DIGEST_SIZE_WORDS : Nat := 4
def L_SIZE_BYTES : Nat := 16
def WORD_SIZE_BITS : Nat := 64
def WORD_SIZE_BYTES : Nat := 8
def N_LETTERS : Nat := 8

def SHA256T_FSM_INPUT : Nat := 0
def SHA256T_FSM_INPUT_UPDATE : Nat := 1
def SHA256T_FSM_APPEND_1BIT : Nat := 2
def SHA256T_FSM_APPEND_0_PADDING : Nat := 3
def SHA256T_FSM_APPEND_LENGTH : Nat := 4
def SHA256T_FSM_COMPLETE : Nat := 5
def SHA256T_FSM_ERROR : Nat := 255

/-- Round constant table `K` of `tsha512t256.h`. -/
def K : List Nat := [
  0x428A2F98D728AE22, 0x7137449123EF65CD, 0xB5C0FBCFEC4D3B2F, 0xE9B5DBA58189DBBC,
  0x3956C25BF348B538, 0x59F111F1B605D019, 0x923F82A4AF194F9B, 0xAB1C5ED5DA6D8118,
  0xD807AA98A3030242, 0x12835B0145706FBE, 0x243185BE4EE4B28C, 0x550C7DC3D5FFB4E2,
  0x72BE5D74F27B896F, 0x80DEB1FE3B1696B1, 0x9BDC06A725C71235, 0xC19BF174CF692694,
  0xE49B69C19EF14AD2, 0xEFBE4786384F25E3, 0x0FC19DC68B8CD5B5, 0x240CA1CC77AC9C65,
  0x2DE92C6F592B0275, 0x4A7484AA6EA6E483, 0x5CB0A9DCBD41FBD4, 0x76F988DA831153B5,
  0x983E5152EE66DFAB, 0xA831C66D2DB43210, 0xB00327C898FB213F, 0xBF597FC7BEEF0EE4,
  0xC6E00BF33DA88FC2, 0xD5A79147930AA725, 0x06CA6351E003826F, 0x142929670A0E6E70,
  0x27B70A8546D22FFC, 0x2E1B21385C26C926, 0x4D2C6DFC5AC42AED, 0x53380D139D95B3DF,
  0x650A73548BAF63DE, 0x766A0ABB3C77B2A8, 0x81C2C92E47EDAEE6, 0x92722C851482353B,
  0xA2BFE8A14CF10364, 0xA81A664BBC423001, 0xC24B8B70D0F89791, 0xC76C51A30654BE30,
  0xD192E819D6EF5218, 0xD69906245565A910, 0xF40E35855771202A, 0x106AA07032BBD1B8,
  0x19A4C116B8D2D0C8, 0x1E376C085141AB53, 0x2748774CDF8EEB99, 0x34B0BCB5E19B48A8,
  0x391C0CB3C5C95A63, 0x4ED8AA4AE3418ACB, 0x5B9CCA4F7763E373, 0x682E6FF3D6B2B8A3,
  0x748F82EE5DEFB2FC, 0x78A5636F43172F60, 0x84C87814A1F0AB72, 0x8CC702081A6439EC,
  0x90BEFFFA23631E28, 0xA4506CEBDE82BDE9, 0xBEF9A3F7B2C67915, 0xC67178F2E372532B,
  0xCA273ECEEA26619C, 0xD186B8C721C0C207, 0xEADA7DD6CDE0EB1E, 0xF57D4F7FEE6ED178,
  0x06F067AA72176FBA, 0x0A637DC5A2C898A6, 0x113F9804BEF90DAE, 0x1B710B35131C471B,
  0x28DB77F523047D84, 0x32CAAB7B40C72493, 0x3C9EBE0A15C9BEBC, 0x431D67C49C100D4C,
  0x4CC5D4BECB3E42B6, 0x597F299CFC657E2A, 0x5FCB6FAB3AD6FAEC, 0x6C44198C4A475817]

/-- Initial hash value table `H_0` of `tsha512t256.h`. -/
def H_0 : List Nat := [
  0x22312194FC2BF72C,
  0x9F555FA3C84C64C2,
  0x2393B86B6F53B151,
  0x963877195940EABD,
  0x96283EE2A88EFFE3,
  0xBE5E1E2553863992,
  0x2B0199FC2C85B8AA,
  0x0EB72DDC81C52CA2]

/-- Byte placement table `seq` of `tsha512t256.h`. -/
def seq : List Nat := [
  7, 6, 5, 4, 3, 2, 1, 0,
  15, 14, 13, 12, 11, 10, 9, 8,
  23, 22, 21, 20, 19, 18, 17, 16,
  31, 30, 29, 28, 27, 26, 25, 24,
  39, 38, 37, 36, 35, 34, 33, 32,
  47, 46, 45, 44, 43, 42, 41, 40,
  55, 54, 53, 52, 51, 50, 49, 48,
  63, 62, 61, 60, 59, 58, 57, 56,
  71, 70, 69, 68, 67, 66, 65, 64,
  79, 78, 77, 76, 75, 74, 73, 72,
  87, 86, 85, 84, 83, 82, 81, 80,
  95, 94, 93, 92, 91, 90, 89, 88,
  103, 102, 101, 100, 99, 98, 97, 96,
  111, 110, 109, 108, 107, 106, 105, 104,
  119, 118, 117, 116, 115, 114, 113, 112,
  127, 126, 125, 124, 123, 122, 121, 120]

/-- Placement table `seq2` of `tsha512t256.h` for the sixteen bytes of the length field. -/
def seq2 : List Nat := [
  120, 121, 122, 123, 124, 125, 126, 127,
  112, 113, 114, 115, 116, 117, 118, 119]

/-- Function `ROTRQ`, rotate right on `u64`: `v >> amt | v << (WORD_SIZE_BITS - amt)`. -/
def ROTRQ (v amt : Nat) : Nat :=
  ((v >>> amt) ||| (v <<< (WORD_SIZE_BITS - amt))) % 2 ^ 64

/-- The view `W64 = (u64*)state->W8`: the 16 words of the byte array. -/
def W64_of_W8 (W8 : List Nat) : List Nat :=
  (List.range W_SIZE_WORDS).map (tsha512t256r.W64_load W8)

/-- The all-zero record: `memset(state, 0, sizeof(struct tsha512))`. -/
def zero_state : tsha512t256r.tsha512 :=
  { digest := List.replicate (N_LETTERS * WORD_SIZE_BYTES) 0, msglen := 0, i_message := 0,
    event := 0, A := List.replicate N_LETTERS 0, W8 := List.replicate W_SIZE_BYTES 0,
    sig0 := 0, sig1 := 0, Ch := 0, Maj := 0, SIG0 := 0, SIG1 := 0, T1 := 0, T2 := 0 }

/-- `memcpy(dst, src, n * sizeof(u64))` on word arrays: the first `n` words of `src` over
the first `n` words of `dst`. -/
def memcpy_words (dst src : List Nat) (n : Nat) : List Nat :=
  src.take n ++ dst.drop n

def plain_sha256t_get_hashcode (state : tsha512t256r.tsha512) : List Nat :=
  state.digest

/-- Function `plain_sha256t_reset`: `memcpy(state->digest, H_0, N_LETTERS * WORD_SIZE_BYTES)`
copies 64 bytes, the eight words of `H_0`. -/
def plain_sha256t_reset (_state : tsha512t256r.tsha512) : tsha512t256r.tsha512 :=
  { zero_state with digest := memcpy_words zero_state.digest H_0 N_LETTERS }

def plain_sha256t_close (_state : tsha512t256r.tsha512) : tsha512t256r.tsha512 :=
  zero_state

/-- Function `plain_sha256t_getch`: the returned pair is the `s32` result and the record after
the call. -/
def plain_sha256t_getch (state : Option tsha512t256r.tsha512) (c : Nat) :
    Int × Option tsha512t256r.tsha512 :=
  match state with
  | none => (-EINVAL, none)
  | some s =>
    if s.event ≠ SHA256T_FSM_INPUT then (0, some s)
    else if s.i_message < MESSAGE_SIZE_BYTES then
      (1, some { s with
        W8 := s.W8.set (seq.getD s.i_message 0) (c % 256)
        msglen := (s.msglen + 1) % 2 ^ 64
        i_message := (s.i_message + 1) % 2 ^ 64 })
    else (0, some { s with event := SHA256T_FSM_INPUT_UPDATE })

/-- Macro `NEXT_W()`: the eleven assignments of the source, in order; the last one reads
`W64[16]`, the field `sig0`. -/
def NEXT_W (p : tsha512t256r.tsha512 × List Nat) : tsha512t256r.tsha512 × List Nat :=
  let s := p.1
  let W64 := p.2
  let W64 := W64.set 0 (W64.getD 1 0)
  let W64 := W64.set 1 (W64.getD 2 0)
  let W64 := W64.set 2 (W64.getD 3 0)
  let W64 := W64.set 4 (W64.getD 5 0)
  let W64 := W64.set 6 (W64.getD 7 0)
  let W64 := W64.set 8 (W64.getD 9 0)
  let W64 := W64.set 10 (W64.getD 11 0)
  let W64 := W64.set 11 (W64.getD 12 0)
  let W64 := W64.set 13 (W64.getD 14 0)
  let W64 := W64.set 14 (W64.getD 15 0)
  let W64 := W64.set 15 s.sig0
  (s, W64)

/-- Macro `DO_EXPANSION_PLAIN()`: the third assignment stores `W64[16]`, that is it
overwrites the field `sig0` that the first assignment has set. -/
def DO_EXPANSION_PLAIN (p : tsha512t256r.tsha512 × List Nat) :
    tsha512t256r.tsha512 × List Nat :=
  let s := p.1
  let W64 := p.2
  let s := { s with sig0 := ROTRQ (W64.getD 1 0) 1
                            ^^^ ROTRQ (W64.getD 1 0) 8
                            ^^^ (W64.getD 1 0 >>> 7) }
  let s := { s with sig1 := ROTRQ (W64.getD 14 0) 19
                            ^^^ ROTRQ (W64.getD 14 0) 61
                            ^^^ (W64.getD 14 0 >>> 6) }
  let s := { s with sig0 := (W64.getD 0 0
                             + s.sig0
                             + W64.getD 9 0
                             + s.sig1) % 2 ^ 64 }
  (s, W64)

/-- Macro `DO_COMPRESSION_PLAIN(k)`; `a`..`h` are `A[0]`..`A[7]` and `W64[16]` is the field
`sig0`. -/
def DO_COMPRESSION_PLAIN (k : Nat) (p : tsha512t256r.tsha512 × List Nat) :
    tsha512t256r.tsha512 × List Nat :=
  let s := p.1
  let a := s.A.getD 0 0
  let b := s.A.getD 1 0
  let c := s.A.getD 2 0
  let d := s.A.getD 3 0
  let e := s.A.getD 4 0
  let f := s.A.getD 5 0
  let g := s.A.getD 6 0
  let h := s.A.getD 7 0
  let s := { s with Ch := (e &&& f) ^^^ ((e ^^^ 0xffffffffffffffff) &&& g) }
  let s := { s with Maj := (a &&& b) ^^^ (a &&& c) ^^^ (b &&& c) }
  let s := { s with SIG0 := ROTRQ a 28 ^^^ ROTRQ a 34 ^^^ ROTRQ a 39 }
  let s := { s with SIG1 := ROTRQ e 14 ^^^ ROTRQ e 18 ^^^ ROTRQ e 41 }
  let s := { s with T1 := (h
                           + s.SIG1
                           + s.Ch
                           + k
                           + s.sig0) % 2 ^ 64 }
  let s := { s with T2 := (s.SIG0 + s.Maj) % 2 ^ 64 }
  ({ s with A := [(s.T1 + s.T2) % 2 ^ 64, a, b, c, (d + s.T1) % 2 ^ 64, e, f, g] }, p.2)

/-- Macro `DO_MESSAGE_EXPANSION()`: one `DO_EXPANSION_PLAIN()`. -/
def DO_MESSAGE_EXPANSION (p : tsha512t256r.tsha512 × List Nat) :
    tsha512t256r.tsha512 × List Nat :=
  DO_EXPANSION_PLAIN p

/-- Macro `DO_MESSAGE_COMPRESSION()`: `DO_COMPRESSION_PLAIN(K[16])`, then for each of
`K[17]`..`K[79]` in order `NEXT_W()` followed by `DO_COMPRESSION_PLAIN(K[j])`. -/
def DO_MESSAGE_COMPRESSION (p : tsha512t256r.tsha512 × List Nat) :
    tsha512t256r.tsha512 × List Nat :=
  (List.range' 17 63).foldl (fun acc j => DO_COMPRESSION_PLAIN (K.getD j 0) (NEXT_W acc))
    (DO_COMPRESSION_PLAIN (K.getD 16 0) p)

/-- Function `_plain_sha256t_complete_message_block` of `main-tsha512t256hp.c` (the Lean name
drops the leading underscore), on the view `W64` of `W8`. -/
def plain_sha256t_complete_message_block (state : tsha512t256r.tsha512) :
    tsha512t256r.tsha512 :=
  let r := DO_MESSAGE_EXPANSION (state, W64_of_W8 state.W8)
  let s := r.1
  let s := { s with A :=
    [s.digest.getD 0 0, s.digest.getD 1 0, s.digest.getD 2 0, s.digest.getD 3 0,
     s.digest.getD 4 0, s.digest.getD 5 0, s.digest.getD 6 0, s.digest.getD 7 0] }
  let r := DO_MESSAGE_COMPRESSION (s, r.2)
  let s := r.1
  let W64 := r.2
  let s := { s with digest := s.digest.set 0 ((s.A.getD 0 0 + s.digest.getD 0 0) % 2 ^ 64) }
  let s := { s with digest := s.digest.set 1 ((s.A.getD 1 0 + s.digest.getD 1 0) % 2 ^ 64) }
  let s := { s with digest := s.digest.set 2 ((s.A.getD 2 0 + s.digest.getD 2 0) % 2 ^ 64) }
  let s := { s with digest := s.digest.set 3 ((s.A.getD 3 0 + s.digest.getD 3 0) % 2 ^ 64) }
  let s := { s with digest := s.digest.set 4 ((s.A.getD 4 0 + s.digest.getD 4 0) % 2 ^ 64) }
  let s := { s with digest := s.digest.set 5 ((s.A.getD 5 0 + s.digest.getD 5 0) % 2 ^ 64) }
  let s := { s with digest := s.digest.set 6 ((s.A.getD 6 0 + s.digest.getD 6 0) % 2 ^ 64) }
  let s := { s with digest := s.digest.set 7 ((s.A.getD 7 0 + s.digest.getD 7 0) % 2 ^ 64) }
  { s with i_message := 0,
           W8 := tsha512t256r.memset0 (tsha512t256r.W8_of_W64 W64) MESSAGE_SIZE_BYTES }

/-- The length stored by `plain_sha256t_update`: `*len128 = state->msglen << 3`, a shift on
`u64`, and the loop that stores the bytes `len8[i]` of `len128` (least significant first) at
`W8[seq2[i]]`. -/
def store_length (state : tsha512t256r.tsha512) : tsha512t256r.tsha512 :=
  let len128 := (state.msglen <<< 3) % 2 ^ 64
  for_loop 0 L_SIZE_BYTES
    (fun i s => { s with W8 := s.W8.set (seq2.getD i 0) (len128 / 2 ^ (8 * i) % 256) }) state

/-- Function `plain_sha256t_update`. -/
def plain_sha256t_update (state : tsha512t256r.tsha512) (finish : Nat) :
    tsha512t256r.tsha512 :=
  if finish = 1 ∨ state.i_message ≥ MESSAGE_SIZE_BYTES then
    if state.event = SHA256T_FSM_INPUT then
      if finish = 1 then
        { state with event := SHA256T_FSM_INPUT_UPDATE }
      else state
    else if state.event = SHA256T_FSM_INPUT_UPDATE then
      if finish = 1 then
        { state with event := SHA256T_FSM_APPEND_1BIT }
      else
        let s := plain_sha256t_complete_message_block state
        { s with event := SHA256T_FSM_INPUT }
    else if state.event = SHA256T_FSM_APPEND_1BIT then
      if state.i_message < MESSAGE_SIZE_BYTES then
        let s := { state with W8 := state.W8.set (seq.getD state.i_message 0) 0x80 }
        let s := { s with i_message := (s.i_message + 1) % 2 ^ 64 }
        { s with event := SHA256T_FSM_APPEND_0_PADDING }
      else
        let s := plain_sha256t_complete_message_block state
        let s := { s with W8 := s.W8.set (seq.getD s.i_message 0) 0x80 }
        let s := { s with i_message := (s.i_message + 1) % 2 ^ 64 }
        { s with event := SHA256T_FSM_APPEND_0_PADDING }
    else if state.event = SHA256T_FSM_APPEND_0_PADDING then
      if state.i_message < MESSAGE_SIZE_BYTES - L_SIZE_BYTES then
        { state with event := SHA256T_FSM_APPEND_LENGTH }
      else
        let s := plain_sha256t_complete_message_block state
        { s with event := SHA256T_FSM_APPEND_0_PADDING }
    else if state.event = SHA256T_FSM_APPEND_LENGTH then
      if state.i_message < MESSAGE_SIZE_BYTES - L_SIZE_BYTES then
        let s := store_length state
        let s1 := plain_sha256t_complete_message_block s
        { s1 with event := SHA256T_FSM_COMPLETE }
      else
        { state with event := SHA256T_FSM_ERROR }
    else
      { state with event := SHA256T_FSM_ERROR }
  else state

/-- The loop `while (i < bytes)` of `run_tests` in `main-tsha512t256hp.c`; the counter `i` is
a `u32`. -/
def run_tests_while : Nat → List Nat → Nat → tsha512t256r.tsha512 →
    Option (Option tsha512t256r.tsha512)
  | 0, _, _, _ => none
  | fuel + 1, message, i, state =>
    if i < message.length then
      match plain_sha256t_getch (some state) (message.getD i 0) with
      | (bytes_read, some state1) =>
        if bytes_read < 0 then some none
        else
          let i1 := (i + bytes_read.toNat) % 2 ^ 32
          if state1.event = SHA256T_FSM_INPUT_UPDATE then
            run_tests_while fuel message i1 (plain_sha256t_update state1 0)
          else run_tests_while fuel message i1 state1
      | (_, none) => some none
    else some (some state)

/-- The loop `do plain_sha256t_update(&state, 1); while (event != COMPLETE && event != ERROR)`. -/
def run_tests_do_while : Nat → tsha512t256r.tsha512 → Option tsha512t256r.tsha512
  | 0, _ => none
  | fuel + 1, state =>
    let s := plain_sha256t_update state 1
    if s.event ≠ SHA256T_FSM_COMPLETE ∧ s.event ≠ SHA256T_FSM_ERROR then
      run_tests_do_while fuel s
    else some s

/-- What `run_tests` of `main-tsha512t256hp.c` holds after
`memcpy(digest, hashcode, DIGEST_SIZE_BYTES)` (lines 608-632): the event on which the do-while
loop ended and the `DIGEST_SIZE_WORDS` copied words, which `memcmp` compares with
`expected_digest`. The result is `none` when the fuel does not suffice or on the early exit. -/
def run_tests_digest (fuel : Nat) (state : tsha512t256r.tsha512) (message : List Nat) :
    Option (Nat × List Nat) :=
  match run_tests_while fuel message 0 (plain_sha256t_reset state) with
  | some (some state1) =>
    match run_tests_do_while fuel state1 with
    | some state2 => some (state2.event, (plain_sha256t_get_hashcode state2).take DIGEST_SIZE_WORDS)
    | none => none
  | _ => none

/-- The digests `t0`, `t1`, `t2` that `run_tests` of `main-tsha512t256hp.c` expects for the
empty message, for `abc` and for the 112-byte message. -/
def expected_digests : List (List Nat) := [
  [0xC672B8D1EF56ED28, 0xAB87C3622C511406, 0x9BDD3AD7B8F97374, 0x98D0C01ECEF0967A],
  [0x53048E2681941EF9, 0x9B2E29B76B4C7DAB, 0xE4C2D0C634FC6D46, 0xE0E2F13107E7AF23],
  [0x3928E184FB8690F8, 0x40DA3988121D31BE, 0x65CB9D3EF83EE614, 0x6FEAC861E19B563A]]

end tsha512t256hp

/-! ## Fuel -/

namespace tsha256r

theorem run_tests_while_mono (k : Nat) (message : List Nat) :
    ∀ (n i : Nat) (state : tsha256) (calls : List tsha256) (r : Option (tsha256 × List tsha256)),
      run_tests_while n message i state calls = some r →
      run_tests_while (n + k) message i state calls = some r := by
  intro n
  induction n with
  | zero => intro i state calls r h; simp [run_tests_while] at h
  | succ n ih =>
    intro i state calls r h
    rw [Nat.succ_add]
    unfold run_tests_while at h ⊢
    split
    · rename_i hi
      rw [if_pos hi] at h
      split
      · rename_i br st1 heq
        rw [heq] at h
        simp only at h
        split
        · rename_i hneg; rw [if_pos hneg] at h; exact h
        · rename_i hneg
          rw [if_neg hneg] at h
          split
          · rename_i hev; rw [if_pos hev] at h; exact ih _ _ _ _ h
          · rename_i hev; rw [if_neg hev] at h; exact ih _ _ _ _ h
      · rename_i br heq
        rw [heq] at h
        exact h
    · rename_i hi
      rw [if_neg hi] at h
      exact h

theorem run_tests_do_while_mono (k : Nat) :
    ∀ (n : Nat) (state : tsha256) (calls : List tsha256) (r : tsha256 × List tsha256),
      run_tests_do_while n state calls = some r →
      run_tests_do_while (n + k) state calls = some r := by
  intro n
  induction n with
  | zero => intro state calls r h; simp [run_tests_do_while] at h
  | succ n ih =>
    intro state calls r h
    rw [Nat.succ_add]
    unfold run_tests_do_while at h ⊢
    simp only at h ⊢
    split
    · rename_i hc; rw [if_pos hc] at h; exact ih _ _ _ h
    · rename_i hc; rw [if_neg hc] at h; exact h

theorem run_tests_hash_mono (k n : Nat) (state : tsha256) (message : List Nat) (o : outcome)
    (h : run_tests_hash n state message = some o) :
    run_tests_hash (n + k) state message = some o := by
  unfold run_tests_hash at h ⊢
  cases h1 : run_tests_while n message 0 (tsha256r_reset state) [] with
  | none => rw [h1] at h; simp at h
  | some r =>
    rw [h1] at h
    rw [run_tests_while_mono k message n 0 _ _ r h1]
    cases r with
    | none => exact h
    | some p =>
      obtain ⟨st, c⟩ := p
      simp only at h ⊢
      cases h2 : run_tests_do_while n st c with
      | none => rw [h2] at h; simp at h
      | some q =>
        rw [h2] at h
        rw [run_tests_do_while_mono k n st c q h2]
        exact h

theorem run_tests_hash_reset (fuel : Nat) (state : tsha256) (message : List Nat) :
    run_tests_hash fuel state message = run_tests_hash fuel zero_state message := rfl

/-- A result computed with fuel `n` from the all-zero record is the result for every larger
fuel and every content of the local variable `state`. -/
theorem run_tests_digest_of_eval (n k : Nat) (state : tsha256) (message : List Nat)
    (r : Nat × List Nat) (h : run_tests_digest n zero_state message = some r) :
    run_tests_digest (n + k) state message = some r := by
  unfold run_tests_digest at h ⊢
  rw [run_tests_hash_reset]
  cases h1 : run_tests_hash n zero_state message with
  | none => rw [h1] at h; simp at h
  | some o =>
    rw [h1] at h
    rw [run_tests_hash_mono k n zero_state message o h1]
    exact h

theorem run_tests_calls_of_eval (n k : Nat) (state : tsha256) (message : List Nat)
    (r : Nat) (h : run_tests_calls n zero_state message = some r) :
    run_tests_calls (n + k) state message = some r := by
  unfold run_tests_calls at h ⊢
  rw [run_tests_hash_reset]
  cases h1 : run_tests_hash n zero_state message with
  | none => rw [h1] at h; simp at h
  | some o =>
    rw [h1] at h
    rw [run_tests_hash_mono k n zero_state message o h1]
    exact h

theorem run_tests_buffer_of_eval (n k : Nat) (state : tsha256) (message : List Nat)
    (r : Nat × Nat) (h : run_tests_buffer n zero_state message = some r) :
    run_tests_buffer (n + k) state message = some r := by
  unfold run_tests_buffer at h ⊢
  rw [show tsha256r_reset state = tsha256r_reset zero_state from rfl]
  cases h1 : run_tests_while n message 0 (tsha256r_reset zero_state) [] with
  | none => rw [h1] at h; simp at h
  | some o =>
    rw [h1] at h
    rw [run_tests_while_mono k message n 0 _ _ o h1]
    exact h

end tsha256r

namespace tsha512t256r

theorem run_tests512_while_mono (k : Nat) (message : List Nat) :
    ∀ (n i : Nat) (state : tsha512) (calls : List tsha512) (r : Option (tsha512 × List tsha512)),
      run_tests_while n message i state calls = some r →
      run_tests_while (n + k) message i state calls = some r := by
  intro n
  induction n with
  | zero => intro i state calls r h; simp [run_tests_while] at h
  | succ n ih =>
    intro i state calls r h
    rw [Nat.succ_add]
    unfold run_tests_while at h ⊢
    split
    · rename_i hi
      rw [if_pos hi] at h
      split
      · rename_i br st1 heq
        rw [heq] at h
        simp only at h
        split
        · rename_i hneg; rw [if_pos hneg] at h; exact h
        · rename_i hneg
          rw [if_neg hneg] at h
          split
          · rename_i hev; rw [if_pos hev] at h; exact ih _ _ _ _ h
          · rename_i hev; rw [if_neg hev] at h; exact ih _ _ _ _ h
      · rename_i br heq
        rw [heq] at h
        exact h
    · rename_i hi
      rw [if_neg hi] at h
      exact h

theorem run_tests512_do_while_mono (k : Nat) :
    ∀ (n : Nat) (state : tsha512) (calls : List tsha512) (r : tsha512 × List tsha512),
      run_tests_do_while n state calls = some r →
      run_tests_do_while (n + k) state calls = some r := by
  intro n
  induction n with
  | zero => intro state calls r h; simp [run_tests_do_while] at h
  | succ n ih =>
    intro state calls r h
    rw [Nat.succ_add]
    unfold run_tests_do_while at h ⊢
    simp only at h ⊢
    split
    · rename_i hc; rw [if_pos hc] at h; exact ih _ _ _ h
    · rename_i hc; rw [if_neg hc] at h; exact h

theorem run_tests512_hash_mono (k n : Nat) (state : tsha512) (message : List Nat) (o : outcome)
    (h : run_tests_hash n state message = some o) :
    run_tests_hash (n + k) state message = some o := by
  unfold run_tests_hash at h ⊢
  cases h1 : run_tests_while n message 0 (plain_sha512t256_reset state) [] with
  | none => rw [h1] at h; simp at h
  | some r =>
    rw [h1] at h
    rw [run_tests512_while_mono k message n 0 _ _ r h1]
    cases r with
    | none => exact h
    | some p =>
      obtain ⟨st, c⟩ := p
      simp only at h ⊢
      cases h2 : run_tests_do_while n st c with
      | none => rw [h2] at h; simp at h
      | some q =>
        rw [h2] at h
        rw [run_tests512_do_while_mono k n st c q h2]
        exact h

theorem run_tests512_hash_reset (fuel : Nat) (state : tsha512) (message : List Nat) :
    run_tests_hash fuel state message = run_tests_hash fuel zero_state message := rfl

/-- A result computed with fuel `n` from the all-zero record is the result for every larger
fuel and every content of the local variable `state`. -/
theorem run_tests512_digest_of_eval (n k : Nat) (state : tsha512) (message : List Nat)
    (r : Nat × List Nat) (h : run_tests_digest n zero_state message = some r) :
    run_tests_digest (n + k) state message = some r := by
  unfold run_tests_digest at h ⊢
  rw [run_tests512_hash_reset]
  cases h1 : run_tests_hash n zero_state message with
  | none => rw [h1] at h; simp at h
  | some o =>
    rw [h1] at h
    rw [run_tests512_hash_mono k n zero_state message o h1]
    exact h

theorem run_tests512_calls_of_eval (n k : Nat) (state : tsha512) (message : List Nat)
    (r : Nat) (h : run_tests_calls n zero_state message = some r) :
    run_tests_calls (n + k) state message = some r := by
  unfold run_tests_calls at h ⊢
  rw [run_tests512_hash_reset]
  cases h1 : run_tests_hash n zero_state message with
  | none => rw [h1] at h; simp at h
  | some o =>
    rw [h1] at h
    rw [run_tests512_hash_mono k n zero_state message o h1]
    exact h

theorem run_tests512_truncated_of_eval (n k : Nat) (state : tsha512) (message : List Nat)
    (r : Nat × List Nat) (h : run_tests_digest_truncated n zero_state message = some r) :
    run_tests_digest_truncated (n + k) state message = some r := by
  unfold run_tests_digest_truncated at h ⊢
  cases h1 : run_tests_digest n zero_state message with
  | none => rw [h1] at h; simp at h
  | some d =>
    rw [h1] at h
    rw [run_tests512_digest_of_eval n k state message d h1]
    exact h

end tsha512t256r

/-! ## Loops and frame lemmas -/

theorem for_loop_invariant {σ : Type} (P : σ → Prop) (body : Nat → σ → σ)
    (hbody : ∀ j s, P s → P (body j s)) (lo hi : Nat) (s : σ) (hs : P s) :
    P (for_loop lo hi body s) := by
  unfold for_loop
  generalize List.range' lo (hi - lo) = l
  induction l generalizing s with
  | nil => exact hs
  | cons j l ih => exact ih (body j s) (hbody j s hs)

namespace tsha256r

theorem expansion_frame (state : tsha256) (W : List Nat) :
    (for_loop 16 NROUNDS expansion_body (state, W)).1.event = state.event
    ∧ (for_loop 16 NROUNDS expansion_body (state, W)).1.msglen = state.msglen
    ∧ (for_loop 16 NROUNDS expansion_body (state, W)).1.digest = state.digest
    ∧ (for_loop 16 NROUNDS expansion_body (state, W)).2.length = W.length := by
  refine for_loop_invariant
    (fun p => p.1.event = state.event ∧ p.1.msglen = state.msglen
      ∧ p.1.digest = state.digest ∧ p.2.length = W.length) expansion_body ?_ 16 NROUNDS
    (state, W) ⟨rfl, rfl, rfl, rfl⟩
  intro j p hp
  simpa [expansion_body] using hp

theorem compression_frame (W : List Nat) (state : tsha256) :
    (for_loop 0 NROUNDS (compression_body W) state).event = state.event
    ∧ (for_loop 0 NROUNDS (compression_body W) state).msglen = state.msglen
    ∧ (for_loop 0 NROUNDS (compression_body W) state).digest = state.digest := by
  refine for_loop_invariant
    (fun s => s.event = state.event ∧ s.msglen = state.msglen ∧ s.digest = state.digest)
    (compression_body W) ?_ 0 NROUNDS state ⟨rfl, rfl, rfl⟩
  intro j s hs
  simpa [compression_body] using hs

theorem W8_of_W32_length (W : List Nat) : (W8_of_W32 W).length = 4 * W.length := by
  induction W with
  | nil => rfl
  | cons v W ih => simp [W8_of_W32, ih]; omega

theorem complete_event (state : tsha256) :
    (tsha256r_complete_message_block state).event = state.event := by
  simp [tsha256r_complete_message_block, (compression_frame _ _).1, (expansion_frame _ _).1]

theorem complete_msglen (state : tsha256) :
    (tsha256r_complete_message_block state).msglen = state.msglen := by
  simp [tsha256r_complete_message_block, (compression_frame _ _).2.1, (expansion_frame _ _).2.1]

theorem complete_i_message (state : tsha256) :
    (tsha256r_complete_message_block state).i_message = 0 := rfl

theorem complete_W8_length (state : tsha256) :
    (tsha256r_complete_message_block state).W8.length = 256 := by
  simp [tsha256r_complete_message_block, memset0, W8_of_W32_length,
    (expansion_frame _ _).2.2.2, W32_of_W8, NW, MSIZE_BYTES]

theorem complete_W8_getD (state : tsha256) (i : Nat) (hi : i < 64) :
    (tsha256r_complete_message_block state).W8.getD i 0 = 0 := by
  simp only [tsha256r_complete_message_block, memset0, MSIZE_BYTES]
  rw [List.getD_eq_getElem?_getD, List.getElem?_append_left (by rw [List.length_replicate]; exact hi),
    List.getElem?_replicate, if_pos hi]
  rfl

end tsha256r

namespace tsha256r

/-! ## One call of `tsha256r_getch` and of `tsha256r_update` -/

theorem getch_accepts (s : tsha256) (c : Nat) (hev : s.event = SHA256B_FSM_INPUT)
    (hi : s.i_message < MSIZE_BYTES) :
    tsha256r_getch (some s) c = (1, some (getch_accepted s c)) := by
  simp [tsha256r_getch, hev, hi, getch_accepted]

theorem update_input_finish (s : tsha256) (hev : s.event = SHA256B_FSM_INPUT) :
    tsha256r_update_traced s 1 = ({ s with event := SHA256B_FSM_INPUT_UPDATE }, []) := by
  simp [tsha256r_update_traced, hev]

theorem update_input_update_finish (s : tsha256) (hev : s.event = SHA256B_FSM_INPUT_UPDATE) :
    tsha256r_update_traced s 1 = ({ s with event := SHA256B_FSM_APPEND_1BIT }, []) := by
  simp [tsha256r_update_traced, hev, SHA256B_FSM_INPUT_UPDATE, SHA256B_FSM_INPUT]

theorem update_append_1bit_room (s : tsha256) (hev : s.event = SHA256B_FSM_APPEND_1BIT)
    (hi : s.i_message < MSIZE_BYTES) :
    tsha256r_update_traced s 1 = (marker_stored s, []) := by
  simp [tsha256r_update_traced, hev, hi, SHA256B_FSM_INPUT_UPDATE, SHA256B_FSM_INPUT,
    SHA256B_FSM_APPEND_1BIT, marker_stored]

theorem update_append_0_padding_room (s : tsha256) (hev : s.event = SHA256B_FSM_APPEND_0_PADDING)
    (hi : s.i_message < MSIZE_BYTES - LSIZE_BYTES) :
    tsha256r_update_traced s 1 = ({ s with event := SHA256B_FSM_APPEND_LENGTH }, []) := by
  simp [tsha256r_update_traced, hev, hi, SHA256B_FSM_INPUT_UPDATE, SHA256B_FSM_INPUT,
    SHA256B_FSM_APPEND_1BIT, SHA256B_FSM_APPEND_0_PADDING]

theorem update_append_0_padding_flush (s : tsha256) (hev : s.event = SHA256B_FSM_APPEND_0_PADDING)
    (hi : ¬ s.i_message < MSIZE_BYTES - LSIZE_BYTES) :
    tsha256r_update_traced s 1 =
      ({ tsha256r_complete_message_block s with event := SHA256B_FSM_APPEND_0_PADDING }, [s]) := by
  simp [tsha256r_update_traced, hev, hi, SHA256B_FSM_INPUT_UPDATE, SHA256B_FSM_INPUT,
    SHA256B_FSM_APPEND_1BIT, SHA256B_FSM_APPEND_0_PADDING]

theorem update_append_length_room (s : tsha256) (hev : s.event = SHA256B_FSM_APPEND_LENGTH)
    (hi : s.i_message < MSIZE_BYTES - LSIZE_BYTES) :
    tsha256r_update_traced s 1 =
      ({ tsha256r_complete_message_block (store_length s) with event := SHA256B_FSM_COMPLETE },
        [store_length s]) := by
  simp [tsha256r_update_traced, hev, hi, SHA256B_FSM_INPUT_UPDATE, SHA256B_FSM_INPUT,
    SHA256B_FSM_APPEND_1BIT, SHA256B_FSM_APPEND_0_PADDING, SHA256B_FSM_APPEND_LENGTH]

/-! ## The loops of the driver, one iteration at a time -/

theorem do_while_continue (n : Nat) (s : tsha256) (calls : List tsha256)
    (h1 : (tsha256r_update_traced s 1).1.event ≠ SHA256B_FSM_COMPLETE)
    (h2 : (tsha256r_update_traced s 1).1.event ≠ SHA256B_FSM_ERROR) :
    run_tests_do_while (n + 1) s calls =
      run_tests_do_while n (tsha256r_update_traced s 1).1
        (calls ++ (tsha256r_update_traced s 1).2) := by
  rw [run_tests_do_while]
  simp [h1, h2]

theorem do_while_stop (n : Nat) (s : tsha256) (calls : List tsha256)
    (h1 : (tsha256r_update_traced s 1).1.event = SHA256B_FSM_COMPLETE) :
    run_tests_do_while (n + 1) s calls =
      some ((tsha256r_update_traced s 1).1, calls ++ (tsha256r_update_traced s 1).2) := by
  rw [run_tests_do_while]
  simp [h1]

theorem store_length_unfold (s : tsha256) :
    store_length s =
      { s with W8 :=
          ((((((((s.W8.set 60 (s.msglen * 8 % 2 ^ 64 / 2 ^ 0 % 256)).set
            61 (s.msglen * 8 % 2 ^ 64 / 2 ^ 8 % 256)).set
            62 (s.msglen * 8 % 2 ^ 64 / 2 ^ 16 % 256)).set
            63 (s.msglen * 8 % 2 ^ 64 / 2 ^ 24 % 256)).set
            56 (s.msglen * 8 % 2 ^ 64 / 2 ^ 32 % 256)).set
            57 (s.msglen * 8 % 2 ^ 64 / 2 ^ 40 % 256)).set
            58 (s.msglen * 8 % 2 ^ 64 / 2 ^ 48 % 256)).set
            59 (s.msglen * 8 % 2 ^ 64 / 2 ^ 56 % 256)) } := rfl

end tsha256r

namespace tsha256r

/-! ## The placement table and the stream-order view of the buffer -/

theorem seq_lt : ∀ p, p < 64 → seq.getD p 0 < 64 := by decide!

theorem seq_injective : ∀ p, p < 64 → ∀ q, q < 64 → seq.getD p 0 = seq.getD q 0 → p = q := by
  decide!

theorem getD_set_self (l : List Nat) (i v : Nat) (hi : i < l.length) :
    (l.set i v).getD i 0 = v := by
  simp [List.getD_eq_getElem?_getD, List.getElem?_set, hi]

theorem getD_set_other (l : List Nat) (i j v : Nat) (hij : i ≠ j) :
    (l.set i v).getD j 0 = l.getD j 0 := by
  simp [List.getD_eq_getElem?_getD, List.getElem?_set, hij]

theorem stream_of_length (W : List Nat) : (stream_of W).length = 64 := by
  simp [stream_of, MSIZE_BYTES]

theorem stream_of_getElem (W : List Nat) (p : Nat) (hp : p < (stream_of W).length) :
    (stream_of W)[p] = W.getD (seq.getD p 0) 0 := by
  simp [stream_of]

/-- Storing a byte at `W8[seq[k]]` changes exactly byte `k` of the stream-order view. -/
theorem stream_of_set (W : List Nat) (k i v : Nat) (hk : k < 64) (hW : 64 ≤ W.length)
    (hi : seq.getD k 0 = i) :
    stream_of (W.set i v) = (stream_of W).set k v := by
  subst hi
  apply List.ext_getElem
  · simp [stream_of_length]
  · intro p hp1 hp2
    have hp : p < 64 := by simpa [stream_of_length] using hp1
    rw [stream_of_getElem, List.getElem_set]
    by_cases hkp : k = p
    · subst hkp
      rw [if_pos rfl]
      exact getD_set_self _ _ _ (lt_of_lt_of_le (seq_lt k hk) hW)
    · rw [if_neg hkp, stream_of_getElem]
      exact getD_set_other _ _ _ _ (fun h => hkp (seq_injective k hk p hp h))

theorem stream_of_zero (W : List Nat) (hz : ∀ i, i < 64 → W.getD i 0 = 0) :
    stream_of W = List.replicate 64 0 := by
  apply List.ext_getElem
  · simp [stream_of_length]
  · intro p hp1 hp2
    have hp : p < 64 := by simpa [stream_of_length] using hp1
    rw [stream_of_getElem, hz _ (seq_lt p hp), List.getElem_replicate]

end tsha256r

namespace tsha256r

/-! ## Ingestion of less than one block -/

theorem while_ingest (message : List Nat) (k : Nat) :
    ∀ (n i : Nat) (s : tsha256) (calls : List tsha256),
      i + n = message.length → s.event = SHA256B_FSM_INPUT → s.i_message + n ≤ 64 →
      run_tests_while (n + 1 + k) message i s calls =
        some (some ((message.drop i).foldl getch_accepted s, calls)) := by
  intro n
  induction n with
  | zero =>
    intro i s calls hi _ _
    have hlen : ¬ i < message.length := by omega
    have hdrop : message.drop i = [] := List.drop_eq_nil_of_le (by omega)
    rw [show 0 + 1 + k = k + 1 by omega, run_tests_while, if_neg hlen, hdrop]
    rfl
  | succ n ih =>
    intro i s calls hi hev hroom
    have hlen : i < message.length := by omega
    have hlt : s.i_message < MSIZE_BYTES := by simp only [MSIZE_BYTES]; omega
    have hev1 : (getch_accepted s (message.getD i 0)).event = SHA256B_FSM_INPUT := hev
    have hne : ¬ (getch_accepted s (message.getD i 0)).event = SHA256B_FSM_INPUT_UPDATE := by
      rw [hev1]; decide
    have hroom1 : (getch_accepted s (message.getD i 0)).i_message + n ≤ 64 := by
      simp only [getch_accepted]; omega
    rw [show n + 1 + 1 + k = (n + 1 + k) + 1 by omega, run_tests_while, if_pos hlen,
      getch_accepts s _ hev hlt]
    simp only [if_neg hne]
    rw [if_neg (by decide : ¬ ((1 : Int) < 0)), show i + Int.toNat 1 = i + 1 from rfl,
      ih (i + 1) _ calls (by omega) hev1 hroom1, List.drop_eq_getElem_cons hlen,
      List.getD_eq_getElem _ _ hlen]
    rfl

theorem append_replicate_set (done : List Nat) (m v : Nat) :
    (done ++ List.replicate (m + 1) 0).set done.length v = done ++ [v] ++ List.replicate m 0 := by
  induction done with
  | nil => simp [List.replicate_succ]
  | cons a done ih => simpa using ih

/-- Invariant of the accepted bytes: the stream-order view is the bytes stored so far, then
zeros. -/
theorem ingest_fold (l : List Nat) :
    ∀ (s : tsha256) (done : List Nat),
      s.event = SHA256B_FSM_INPUT → s.i_message = done.length → done.length + l.length ≤ 64 →
      s.W8.length = 256 → stream_bytes s = done ++ List.replicate (64 - done.length) 0 →
      s.msglen < 2 ^ 64 →
      (l.foldl getch_accepted s).event = SHA256B_FSM_INPUT
      ∧ (l.foldl getch_accepted s).i_message = done.length + l.length
      ∧ (l.foldl getch_accepted s).W8.length = 256
      ∧ stream_bytes (l.foldl getch_accepted s) =
          done ++ l.map (fun c => c % 256) ++ List.replicate (64 - (done.length + l.length)) 0
      ∧ (l.foldl getch_accepted s).msglen = (s.msglen + l.length) % 2 ^ 64
      ∧ (l.foldl getch_accepted s).digest = s.digest := by
  induction l with
  | nil =>
    intro s done hev hi hroom hW hst hm
    refine ⟨hev, by simpa using hi, hW, by simpa using hst, ?_, rfl⟩
    simp only [List.foldl_nil, List.length_nil, Nat.add_zero]
    exact (Nat.mod_eq_of_lt hm).symm
  | cons c l ih =>
    intro s done hev hi hroom hW hst hm
    have hlen : (c :: l).length = l.length + 1 := rfl
    have hk : done.length < 64 := by omega
    have hi1 : (getch_accepted s c).i_message = (done ++ [c % 256]).length := by
      simp only [getch_accepted, hi, List.length_append, List.length_singleton]
      omega
    have hW1 : (getch_accepted s c).W8.length = 256 := by
      simp only [getch_accepted, List.length_set, hW]
    have hst1 : stream_bytes (getch_accepted s c) =
        (done ++ [c % 256]) ++ List.replicate (64 - (done ++ [c % 256]).length) 0 := by
      have hst0 : stream_of s.W8 = done ++ List.replicate (64 - done.length) 0 := hst
      rw [show stream_bytes (getch_accepted s c)
            = stream_of (s.W8.set (seq.getD s.i_message 0) (c % 256)) from rfl,
        stream_of_set s.W8 done.length _ (c % 256) hk (by omega) (by rw [hi]), hst0,
        show 64 - done.length = (63 - done.length) + 1 by omega, append_replicate_set]
      simp only [List.length_append, List.length_singleton]
      rw [show 64 - (done.length + 1) = 63 - done.length by omega]
    have hm1 : (getch_accepted s c).msglen < 2 ^ 64 := Nat.mod_lt _ (by norm_num)
    obtain ⟨h1, h2, h3, h4, h5, h6⟩ := ih (getch_accepted s c) (done ++ [c % 256]) hev hi1
      (by simp only [List.length_append, List.length_singleton]; omega) hW1 hst1 hm1
    refine ⟨h1, ?_, h3, ?_, ?_, h6⟩
    · rw [List.foldl_cons, h2, List.length_append, List.length_singleton, hlen]; omega
    · rw [List.foldl_cons, h4, List.length_append, List.length_singleton, hlen, List.map_cons,
        show done.length + 1 + l.length = done.length + (l.length + 1) by omega]
      simp
    · rw [List.foldl_cons, h5, hlen]
      simp only [getch_accepted]
      omega

end tsha256r

namespace tsha256r

/-! ## Finalization when the marker byte leaves no room for the length field -/

/-- From a record in `INPUT` with 55 to 63 buffered bytes, the do-while loop of the driver ends
after six calls of `tsha256r_update`, and the Block Finalizer is invoked on two records. -/
theorem finish_two_blocks (s : tsha256) (calls : List tsha256) (k : Nat)
    (hev : s.event = SHA256B_FSM_INPUT) (hlo : 55 ≤ s.i_message) (hhi : s.i_message ≤ 63) :
    run_tests_do_while (6 + k) s calls =
      some ({ tsha256r_complete_message_block (store_length
                { tsha256r_complete_message_block
                    (marker_stored { s with event := SHA256B_FSM_APPEND_1BIT })
                  with event := SHA256B_FSM_APPEND_LENGTH })
              with event := SHA256B_FSM_COMPLETE },
            calls ++ [marker_stored { s with event := SHA256B_FSM_APPEND_1BIT },
                      store_length
                        { tsha256r_complete_message_block
                            (marker_stored { s with event := SHA256B_FSM_APPEND_1BIT })
                          with event := SHA256B_FSM_APPEND_LENGTH }]) := by
  have e1 := update_input_finish s hev
  rw [show 6 + k = (k + 5) + 1 by omega,
    do_while_continue (k + 5) s calls
      (by rw [e1]; exact (by decide : SHA256B_FSM_INPUT_UPDATE ≠ SHA256B_FSM_COMPLETE))
      (by rw [e1]; exact (by decide : SHA256B_FSM_INPUT_UPDATE ≠ SHA256B_FSM_ERROR)), e1]
  have e2 := update_input_update_finish { s with event := SHA256B_FSM_INPUT_UPDATE } rfl
  rw [do_while_continue (k + 4) _ _
      (by rw [e2]; exact (by decide : SHA256B_FSM_APPEND_1BIT ≠ SHA256B_FSM_COMPLETE))
      (by rw [e2]; exact (by decide : SHA256B_FSM_APPEND_1BIT ≠ SHA256B_FSM_ERROR)), e2]
  have e3 := update_append_1bit_room
    { s with event := SHA256B_FSM_APPEND_1BIT } rfl
    (by simp only [MSIZE_BYTES]; omega)
  rw [do_while_continue (k + 3) _ _
      (by rw [e3]; exact (by decide : SHA256B_FSM_APPEND_0_PADDING ≠ SHA256B_FSM_COMPLETE))
      (by rw [e3]; exact (by decide : SHA256B_FSM_APPEND_0_PADDING ≠ SHA256B_FSM_ERROR)), e3]
  have e4 := update_append_0_padding_flush
    (marker_stored { s with event := SHA256B_FSM_APPEND_1BIT }) rfl
    (by simp only [MSIZE_BYTES, LSIZE_BYTES, marker_stored]; omega)
  rw [do_while_continue (k + 2) _ _
      (by rw [e4]; exact (by decide : SHA256B_FSM_APPEND_0_PADDING ≠ SHA256B_FSM_COMPLETE))
      (by rw [e4]; exact (by decide : SHA256B_FSM_APPEND_0_PADDING ≠ SHA256B_FSM_ERROR)), e4]
  have e5 := update_append_0_padding_room
    { tsha256r_complete_message_block
        (marker_stored { s with event := SHA256B_FSM_APPEND_1BIT })
      with event := SHA256B_FSM_APPEND_0_PADDING } rfl
    (by decide : (0 : Nat) < MSIZE_BYTES - LSIZE_BYTES)
  rw [do_while_continue (k + 1) _ _
      (by rw [e5]; exact (by decide : SHA256B_FSM_APPEND_LENGTH ≠ SHA256B_FSM_COMPLETE))
      (by rw [e5]; exact (by decide : SHA256B_FSM_APPEND_LENGTH ≠ SHA256B_FSM_ERROR)), e5]
  have e6 := update_append_length_room
    { tsha256r_complete_message_block
        (marker_stored { s with event := SHA256B_FSM_APPEND_1BIT })
      with event := SHA256B_FSM_APPEND_LENGTH } rfl
    (by decide : (0 : Nat) < MSIZE_BYTES - LSIZE_BYTES)
  rw [do_while_stop k _ _ (by rw [e6]), e6]
  simp

end tsha256r

namespace tsha256r

/-- After the length field is stored into a buffer that holds zeros, the stream-order view is
56 zero bytes followed by the eight bytes of `msglen * 8`, most significant first. -/
theorem store_length_stream (t : tsha256) (hW : 64 ≤ t.W8.length)
    (hz : stream_bytes t = List.replicate 64 0) :
    stream_bytes (store_length t) =
      List.replicate 56 0 ++
        [t.msglen * 8 % 2 ^ 64 / 2 ^ 56 % 256, t.msglen * 8 % 2 ^ 64 / 2 ^ 48 % 256,
         t.msglen * 8 % 2 ^ 64 / 2 ^ 40 % 256, t.msglen * 8 % 2 ^ 64 / 2 ^ 32 % 256,
         t.msglen * 8 % 2 ^ 64 / 2 ^ 24 % 256, t.msglen * 8 % 2 ^ 64 / 2 ^ 16 % 256,
         t.msglen * 8 % 2 ^ 64 / 2 ^ 8 % 256, t.msglen * 8 % 2 ^ 64 / 2 ^ 0 % 256] := by
  have hz0 : stream_of t.W8 = List.replicate 64 0 := hz
  rw [store_length_unfold]
  simp only [stream_bytes]
  rw [stream_of_set _ 56 59 _ (by decide) (by simpa using hW) rfl,
    stream_of_set _ 57 58 _ (by decide) (by simpa using hW) rfl,
    stream_of_set _ 58 57 _ (by decide) (by simpa using hW) rfl,
    stream_of_set _ 59 56 _ (by decide) (by simpa using hW) rfl,
    stream_of_set _ 60 63 _ (by decide) (by simpa using hW) rfl,
    stream_of_set _ 61 62 _ (by decide) (by simpa using hW) rfl,
    stream_of_set _ 62 61 _ (by decide) (by simpa using hW) rfl,
    stream_of_set _ 63 60 _ (by decide) hW rfl, hz0]
  rfl

theorem length_block_stream (c : tsha256) (e : Nat) (hW : 64 ≤ c.W8.length)
    (hz : ∀ i, i < 64 → c.W8.getD i 0 = 0) :
    stream_bytes (store_length { c with event := e }) =
      List.replicate 56 0 ++
        [c.msglen * 8 % 2 ^ 64 / 2 ^ 56 % 256, c.msglen * 8 % 2 ^ 64 / 2 ^ 48 % 256,
         c.msglen * 8 % 2 ^ 64 / 2 ^ 40 % 256, c.msglen * 8 % 2 ^ 64 / 2 ^ 32 % 256,
         c.msglen * 8 % 2 ^ 64 / 2 ^ 24 % 256, c.msglen * 8 % 2 ^ 64 / 2 ^ 16 % 256,
         c.msglen * 8 % 2 ^ 64 / 2 ^ 8 % 256, c.msglen * 8 % 2 ^ 64 / 2 ^ 0 % 256] :=
  store_length_stream { c with event := e } hW (stream_of_zero _ hz)

end tsha256r

namespace tsha256r

theorem map_mod_256 (l : List Nat) (h : ∀ b ∈ l, b < 256) : l.map (fun c => c % 256) = l := by
  induction l with
  | nil => rfl
  | cons a l ih =>
    rw [List.map_cons, ih (fun b hb => h b (List.mem_cons_of_mem a hb)),
      Nat.mod_eq_of_lt (h a (List.mem_cons_self a l))]

theorem reset_W8_length (state : tsha256) : (tsha256r_reset state).W8.length = 256 := by
  show (List.replicate (NW * WSIZE_BYTES) 0).length = 256
  rw [List.length_replicate]
  rfl

theorem reset_stream_bytes (state : tsha256) :
    stream_bytes (tsha256r_reset state) = List.replicate 64 0 := by
  apply stream_of_zero
  intro i hi
  show (List.replicate (NW * WSIZE_BYTES) 0).getD i 0 = 0
  rw [List.getD_eq_getElem?_getD, List.getElem?_replicate]
  split <;> rfl

/-- The driver on a message of 55 to 63 bytes: the Block Finalizer is invoked on exactly two
records, first on the message followed by the marker byte and zeros up to the end of the
block, then on a block of 56 zero bytes followed by the length field. -/
theorem driver_two_blocks (message : List Nat) (state0 : tsha256) (k : Nat)
    (hlo : 55 ≤ message.length) (hhi : message.length ≤ 63) (hb : ∀ b ∈ message, b < 256) :
    ∃ final c1 c2,
      run_tests_hash (message.length + 1 + k) state0 message = some (outcome.done final [c1, c2])
      ∧ final.event = SHA256B_FSM_COMPLETE
      ∧ stream_bytes c1 = message ++ [0x80] ++ List.replicate (63 - message.length) 0
      ∧ stream_bytes c2 = List.replicate 56 0 ++
          [message.length * 8 % 2 ^ 64 / 2 ^ 56 % 256, message.length * 8 % 2 ^ 64 / 2 ^ 48 % 256,
           message.length * 8 % 2 ^ 64 / 2 ^ 40 % 256, message.length * 8 % 2 ^ 64 / 2 ^ 32 % 256,
           message.length * 8 % 2 ^ 64 / 2 ^ 24 % 256, message.length * 8 % 2 ^ 64 / 2 ^ 16 % 256,
           message.length * 8 % 2 ^ 64 / 2 ^ 8 % 256, message.length * 8 % 2 ^ 64 / 2 ^ 0 % 256] := by
  obtain ⟨h1, h2, h3, h4, h5, _⟩ := ingest_fold message (tsha256r_reset state0) [] rfl rfl
    (by simp only [List.length_nil]; omega) (reset_W8_length state0) (reset_stream_bytes state0)
    (by show (0 : Nat) < 2 ^ 64; norm_num)
  simp only [List.length_nil, Nat.zero_add, List.nil_append, map_mod_256 message hb] at h2 h4
  have hm : (message.foldl getch_accepted (tsha256r_reset state0)).msglen = message.length := by
    have h5' : (message.foldl getch_accepted (tsha256r_reset state0)).msglen
        = (0 + message.length) % 2 ^ 64 := h5
    rw [h5', Nat.zero_add]
    exact Nat.mod_eq_of_lt (lt_of_le_of_lt hhi (by norm_num))
  have hwhile := while_ingest message k message.length 0 (tsha256r_reset state0) [] (by omega) rfl
    (by show 0 + message.length ≤ 64; omega)
  rw [List.drop_zero] at hwhile
  have hfin := finish_two_blocks (message.foldl getch_accepted (tsha256r_reset state0)) []
    (message.length - 5 + k) h1 (by omega) (by omega)
  rw [show 6 + (message.length - 5 + k) = message.length + 1 + k by omega, List.nil_append] at hfin
  refine ⟨{ tsha256r_complete_message_block (store_length
        { tsha256r_complete_message_block
            (marker_stored { message.foldl getch_accepted (tsha256r_reset state0) with
              event := SHA256B_FSM_APPEND_1BIT })
          with event := SHA256B_FSM_APPEND_LENGTH })
      with event := SHA256B_FSM_COMPLETE },
    marker_stored { message.foldl getch_accepted (tsha256r_reset state0) with
      event := SHA256B_FSM_APPEND_1BIT },
    store_length { tsha256r_complete_message_block
        (marker_stored { message.foldl getch_accepted (tsha256r_reset state0) with
          event := SHA256B_FSM_APPEND_1BIT })
      with event := SHA256B_FSM_APPEND_LENGTH }, ?_, ?_, ?_, ?_⟩
  · unfold run_tests_hash
    rw [hwhile]
    simp only []
    rw [hfin]
  · rfl
  · show stream_of ((message.foldl getch_accepted (tsha256r_reset state0)).W8.set _ 0x80) = _
    have h4' : stream_of (message.foldl getch_accepted (tsha256r_reset state0)).W8
        = message ++ List.replicate (64 - message.length) 0 := h4
    rw [stream_of_set _ message.length _ 0x80 (by omega) (by omega) (by rw [← h2]), h4',
      show 64 - message.length = (63 - message.length) + 1 by omega, append_replicate_set]
  · rw [length_block_stream _ _ (by rw [complete_W8_length]; norm_num) (complete_W8_getD _),
      complete_msglen]
    have hm' : (marker_stored { message.foldl getch_accepted (tsha256r_reset state0) with
        event := SHA256B_FSM_APPEND_1BIT }).msglen = message.length := hm
    rw [hm']

end tsha256r

/-! ## The standard and the tables of the sources -/

theorem primes_are_the_first_eighty :
    fips180.primes = (List.range 410).filter fips180.is_prime_below_441
    ∧ fips180.primes.length = 80 := by
  decide!

theorem fips_tables_sha256 :
    fips180.sha256_variant.K = tsha256r.K ∧ fips180.sha256_variant.H0 = tsha256r.H_0 := by
  decide!

theorem fips_tables_sha512t256 :
    fips180.sha512t256_variant.K = tsha512t256r.K
    ∧ fips180.sha512t256_variant.H0 = tsha512t256r.H_0 := by
  decide!

/-- The functional definition reproduces the digests of "abc" published with the standard. -/
theorem fips_known_answers :
    fips180.sha256 message_abc =
      [0xba7816bf, 0x8f01cfea, 0x414140de, 0x5dae2223,
       0xb00361a3, 0x96177a9c, 0xb410ff61, 0xf20015ad]
    ∧ fips180.sha512t256 message_abc =
      [0x53048e2681941ef9, 0x9b2e29b76b4c7dab, 0xe4c2d0c634fc6d46, 0xe0e2f13107e7af23] := by
  decide!

/-! ## The Block Finalizer and the compression function of the standard -/

theorem xor_all_ones (e : Nat) (he : e < 2 ^ 32) : e ^^^ 0xffffffff = 2 ^ 32 - 1 - e := by
  apply Nat.eq_of_testBit_eq
  intro i
  have h1 : (0xffffffff : Nat) = 2 ^ 32 - 1 := by norm_num
  rw [Nat.testBit_xor, h1, Nat.testBit_two_pow_sub_one,
    show 2 ^ 32 - 1 - e = 2 ^ 32 - (e + 1) by omega, Nat.testBit_two_pow_sub_succ he]
  by_cases hi : i < 32
  · simp [hi]
  · have : e.testBit i = false := by
      apply Nat.testBit_eq_false_of_lt
      exact lt_of_lt_of_le he (Nat.pow_le_pow_right (by norm_num) (by omega))
    simp [hi, this]

theorem fold_range_succ {σ : Type} (g : σ → Nat → σ) (x : σ) (lo n : Nat) :
    (List.range' lo (n + 1)).foldl g x = g ((List.range' lo n).foldl g x) (lo + n) := by
  rw [List.range'_concat, List.foldl_append]
  simp

theorem getD_reverse (l : List Nat) (i : Nat) (hi : i < l.length) :
    l.reverse.getD i 0 = l.getD (l.length - 1 - i) 0 := by
  rw [List.getD_eq_getElem _ _ (by simpa using hi), List.getD_eq_getElem _ _ (by omega),
    List.getElem_reverse]

theorem getD_of_take (l : List Nat) (n i : Nat) (hi : i < n) :
    l.getD i 0 = (l.take n).getD i 0 := by
  simp [List.getD_eq_getElem?_getD, List.getElem?_take, hi]

theorem take_set_succ (l : List Nat) (j v : Nat) (hj : j < l.length) :
    (l.set j v).take (j + 1) = l.take j ++ [v] := by
  induction l generalizing j with
  | nil => simp at hj
  | cons a l ih =>
    cases j with
    | zero => simp
    | succ j =>
      simp only [List.set_cons_succ, List.take_succ_cons, List.cons_append]
      rw [ih j (by simpa using hj)]

theorem schedule_newest_first_iterate (v : fips180.variant) (n : Nat) (W : List Nat) :
    fips180.schedule_newest_first v n W = (fun X => fips180.next_word v X :: X)^[n] W := by
  induction n generalizing W with
  | zero => rfl
  | succ n ih =>
    rw [Function.iterate_succ_apply]
    exact ih _

theorem iterate_cons_length (v : fips180.variant) (n : Nat) (W : List Nat) :
    ((fun X => fips180.next_word v X :: X)^[n] W).length = W.length + n := by
  induction n generalizing W with
  | zero => rfl
  | succ n ih =>
    rw [Function.iterate_succ_apply, ih]
    simp only [List.length_cons]
    omega

namespace tsha256r

theorem expansion_word (W A : List Nat) (t : Nat) (hA : A.length = 16 + t)
    (hW : W.take (16 + t) = A.reverse) (s : tsha256) :
    (expansion_body (16 + t) (s, W)).2 =
      W.set (16 + t) (fips180.next_word fips180.sha256_variant A) := by
  have hget : ∀ i, i < 16 + t → W.getD i 0 = A.getD (16 + t - 1 - i) 0 := by
    intro i hi
    rw [getD_of_take W (16 + t) i hi, hW, getD_reverse A i (by omega), hA]
  have e1 : W.getD (16 + t - 15) 0 = A.getD 14 0 := by
    rw [hget _ (by omega)]; congr 1; omega
  have e2 : W.getD (16 + t - 2) 0 = A.getD 1 0 := by
    rw [hget _ (by omega)]; congr 1; omega
  have e3 : W.getD (16 + t - 16) 0 = A.getD 15 0 := by
    rw [hget _ (by omega)]; congr 1; omega
  have e4 : W.getD (16 + t - 7) 0 = A.getD 6 0 := by
    rw [hget _ (by omega)]; congr 1; omega
  simp only [expansion_body, e1, e2, e3, e4]
  congr 1
  simp only [fips180.next_word, fips180.small_sigma, fips180.sha256_variant, fips180.rotr, ROTR,
    WSIZE_BITS]
  congr 1
  omega

/-- Invariant of the expansion loop: after `t` iterations the first `16 + t` words of the
view are the message schedule of the standard. -/
theorem expansion_invariant (s : tsha256) (W0 : List Nat) (hW0 : W0.length = 64) (t : Nat)
    (ht : t ≤ 48) :
    ((List.range' 16 t).foldl (fun acc j => expansion_body j acc) (s, W0)).2.length = 64
    ∧ ((List.range' 16 t).foldl (fun acc j => expansion_body j acc) (s, W0)).2.take (16 + t) =
      ((fun X => fips180.next_word fips180.sha256_variant X :: X)^[t]
        (W0.take 16).reverse).reverse := by
  induction t with
  | zero =>
    refine ⟨hW0, ?_⟩
    simp
  | succ t ih =>
    obtain ⟨hlen, htake⟩ := ih (by omega)
    have hA := iterate_cons_length fips180.sha256_variant t (W0.take 16).reverse
    rw [List.length_reverse, List.length_take, hW0] at hA
    rw [fold_range_succ, Function.iterate_succ_apply']
    have hstep := expansion_word _ _ t (by rw [hA]; omega) htake
      ((List.range' 16 t).foldl (fun acc j => expansion_body j acc) (s, W0)).1
    rw [Prod.mk.eta] at hstep
    rw [hstep]
    refine ⟨by rw [List.length_set]; exact hlen, ?_⟩
    rw [show 16 + (t + 1) = (16 + t) + 1 by omega, take_set_succ _ _ _ (by omega), htake]
    simp

theorem expansion_schedule (s : tsha256) (W0 : List Nat) (hW0 : W0.length = 64) :
    (for_loop 16 NROUNDS expansion_body (s, W0)).2 =
      fips180.schedule fips180.sha256_variant (W0.take 16) := by
  obtain ⟨hlen, htake⟩ := expansion_invariant s W0 hW0 48 (le_refl _)
  have h64 : (16 : Nat) + 48 = 64 := rfl
  rw [h64, List.take_of_length_le (by omega)] at htake
  unfold for_loop fips180.schedule
  rw [schedule_newest_first_iterate]
  exact htake

end tsha256r

theorem list_of_length_8 (l : List Nat) (h : l.length = 8) :
    ∃ a b c d e f g k, l = [a, b, c, d, e, f, g, k] := by
  match l, h with
  | [a, b, c, d, e, f, g, k], _ => exact ⟨a, b, c, d, e, f, g, k, rfl⟩

theorem take_succ_zip (K W : List Nat) (t : Nat) (hK : t < K.length) (hW : t < W.length) :
    (List.zip K W).take (t + 1) = (List.zip K W).take t ++ [(K.getD t 0, W.getD t 0)] := by
  rw [List.take_succ, List.getElem?_eq_getElem (by simp; omega),
    List.getD_eq_getElem _ _ hK, List.getD_eq_getElem _ _ hW]
  simp

namespace tsha256r

theorem compression_round (W : List Nat) (j : Nat) (s : tsha256) (a b c d e f g k : Nat)
    (hA : s.A = [a, b, c, d, e, f, g, k]) (he : e < 2 ^ 32) :
    (compression_body W j s).A =
      fips180.round fips180.sha256_variant s.A (K.getD j 0, W.getD j 0) := by
  simp only [compression_body, hA, fips180.round, fips180.sha256_variant, fips180.big_sigma,
    fips180.Ch, fips180.Maj, fips180.rotr, ROTR, WSIZE_BITS, List.getD_cons_zero,
    List.getD_cons_succ, xor_all_ones e he]

theorem round_bounds (kw : Nat × Nat) (x : List Nat) (hlen : x.length = 8)
    (hb : ∀ y ∈ x, y < 2 ^ 32) :
    (fips180.round fips180.sha256_variant x kw).length = 8
    ∧ ∀ y ∈ fips180.round fips180.sha256_variant x kw, y < 2 ^ 32 := by
  obtain ⟨a, b, c, d, e, f, g, k, rfl⟩ := list_of_length_8 x hlen
  simp only [fips180.round, fips180.sha256_variant]
  refine ⟨rfl, ?_⟩
  intro y hy
  simp only [List.mem_cons, List.mem_singleton, List.not_mem_nil, or_false] at hy hb
  rcases hy with h | h | h | h | h | h | h | h
  · rw [h]; exact Nat.mod_lt _ (by norm_num)
  · rw [h]; exact hb a (Or.inl rfl)
  · rw [h]; exact hb b (Or.inr (Or.inl rfl))
  · rw [h]; exact hb c (Or.inr (Or.inr (Or.inl rfl)))
  · rw [h]; exact Nat.mod_lt _ (by norm_num)
  · rw [h]; exact hb e (Or.inr (Or.inr (Or.inr (Or.inr (Or.inl rfl)))))
  · rw [h]; exact hb f (Or.inr (Or.inr (Or.inr (Or.inr (Or.inr (Or.inl rfl))))))
  · rw [h]; exact hb g (Or.inr (Or.inr (Or.inr (Or.inr (Or.inr (Or.inr (Or.inl rfl)))))))

end tsha256r

namespace tsha256r

theorem compression_invariant (W : List Nat) (hW : W.length = 64) (s1 : tsha256)
    (hlen : s1.A.length = 8) (hb : ∀ y ∈ s1.A, y < 2 ^ 32) (t : Nat) (ht : t ≤ 64) :
    ((List.range' 0 t).foldl (fun acc j => compression_body W j acc) s1).A =
        ((List.zip K W).take t).foldl (fips180.round fips180.sha256_variant) s1.A
    ∧ ((List.range' 0 t).foldl (fun acc j => compression_body W j acc) s1).A.length = 8
    ∧ ∀ y ∈ ((List.range' 0 t).foldl (fun acc j => compression_body W j acc) s1).A,
        y < 2 ^ 32 := by
  induction t with
  | zero => exact ⟨rfl, hlen, hb⟩
  | succ t ih =>
    obtain ⟨h1, h2, h3⟩ := ih (by omega)
    obtain ⟨a, b, c, d, e, f, g, k, hA⟩ := list_of_length_8 _ h2
    have he : e < 2 ^ 32 := h3 e (by rw [hA]; simp)
    have hK : K.length = 64 := rfl
    rw [fold_range_succ, Nat.zero_add, compression_round W t _ a b c d e f g k hA he,
      take_succ_zip K W t (by omega) (by omega), List.foldl_append, h1]
    refine ⟨rfl, ?_⟩
    rw [← h1]
    exact round_bounds _ _ h2 h3

theorem compression_loop (W : List Nat) (hW : W.length = 64) (s1 : tsha256)
    (hlen : s1.A.length = 8) (hb : ∀ y ∈ s1.A, y < 2 ^ 32) :
    (for_loop 0 NROUNDS (compression_body W) s1).A =
        (List.zip K W).foldl (fips180.round fips180.sha256_variant) s1.A
    ∧ (for_loop 0 NROUNDS (compression_body W) s1).A.length = 8 := by
  obtain ⟨h1, h2, _⟩ := compression_invariant W hW s1 hlen hb 64 (le_refl _)
  have hK : K.length = 64 := rfl
  rw [List.take_of_length_le (by rw [List.length_zip, hK, hW]; exact le_refl _)] at h1
  exact ⟨h1, h2⟩

theorem complete_eq_phases (s : tsha256) :
    tsha256r_complete_message_block s =
      compression_phase (for_loop 16 NROUNDS expansion_body (s, W32_of_W8 s.W8)).1
        (for_loop 16 NROUNDS expansion_body (s, W32_of_W8 s.W8)).2 := rfl

theorem compression_phase_digest (r1 : tsha256) (W : List Nat) (hd : r1.digest.length = 8)
    (hb : ∀ x ∈ r1.digest, x < 2 ^ 32) (hW : W.length = 64) :
    (compression_phase r1 W).digest =
      List.zipWith (fun x y => (x + y) % 2 ^ 32)
        ((List.zip K W).foldl (fips180.round fips180.sha256_variant) r1.digest) r1.digest := by
  obtain ⟨d0, d1, d2, d3, d4, d5, d6, d7, hdig⟩ := list_of_length_8 _ hd
  have hA : ({ r1 with A :=
      [r1.digest.getD 0 0, r1.digest.getD 1 0, r1.digest.getD 2 0, r1.digest.getD 3 0,
       r1.digest.getD 4 0, r1.digest.getD 5 0, r1.digest.getD 6 0, r1.digest.getD 7 0] }
      : tsha256).A = r1.digest := by
    rw [hdig]; rfl
  obtain ⟨h1, h2⟩ := compression_loop W hW _ (by rw [hA]; exact hd) (by rw [hA]; exact hb)
  obtain ⟨_, _, h3⟩ := compression_frame W ({ r1 with A :=
      [r1.digest.getD 0 0, r1.digest.getD 1 0, r1.digest.getD 2 0, r1.digest.getD 3 0,
       r1.digest.getD 4 0, r1.digest.getD 5 0, r1.digest.getD 6 0, r1.digest.getD 7 0] })
  rw [hA] at h1
  rw [← h1]
  obtain ⟨a0, a1, a2, a3, a4, a5, a6, a7, hfin⟩ := list_of_length_8 _ h2
  simp only [compression_phase]
  rw [hfin, h3]
  simp only [hdig]
  rfl

/-- The Block Finalizer computes the compression function of the standard on the digest and
the sixteen message words of the buffer. -/
theorem complete_digest (s : tsha256) (hd : s.digest.length = 8)
    (hb : ∀ x ∈ s.digest, x < 2 ^ 32) :
    (tsha256r_complete_message_block s).digest =
      fips180.compress fips180.sha256_variant s.digest (block_words s) := by
  have hW0 : (W32_of_W8 s.W8).length = 64 := by simp [W32_of_W8, NW]
  have hsched := expansion_schedule s (W32_of_W8 s.W8) hW0
  have hbw : (W32_of_W8 s.W8).take 16 = block_words s := by
    simp only [W32_of_W8, block_words, NW, ← List.map_take, List.take_range]
    rfl
  rw [hbw] at hsched
  obtain ⟨_, _, hfd, hfl⟩ := expansion_frame s (W32_of_W8 s.W8)
  rw [complete_eq_phases, compression_phase_digest _ _ (by rw [hfd]; exact hd)
    (by rw [hfd]; exact hb) (by rw [hfl]; exact hW0), hfd, hsched]
  unfold fips180.compress
  rw [fips_tables_sha256.1, show fips180.sha256_variant.w = 32 from rfl]

end tsha256r

namespace tsha256r

theorem update_input_update_flush (s : tsha256) (finish : Nat)
    (hev : s.event = SHA256B_FSM_INPUT_UPDATE) (hfull : MSIZE_BYTES ≤ s.i_message)
    (hf : finish ≠ 1) :
    tsha256r_update_traced s finish =
      ({ tsha256r_complete_message_block s with event := SHA256B_FSM_INPUT }, [s]) := by
  simp [tsha256r_update_traced, hev, hfull, hf, SHA256B_FSM_INPUT_UPDATE, SHA256B_FSM_INPUT]

theorem update_append_1bit_full (s : tsha256) (finish : Nat)
    (hev : s.event = SHA256B_FSM_APPEND_1BIT) (hfull : MSIZE_BYTES ≤ s.i_message) :
    tsha256r_update_traced s finish =
      (marker_stored (tsha256r_complete_message_block s), [s]) := by
  have hnot : ¬ s.i_message < MSIZE_BYTES := by omega
  simp [tsha256r_update_traced, hev, hfull, hnot, SHA256B_FSM_INPUT_UPDATE, SHA256B_FSM_INPUT,
    SHA256B_FSM_APPEND_1BIT, marker_stored]

theorem complete_stream_bytes (s : tsha256) :
    stream_bytes (tsha256r_complete_message_block s) = List.replicate 64 0 :=
  stream_of_zero _ (complete_W8_getD s)

theorem take_4_drop (l : List Nat) (p : Nat) (hp : p + 4 ≤ l.length) :
    (l.drop p).take 4 = [l.getD p 0, l.getD (p + 1) 0, l.getD (p + 2) 0, l.getD (p + 3) 0] := by
  induction p generalizing l with
  | zero =>
    match l, hp with
    | a :: b :: c :: d :: rest, _ => rfl
  | succ p ih =>
    match l, hp with
    | a :: rest, h =>
      have := ih rest (by simpa using (by simp at h; omega : p + 4 ≤ rest.length))
      simpa [Nat.add_right_comm p 1] using this

theorem seq_word : ∀ t, t < 16 →
    seq.getD (4 * t) 0 = 4 * t + 3 ∧ seq.getD (4 * t + 1) 0 = 4 * t + 2
    ∧ seq.getD (4 * t + 2) 0 = 4 * t + 1 ∧ seq.getD (4 * t + 3) 0 = 4 * t := by
  decide!

theorem stream_of_getD (W : List Nat) (p : Nat) (hp : p < 64) :
    (stream_of W).getD p 0 = W.getD (seq.getD p 0) 0 := by
  rw [List.getD_eq_getElem _ _ (by rw [stream_of_length]; exact hp), stream_of_getElem]

/-- Each message word read by the finalizer is the big-endian value of four consecutive
bytes of the stream. -/
theorem W32_load_stream (W : List Nat) (t : Nat) (ht : t < 16) :
    W32_load W t = fips180.be_value (((stream_of W).drop (4 * t)).take 4) := by
  obtain ⟨h0, h1, h2, h3⟩ := seq_word t ht
  rw [take_4_drop _ _ (by rw [stream_of_length]; omega), stream_of_getD _ _ (by omega),
    stream_of_getD _ _ (by omega), stream_of_getD _ _ (by omega), stream_of_getD _ _ (by omega),
    h0, h1, h2, h3]
  simp only [W32_load, fips180.be_value, List.foldl_cons, List.foldl_nil]
  omega

/-- The message words of the finalizer are the block that the standard parses from the 64
bytes of the buffer in stream order. -/
theorem block_words_parse (s : tsha256) :
    fips180.parse fips180.sha256_variant (stream_bytes s) = [block_words s] := by
  have hlen : (stream_bytes s).length = 64 := stream_of_length _
  have hbb : fips180.block_bytes fips180.sha256_variant = 64 := rfl
  have hwb : fips180.word_bytes fips180.sha256_variant = 4 := rfl
  unfold fips180.parse
  rw [hlen, hbb, hwb]
  show [(List.range 16).map _] = _
  congr 1
  apply List.map_congr_left
  intro t ht
  rw [List.mem_range] at ht
  rw [W32_load_stream _ t ht]
  simp [stream_bytes]

end tsha256r

namespace tsha256r

/-- Setting the event changes no other field. -/
theorem with_event (c : tsha256) (e : Nat) :
    ({ c with event := e } : tsha256).digest = c.digest
    ∧ ({ c with event := e } : tsha256).i_message = c.i_message
    ∧ ({ c with event := e } : tsha256).msglen = c.msglen
    ∧ ({ c with event := e } : tsha256).W8 = c.W8
    ∧ stream_bytes { c with event := e } = stream_bytes c
    ∧ ({ c with event := e } : tsha256).event = e :=
  ⟨rfl, rfl, rfl, rfl, rfl, rfl⟩

/-- What the Block Finalizer leaves, whatever event is set afterwards. -/
theorem complete_with_event (s : tsha256) (e : Nat) (hd : s.digest.length = 8)
    (hb : ∀ x ∈ s.digest, x < 2 ^ 32) :
    ({ tsha256r_complete_message_block s with event := e } : tsha256).digest
        = fips180.compress fips180.sha256_variant s.digest (block_words s)
    ∧ ({ tsha256r_complete_message_block s with event := e } : tsha256).i_message = 0
    ∧ stream_bytes { tsha256r_complete_message_block s with event := e } = List.replicate 64 0
    ∧ (∀ i, i < 64 →
        ({ tsha256r_complete_message_block s with event := e } : tsha256).W8.getD i 0 = 0)
    ∧ ({ tsha256r_complete_message_block s with event := e } : tsha256).msglen = s.msglen
    ∧ ({ tsha256r_complete_message_block s with event := e } : tsha256).event = e := by
  obtain ⟨w1, w2, w3, w4, w5, w6⟩ := with_event (tsha256r_complete_message_block s) e
  refine ⟨w1.trans (complete_digest s hd hb), w2.trans (complete_i_message s),
    w5.trans (complete_stream_bytes s), ?_, w3.trans (complete_msglen s), w6⟩
  intro i hi
  rw [w4]
  exact complete_W8_getD s i hi

/-- What `marker_stored` keeps. -/
theorem marker_stored_frame (c : tsha256) :
    (marker_stored c).digest = c.digest ∧ (marker_stored c).msglen = c.msglen
    ∧ (marker_stored c).event = SHA256B_FSM_APPEND_0_PADDING :=
  ⟨rfl, rfl, rfl⟩

/-- The marker byte stored into an empty, zeroed buffer: byte 0 of the stream, the most
significant byte of word 0. -/
theorem marker_on_empty (c : tsha256) (hi : c.i_message = 0) (hW : c.W8.length = 256)
    (hz : ∀ i, i < 64 → c.W8.getD i 0 = 0) :
    stream_bytes (marker_stored c) = 0x80 :: List.replicate 63 0
    ∧ W32_load (marker_stored c).W8 0 = 0x80000000
    ∧ (marker_stored c).W8.getD 3 0 = 0x80
    ∧ (∀ i, i < 64 → i ≠ 3 → (marker_stored c).W8.getD i 0 = 0)
    ∧ (marker_stored c).i_message = 1
    ∧ (marker_stored c).W8.length = 256 := by
  have hW8 : (marker_stored c).W8 = c.W8.set 3 0x80 := by
    simp only [marker_stored, hi]; rfl
  have h3 : (marker_stored c).W8.getD 3 0 = 0x80 := by
    rw [hW8, getD_set_self _ _ _ (by omega)]
  have hother : ∀ i, i < 64 → i ≠ 3 → (marker_stored c).W8.getD i 0 = 0 := by
    intro i hi64 hne
    rw [hW8, getD_set_other _ _ _ _ (Ne.symm hne), hz i hi64]
  refine ⟨?_, ?_, h3, hother, ?_, ?_⟩
  · show stream_of (marker_stored c).W8 = _
    rw [hW8, stream_of_set c.W8 0 3 0x80 (by norm_num) (by omega) rfl, stream_of_zero _ hz]
    rfl
  · simp only [W32_load]
    rw [show 4 * 0 + 3 = 3 from rfl, h3, hother 0 (by norm_num) (by norm_num),
      hother 1 (by norm_num) (by norm_num), hother 2 (by norm_num) (by norm_num)]
    norm_num
  · simp only [marker_stored, hi]; rfl
  · rw [hW8, List.length_set, hW]

theorem getch_refuses (s : tsha256) (c : Nat) (hev : s.event = SHA256B_FSM_INPUT)
    (hfull : MSIZE_BYTES ≤ s.i_message) :
    tsha256r_getch (some s) c = (0, some { s with event := SHA256B_FSM_INPUT_UPDATE }) := by
  have hnot : ¬ s.i_message < MSIZE_BYTES := by omega
  simp [tsha256r_getch, hev, hnot]

/-! ## Termination of the driver -/

theorem flushed_frame (s : tsha256) :
    (flushed s).event = SHA256B_FSM_INPUT ∧ (flushed s).i_message = 0 :=
  ⟨(with_event _ _).2.2.2.2.2, (with_event _ _).2.1.trans (complete_i_message _)⟩

/-- One iteration of the ingestion loop on a full buffer: the byte is refused, the block is
flushed and the same byte is offered again. -/
theorem while_refuse_step (message : List Nat) (n i : Nat) (s : tsha256) (calls : List tsha256)
    (hev : s.event = SHA256B_FSM_INPUT) (hfull : MSIZE_BYTES ≤ s.i_message)
    (hlen : i < message.length) :
    run_tests_while (n + 1) message i s calls =
      run_tests_while n message i (flushed s)
        (calls ++ [{ s with event := SHA256B_FSM_INPUT_UPDATE }]) := by
  have hup := update_input_update_flush { s with event := SHA256B_FSM_INPUT_UPDATE } 0 rfl
    hfull (by decide)
  rw [run_tests_while, if_pos hlen, getch_refuses s _ hev hfull]
  simp only [if_neg (by decide : ¬ ((0 : Int) < 0)), if_pos, hup]
  rfl

/-- One iteration of the ingestion loop with room in the buffer. -/
theorem while_accept_step (message : List Nat) (n i : Nat) (s : tsha256) (calls : List tsha256)
    (hev : s.event = SHA256B_FSM_INPUT) (hroom : s.i_message < MSIZE_BYTES)
    (hlen : i < message.length) :
    run_tests_while (n + 1) message i s calls =
      run_tests_while n message (i + 1) (getch_accepted s (message.getD i 0)) calls := by
  have hne : ¬ (getch_accepted s (message.getD i 0)).event = SHA256B_FSM_INPUT_UPDATE := by
    rw [show (getch_accepted s (message.getD i 0)).event = SHA256B_FSM_INPUT from hev]
    decide
  rw [run_tests_while, if_pos hlen, getch_accepts s _ hev hroom]
  simp only [if_neg (by decide : ¬ ((1 : Int) < 0)), if_neg hne]
  rfl

/-- The ingestion loop ends for every message: two iterations per byte and two more are
enough, and the record is left in `INPUT`. -/
theorem while_terminates (message : List Nat) :
    ∀ (n i : Nat) (s : tsha256) (calls : List tsha256),
      s.event = SHA256B_FSM_INPUT →
      2 * (message.length - i) + 1 + (if MSIZE_BYTES ≤ s.i_message then 1 else 0) ≤ n →
      ∃ s1 calls1, run_tests_while n message i s calls = some (some (s1, calls1))
        ∧ s1.event = SHA256B_FSM_INPUT := by
  intro n
  induction n with
  | zero => intro i s calls _ h; omega
  | succ n ih =>
    intro i s calls hev hfuel
    by_cases hlen : i < message.length
    · by_cases hfull : MSIZE_BYTES ≤ s.i_message
      · rw [if_pos hfull] at hfuel
        rw [while_refuse_step message n i s calls hev hfull hlen]
        have hz : ¬ MSIZE_BYTES ≤ (flushed s).i_message := by
          rw [(flushed_frame s).2]; decide
        exact ih i _ _ (flushed_frame s).1 (by rw [if_neg hz]; omega)
      · rw [if_neg hfull] at hfuel
        rw [while_accept_step message n i s calls hev (by omega) hlen]
        exact ih (i + 1) _ _ hev (by split <;> omega)
    · rw [run_tests_while, if_neg hlen]
      exact ⟨s, calls, rfl, hev⟩

theorem marker_stored_i_message (c : tsha256) :
    (marker_stored c).i_message = (c.i_message + 1) % 2 ^ 32 := rfl

/-- From `APPEND_0_PADDING` with room for the length, two more calls of
`tsha256r_update(state, 1)` end the do-while loop in `COMPLETE`. -/
theorem padding_room_finish (s : tsha256) (calls : List tsha256) (k : Nat)
    (hev : s.event = SHA256B_FSM_APPEND_0_PADDING)
    (hi : s.i_message < MSIZE_BYTES - LSIZE_BYTES) :
    ∃ final calls1, run_tests_do_while (2 + k) s calls = some (final, calls1)
      ∧ final.event = SHA256B_FSM_COMPLETE := by
  have e5 := update_append_0_padding_room s hev hi
  rw [show 2 + k = (k + 1) + 1 by omega, do_while_continue (k + 1) _ _
      (by rw [e5]; exact (by decide : SHA256B_FSM_APPEND_LENGTH ≠ SHA256B_FSM_COMPLETE))
      (by rw [e5]; exact (by decide : SHA256B_FSM_APPEND_LENGTH ≠ SHA256B_FSM_ERROR)), e5]
  have e6 := update_append_length_room { s with event := SHA256B_FSM_APPEND_LENGTH } rfl hi
  rw [do_while_stop k _ _ (by rw [e6]), e6]
  exact ⟨_, _, rfl, rfl⟩

/-- The do-while loop of the driver ends in `COMPLETE` after at most six calls of
`tsha256r_update(state, 1)`, whatever the number of buffered bytes. -/
theorem do_while_terminates (s : tsha256) (calls : List tsha256) (k : Nat)
    (hev : s.event = SHA256B_FSM_INPUT) :
    ∃ final calls1, run_tests_do_while (6 + k) s calls = some (final, calls1)
      ∧ final.event = SHA256B_FSM_COMPLETE := by
  by_cases hlo : s.i_message ≤ 54
  · have e1 := update_input_finish s hev
    rw [show 6 + k = (k + 5) + 1 by omega,
      do_while_continue (k + 5) s calls
        (by rw [e1]; exact (by decide : SHA256B_FSM_INPUT_UPDATE ≠ SHA256B_FSM_COMPLETE))
        (by rw [e1]; exact (by decide : SHA256B_FSM_INPUT_UPDATE ≠ SHA256B_FSM_ERROR)), e1]
    have e2 := update_input_update_finish { s with event := SHA256B_FSM_INPUT_UPDATE } rfl
    rw [do_while_continue (k + 4) _ _
        (by rw [e2]; exact (by decide : SHA256B_FSM_APPEND_1BIT ≠ SHA256B_FSM_COMPLETE))
        (by rw [e2]; exact (by decide : SHA256B_FSM_APPEND_1BIT ≠ SHA256B_FSM_ERROR)), e2]
    have e3 := update_append_1bit_room
      { s with event := SHA256B_FSM_APPEND_1BIT } rfl
      (by simp only [MSIZE_BYTES]; omega)
    rw [do_while_continue (k + 3) _ _
        (by rw [e3]; exact (by decide : SHA256B_FSM_APPEND_0_PADDING ≠ SHA256B_FSM_COMPLETE))
        (by rw [e3]; exact (by decide : SHA256B_FSM_APPEND_0_PADDING ≠ SHA256B_FSM_ERROR)), e3]
    rw [show k + 3 = 2 + (k + 1) by omega]
    exact padding_room_finish _ _ (k + 1) rfl
      (by simp only [MSIZE_BYTES, LSIZE_BYTES, marker_stored]; omega)
  · by_cases hhi : s.i_message ≤ 63
    · exact ⟨_, _, finish_two_blocks s calls k hev (by omega) hhi, rfl⟩
    · have e1 := update_input_finish s hev
      rw [show 6 + k = (k + 5) + 1 by omega,
        do_while_continue (k + 5) s calls
          (by rw [e1]; exact (by decide : SHA256B_FSM_INPUT_UPDATE ≠ SHA256B_FSM_COMPLETE))
          (by rw [e1]; exact (by decide : SHA256B_FSM_INPUT_UPDATE ≠ SHA256B_FSM_ERROR)), e1]
      have e2 := update_input_update_finish { s with event := SHA256B_FSM_INPUT_UPDATE } rfl
      rw [do_while_continue (k + 4) _ _
          (by rw [e2]; exact (by decide : SHA256B_FSM_APPEND_1BIT ≠ SHA256B_FSM_COMPLETE))
          (by rw [e2]; exact (by decide : SHA256B_FSM_APPEND_1BIT ≠ SHA256B_FSM_ERROR)), e2]
      have e3 := update_append_1bit_full
        { s with event := SHA256B_FSM_APPEND_1BIT } 1 rfl
        (by show MSIZE_BYTES ≤ s.i_message; simp only [MSIZE_BYTES]; omega)
      have hm := marker_stored_frame
        (tsha256r_complete_message_block { s with event := SHA256B_FSM_APPEND_1BIT })
      rw [do_while_continue (k + 3) _ _
          (by rw [e3]; show (marker_stored _).event ≠ _; rw [hm.2.2]; decide)
          (by rw [e3]; show (marker_stored _).event ≠ _; rw [hm.2.2]; decide), e3]
      rw [show k + 3 = 2 + (k + 1) by omega]
      exact padding_room_finish _ _ (k + 1) hm.2.2
        (by rw [marker_stored_i_message, complete_i_message]; decide)

/-- The hashing sequence of the driver returns for every message, with the same result
whatever the record held before: fuel `2 * length + 8` suffices and the loop ends in
`COMPLETE`. -/
theorem driver_terminates (message : List Nat) (k : Nat) :
    ∃ final calls, final.event = SHA256B_FSM_COMPLETE
      ∧ ∀ state, run_tests_hash (2 * message.length + 8 + k) state message
          = some (outcome.done final calls) := by
  obtain ⟨s1, c1, hw, he⟩ := while_terminates message (2 * message.length + 8 + k) 0
    (tsha256r_reset zero_state) [] rfl (by split <;> omega)
  obtain ⟨final, calls, hd, hf⟩ := do_while_terminates s1 c1 (2 * message.length + 2 + k) he
  refine ⟨final, calls, hf, fun state => ?_⟩
  rw [run_tests_hash_reset]
  unfold run_tests_hash
  rw [hw]
  simp only []
  rw [show 2 * message.length + 8 + k = 6 + (2 * message.length + 2 + k) by omega, hd]

end tsha256r

/-! ## The length field, the terminal events and the words of a block -/

theorem drop_56_of_length_64 (l : List Nat) (h : l.length = 64) :
    l.drop 56 = [l.getD 56 0, l.getD 57 0, l.getD 58 0, l.getD 59 0,
                 l.getD 60 0, l.getD 61 0, l.getD 62 0, l.getD 63 0] := by
  apply List.ext_getElem
  · simp [h]
  · intro i h1 h2
    have hi : i < 8 := by simpa using h2
    rw [List.getElem_drop]
    interval_cases i <;> simp [List.getD_eq_getElem?_getD, h]

theorem take_eq_of_getD (l1 l2 : List Nat) (n : Nat) (h1 : n ≤ l1.length) (h2 : n ≤ l2.length)
    (h : ∀ p, p < n → l1.getD p 0 = l2.getD p 0) : l1.take n = l2.take n := by
  apply List.ext_getElem
  · simp [h1, h2]
  · intro i hi1 hi2
    have hi : i < n := by
      rw [List.length_take] at hi1
      omega
    have hp := h i hi
    have e1 : l1.getD i 0 = l1[i] := List.getD_eq_getElem _ _ (by omega)
    have e2 : l2.getD i 0 = l2[i] := List.getD_eq_getElem _ _ (by omega)
    rw [e1, e2] at hp
    rw [List.getElem_take, List.getElem_take]
    exact hp

theorem be_value_8 (L : Nat) (hL : L < 2 ^ 64) :
    fips180.be_value [L / 2 ^ 56 % 256, L / 2 ^ 48 % 256, L / 2 ^ 40 % 256, L / 2 ^ 32 % 256,
      L / 2 ^ 24 % 256, L / 2 ^ 16 % 256, L / 2 ^ 8 % 256, L / 2 ^ 0 % 256] = L := by
  simp only [fips180.be_value, List.foldl_cons, List.foldl_nil]
  omega

namespace tsha256r

theorem update_append_length_no_room (s : tsha256) (hev : s.event = SHA256B_FSM_APPEND_LENGTH)
    (hi : ¬ s.i_message < MSIZE_BYTES - LSIZE_BYTES) :
    tsha256r_update_traced s 1 = ({ s with event := SHA256B_FSM_ERROR }, []) := by
  simp [tsha256r_update_traced, hev, hi, SHA256B_FSM_INPUT_UPDATE, SHA256B_FSM_INPUT,
    SHA256B_FSM_APPEND_1BIT, SHA256B_FSM_APPEND_0_PADDING, SHA256B_FSM_APPEND_LENGTH]

/-- The bytes of `W8` after the length field has been stored. -/
theorem store_length_getD (s : tsha256) (hW : 64 ≤ s.W8.length) :
    (store_length s).W8.getD 56 0 = s.msglen * 8 % 2 ^ 64 / 2 ^ 32 % 256
    ∧ (store_length s).W8.getD 57 0 = s.msglen * 8 % 2 ^ 64 / 2 ^ 40 % 256
    ∧ (store_length s).W8.getD 58 0 = s.msglen * 8 % 2 ^ 64 / 2 ^ 48 % 256
    ∧ (store_length s).W8.getD 59 0 = s.msglen * 8 % 2 ^ 64 / 2 ^ 56 % 256
    ∧ (store_length s).W8.getD 60 0 = s.msglen * 8 % 2 ^ 64 / 2 ^ 0 % 256
    ∧ (store_length s).W8.getD 61 0 = s.msglen * 8 % 2 ^ 64 / 2 ^ 8 % 256
    ∧ (store_length s).W8.getD 62 0 = s.msglen * 8 % 2 ^ 64 / 2 ^ 16 % 256
    ∧ (store_length s).W8.getD 63 0 = s.msglen * 8 % 2 ^ 64 / 2 ^ 24 % 256
    ∧ (∀ p, (p < 56 ∨ 64 ≤ p) → (store_length s).W8.getD p 0 = s.W8.getD p 0)
    ∧ (store_length s).W8.length = s.W8.length
    ∧ (store_length s).digest = s.digest ∧ (store_length s).msglen = s.msglen
    ∧ (store_length s).event = s.event ∧ (store_length s).i_message = s.i_message := by
  have h56 : 56 < s.W8.length := by omega
  have h57 : 57 < s.W8.length := by omega
  have h58 : 58 < s.W8.length := by omega
  have h59 : 59 < s.W8.length := by omega
  have h60 : 60 < s.W8.length := by omega
  have h61 : 61 < s.W8.length := by omega
  have h62 : 62 < s.W8.length := by omega
  have h63 : 63 < s.W8.length := by omega
  rw [store_length_unfold]
  refine ⟨?_, ?_, ?_, ?_, ?_, ?_, ?_, ?_, ?_, ?_, rfl, rfl, rfl, rfl⟩
  · simp [List.getD_eq_getElem?_getD, List.getElem?_set, h56]
  · simp [List.getD_eq_getElem?_getD, List.getElem?_set, h57]
  · simp [List.getD_eq_getElem?_getD, List.getElem?_set, h58]
  · simp [List.getD_eq_getElem?_getD, List.getElem?_set, h59]
  · simp [List.getD_eq_getElem?_getD, List.getElem?_set, h60]
  · simp [List.getD_eq_getElem?_getD, List.getElem?_set, h61]
  · simp [List.getD_eq_getElem?_getD, List.getElem?_set, h62]
  · simp [List.getD_eq_getElem?_getD, List.getElem?_set, h63]
  · intro p hp
    have h1 : ¬ 56 = p := by omega
    have h2 : ¬ 57 = p := by omega
    have h3 : ¬ 58 = p := by omega
    have h4 : ¬ 59 = p := by omega
    have h5 : ¬ 60 = p := by omega
    have h6 : ¬ 61 = p := by omega
    have h7 : ¬ 62 = p := by omega
    have h8 : ¬ 63 = p := by omega
    simp [List.getD_eq_getElem?_getD, List.getElem?_set, h1, h2, h3, h4, h5, h6, h7, h8]
  · simp

end tsha256r

namespace tsha256r

/-- The words 14 and 15 of the block after the length field has been stored: the high and
the low half of the bit length. -/
theorem store_length_words (s : tsha256) (hW : 64 ≤ s.W8.length) :
    W32_load (store_length s).W8 14 = s.msglen * 8 % 2 ^ 64 / 2 ^ 32
    ∧ W32_load (store_length s).W8 15 = s.msglen * 8 % 2 ^ 64 % 2 ^ 32 := by
  obtain ⟨h56, h57, h58, h59, h60, h61, h62, h63, _⟩ := store_length_getD s hW
  have hL : s.msglen * 8 % 2 ^ 64 < 2 ^ 64 := Nat.mod_lt _ (by norm_num)
  simp only [W32_load]
  rw [show 4 * 14 = 56 from rfl, show 4 * 15 = 60 from rfl, h56, h57, h58, h59, h60, h61, h62,
    h63]
  generalize s.msglen * 8 % 2 ^ 64 = L at hL
  constructor <;> omega

theorem seq_below_56 : ∀ p, p < 56 → seq.getD p 0 < 56 := by
  decide!

/-- The length field in stream order. -/
theorem store_length_stream_general (s : tsha256) (hW : 64 ≤ s.W8.length) :
    (stream_bytes (store_length s)).drop 56 =
        [s.msglen * 8 % 2 ^ 64 / 2 ^ 56 % 256, s.msglen * 8 % 2 ^ 64 / 2 ^ 48 % 256,
         s.msglen * 8 % 2 ^ 64 / 2 ^ 40 % 256, s.msglen * 8 % 2 ^ 64 / 2 ^ 32 % 256,
         s.msglen * 8 % 2 ^ 64 / 2 ^ 24 % 256, s.msglen * 8 % 2 ^ 64 / 2 ^ 16 % 256,
         s.msglen * 8 % 2 ^ 64 / 2 ^ 8 % 256, s.msglen * 8 % 2 ^ 64 / 2 ^ 0 % 256]
    ∧ (stream_bytes (store_length s)).take 56 = (stream_bytes s).take 56 := by
  obtain ⟨h56, h57, h58, h59, h60, h61, h62, h63, hrest, _⟩ := store_length_getD s hW
  constructor
  · simp only [stream_bytes]
    rw [drop_56_of_length_64 _ (stream_of_length (store_length s).W8)]
    rw [stream_of_getD _ 56 (by norm_num), stream_of_getD _ 57 (by norm_num),
      stream_of_getD _ 58 (by norm_num), stream_of_getD _ 59 (by norm_num),
      stream_of_getD _ 60 (by norm_num), stream_of_getD _ 61 (by norm_num),
      stream_of_getD _ 62 (by norm_num), stream_of_getD _ 63 (by norm_num)]
    rw [show seq.getD 56 0 = 59 from rfl, show seq.getD 57 0 = 58 from rfl,
      show seq.getD 58 0 = 57 from rfl, show seq.getD 59 0 = 56 from rfl,
      show seq.getD 60 0 = 63 from rfl, show seq.getD 61 0 = 62 from rfl,
      show seq.getD 62 0 = 61 from rfl, show seq.getD 63 0 = 60 from rfl,
      h56, h57, h58, h59, h60, h61, h62, h63]
  · apply take_eq_of_getD
    · rw [show (stream_bytes (store_length s)).length = 64 from stream_of_length _]
      norm_num
    · rw [show (stream_bytes s).length = 64 from stream_of_length _]
      norm_num
    · intro p hp
      simp only [stream_bytes]
      rw [stream_of_getD _ p (by omega), stream_of_getD _ p (by omega),
        hrest _ (Or.inl (seq_below_56 p hp))]

theorem block_words_getD (s : tsha256) (t : Nat) (ht : t < 16) :
    (block_words s).getD t 0 = W32_load s.W8 t := by
  simp [block_words, List.getD_eq_getElem?_getD, ht]

end tsha256r

namespace tsha256r

theorem with_event_self (s : tsha256) (e : Nat) (h : s.event = e) : { s with event := e } = s := by
  cases s
  simp only at h
  subst h
  rfl

/-- In `ERROR` a call of `tsha256r_update` changes nothing. -/
theorem update_in_error (s : tsha256) (finish : Nat) (hev : s.event = SHA256B_FSM_ERROR) :
    tsha256r_update_traced s finish = (s, []) := by
  by_cases hgate : finish = 1 ∨ s.i_message ≥ MSIZE_BYTES
  · have h : tsha256r_update_traced s finish = ({ s with event := SHA256B_FSM_ERROR }, []) := by
      unfold tsha256r_update_traced
      rw [if_pos hgate]
      simp [hev, SHA256B_FSM_ERROR, SHA256B_FSM_INPUT, SHA256B_FSM_INPUT_UPDATE,
        SHA256B_FSM_APPEND_1BIT, SHA256B_FSM_APPEND_0_PADDING, SHA256B_FSM_APPEND_LENGTH]
    rw [h, with_event_self s _ hev]
  · unfold tsha256r_update_traced
    rw [if_neg hgate]

/-- In `COMPLETE` a call of `tsha256r_update` that passes the gate sets the event to
`ERROR`. -/
theorem update_in_complete (s : tsha256) (finish : Nat) (hev : s.event = SHA256B_FSM_COMPLETE)
    (hgate : finish = 1 ∨ MSIZE_BYTES ≤ s.i_message) :
    tsha256r_update_traced s finish = ({ s with event := SHA256B_FSM_ERROR }, []) := by
  unfold tsha256r_update_traced
  rw [if_pos hgate]
  simp [hev, SHA256B_FSM_COMPLETE, SHA256B_FSM_INPUT, SHA256B_FSM_INPUT_UPDATE,
    SHA256B_FSM_APPEND_1BIT, SHA256B_FSM_APPEND_0_PADDING, SHA256B_FSM_APPEND_LENGTH]

/-- A call of `tsha256r_update` that does not pass the gate changes nothing. -/
theorem update_gate_closed (s : tsha256) (finish : Nat) (hf : finish ≠ 1)
    (hi : s.i_message < MSIZE_BYTES) :
    tsha256r_update_traced s finish = (s, []) := by
  unfold tsha256r_update_traced
  rw [if_neg (by intro h; rcases h with h | h; exact hf h; omega)]

end tsha256r

namespace tsha256r

/-! ## Invariants of the records reachable through the interface -/

set_option maxRecDepth 100000 in
/-- One call of `tsha256r_update` keeps the bound on `i_message`, the room for the length
field in `APPEND_LENGTH` and the set of events; it leads to `ERROR` only from `COMPLETE` or
`ERROR`. -/
theorem update_keeps_invariant (s : tsha256) (finish : Nat) (h1 : s.i_message ≤ 64)
    (h2 : s.event = SHA256B_FSM_APPEND_LENGTH → s.i_message < 56)
    (h3 : s.event = 0 ∨ s.event = 1 ∨ s.event = 2 ∨ s.event = 3 ∨ s.event = 4 ∨ s.event = 5
      ∨ s.event = 255) :
    (tsha256r_update s finish).i_message ≤ 64
    ∧ ((tsha256r_update s finish).event = SHA256B_FSM_APPEND_LENGTH →
        (tsha256r_update s finish).i_message < 56)
    ∧ ((tsha256r_update s finish).event = 0 ∨ (tsha256r_update s finish).event = 1
      ∨ (tsha256r_update s finish).event = 2 ∨ (tsha256r_update s finish).event = 3
      ∨ (tsha256r_update s finish).event = 4 ∨ (tsha256r_update s finish).event = 5
      ∨ (tsha256r_update s finish).event = 255)
    ∧ ((tsha256r_update s finish).event = SHA256B_FSM_ERROR →
        s.event = SHA256B_FSM_COMPLETE ∨ s.event = SHA256B_FSM_ERROR) := by
  unfold tsha256r_update tsha256r_update_traced
  simp only [SHA256B_FSM_ERROR, SHA256B_FSM_INPUT, SHA256B_FSM_INPUT_UPDATE, SHA256B_FSM_COMPLETE,
    SHA256B_FSM_APPEND_1BIT, SHA256B_FSM_APPEND_0_PADDING, SHA256B_FSM_APPEND_LENGTH,
    MSIZE_BYTES, LSIZE_BYTES] at h2 ⊢
  split_ifs <;> simp only [complete_i_message] <;> refine ⟨?_, ?_, ?_, ?_⟩ <;>
    first | omega | simp


/-- One call of `tsha256r_getch` keeps the same invariant and never leads to `ERROR`. -/
theorem getch_keeps_invariant (s : tsha256) (c : Nat) (h1 : s.i_message ≤ 64)
    (h2 : s.event = SHA256B_FSM_APPEND_LENGTH → s.i_message < 56)
    (h3 : s.event = 0 ∨ s.event = 1 ∨ s.event = 2 ∨ s.event = 3 ∨ s.event = 4 ∨ s.event = 5
      ∨ s.event = 255) :
    (api_step s (api_call.getch c)).i_message ≤ 64
    ∧ ((api_step s (api_call.getch c)).event = SHA256B_FSM_APPEND_LENGTH →
        (api_step s (api_call.getch c)).i_message < 56)
    ∧ ((api_step s (api_call.getch c)).event = 0 ∨ (api_step s (api_call.getch c)).event = 1
      ∨ (api_step s (api_call.getch c)).event = 2 ∨ (api_step s (api_call.getch c)).event = 3
      ∨ (api_step s (api_call.getch c)).event = 4 ∨ (api_step s (api_call.getch c)).event = 5
      ∨ (api_step s (api_call.getch c)).event = 255)
    ∧ ((api_step s (api_call.getch c)).event = SHA256B_FSM_ERROR →
        s.event = SHA256B_FSM_COMPLETE ∨ s.event = SHA256B_FSM_ERROR) := by
  unfold api_step tsha256r_getch
  simp only [SHA256B_FSM_ERROR, SHA256B_FSM_INPUT, SHA256B_FSM_INPUT_UPDATE, SHA256B_FSM_COMPLETE,
    SHA256B_FSM_APPEND_LENGTH, MSIZE_BYTES] at h2 ⊢
  split_ifs <;> simp only [] <;> refine ⟨?_, ?_, ?_, ?_⟩ <;> first | omega | simp

/-- The invariant holds after every call of the interface. -/
theorem api_step_keeps_invariant (s : tsha256) (call : api_call) (h1 : s.i_message ≤ 64)
    (h2 : s.event = SHA256B_FSM_APPEND_LENGTH → s.i_message < 56)
    (h3 : s.event = 0 ∨ s.event = 1 ∨ s.event = 2 ∨ s.event = 3 ∨ s.event = 4 ∨ s.event = 5
      ∨ s.event = 255) :
    (api_step s call).i_message ≤ 64
    ∧ ((api_step s call).event = SHA256B_FSM_APPEND_LENGTH → (api_step s call).i_message < 56)
    ∧ ((api_step s call).event = 0 ∨ (api_step s call).event = 1
      ∨ (api_step s call).event = 2 ∨ (api_step s call).event = 3
      ∨ (api_step s call).event = 4 ∨ (api_step s call).event = 5
      ∨ (api_step s call).event = 255)
    ∧ ((api_step s call).event = SHA256B_FSM_ERROR →
        s.event = SHA256B_FSM_COMPLETE ∨ s.event = SHA256B_FSM_ERROR) := by
  cases call with
  | getch c => exact getch_keeps_invariant s c h1 h2 h3
  | update finish => exact update_keeps_invariant s finish h1 h2 h3

/-- The invariant holds after every sequence of calls of the interface. -/
theorem api_run_invariant (calls : List api_call) :
    ∀ (s : tsha256), s.i_message ≤ 64 →
      (s.event = SHA256B_FSM_APPEND_LENGTH → s.i_message < 56) →
      (s.event = 0 ∨ s.event = 1 ∨ s.event = 2 ∨ s.event = 3 ∨ s.event = 4 ∨ s.event = 5
        ∨ s.event = 255) →
      (api_run s calls).i_message ≤ 64
      ∧ ((api_run s calls).event = SHA256B_FSM_APPEND_LENGTH → (api_run s calls).i_message < 56)
      ∧ ((api_run s calls).event = 0 ∨ (api_run s calls).event = 1
        ∨ (api_run s calls).event = 2 ∨ (api_run s calls).event = 3
        ∨ (api_run s calls).event = 4 ∨ (api_run s calls).event = 5
        ∨ (api_run s calls).event = 255) := by
  induction calls with
  | nil => intro s h1 h2 h3; exact ⟨h1, h2, h3⟩
  | cons call rest ih =>
    intro s h1 h2 h3
    obtain ⟨k1, k2, k3, _⟩ := api_step_keeps_invariant s call h1 h2 h3
    exact ih (api_step s call) k1 k2 k3

/-- A run that ends in `ERROR` from a record not in `ERROR` has passed through `COMPLETE`. -/
theorem error_only_after_complete (calls : List api_call) :
    ∀ (s : tsha256), s.i_message ≤ 64 →
      (s.event = SHA256B_FSM_APPEND_LENGTH → s.i_message < 56) →
      (s.event = 0 ∨ s.event = 1 ∨ s.event = 2 ∨ s.event = 3 ∨ s.event = 4 ∨ s.event = 5
        ∨ s.event = 255) →
      s.event ≠ SHA256B_FSM_ERROR →
      (api_run s calls).event = SHA256B_FSM_ERROR →
      ∃ before after, calls = before ++ after
        ∧ (api_run s before).event = SHA256B_FSM_COMPLETE := by
  induction calls with
  | nil => intro s _ _ _ hne he; exact absurd he hne
  | cons call rest ih =>
    intro s h1 h2 h3 hne he
    obtain ⟨k1, k2, k3, k4⟩ := api_step_keeps_invariant s call h1 h2 h3
    by_cases hstep : (api_step s call).event = SHA256B_FSM_ERROR
    · rcases k4 hstep with hc | hc
      · exact ⟨[], call :: rest, rfl, hc⟩
      · exact absurd hc hne
    · obtain ⟨before, after, hsplit, hc⟩ := ih (api_step s call) k1 k2 k3 hstep he
      exact ⟨call :: before, after, by rw [hsplit]; rfl, hc⟩

end tsha256r

namespace tsha512t256r

theorem complete512_i_message (state : tsha512) :
    (plain_sha512t256_complete_message_block state).i_message = 0 := rfl

set_option maxRecDepth 100000 in
/-- One call of `plain_sha512t256_update` keeps `i_message` within the block. -/
theorem update512_keeps_bound (s : tsha512) (finish : Nat) (h1 : s.i_message ≤ 128) :
    (plain_sha512t256_update s finish).i_message ≤ 128 := by
  unfold plain_sha512t256_update plain_sha512t256_update_traced
  simp only [MSIZE_BYTES, LSIZE_BYTES]
  split_ifs <;> simp only [complete512_i_message] <;> omega

/-- One call of the interface keeps `i_message` within the block. -/
theorem api_step512_keeps_bound (s : tsha512) (call : api_call) (h1 : s.i_message ≤ 128) :
    (api_step s call).i_message ≤ 128 := by
  cases call with
  | getch c =>
    unfold api_step plain_sha512t256_getch
    simp only [MSIZE_BYTES]
    split_ifs <;> simp only [] <;> omega
  | update finish => exact update512_keeps_bound s finish h1

theorem api_run512_keeps_bound (calls : List api_call) :
    ∀ (s : tsha512), s.i_message ≤ 128 → (api_run s calls).i_message ≤ 128 := by
  induction calls with
  | nil => intro s h1; exact h1
  | cons call rest ih =>
    intro s h1
    exact ih (api_step s call) (api_step512_keeps_bound s call h1)

end tsha512t256r

namespace tsha256r

/-- A run of `tsha256r_getch` calls that fit in the buffer: every byte is accepted. -/
theorem api_run_getch (l : List Nat) :
    ∀ (s : tsha256), s.event = SHA256B_FSM_INPUT → s.i_message + l.length ≤ 64 →
      api_run s (l.map api_call.getch) = l.foldl getch_accepted s := by
  induction l with
  | nil => intro s _ _; rfl
  | cons c rest ih =>
    intro s hev hroom
    simp only [List.length_cons] at hroom
    have hstep : api_step s (api_call.getch c) = getch_accepted s c := by
      simp only [api_step]
      rw [getch_accepts s c hev (by simp only [MSIZE_BYTES]; omega)]
    have hi : (getch_accepted s c).i_message = s.i_message + 1 := by
      show (s.i_message + 1) % 2 ^ 32 = s.i_message + 1
      exact Nat.mod_eq_of_lt (by omega)
    simp only [List.map_cons, List.foldl_cons, api_run]
    rw [hstep]
    exact ih (getch_accepted s c) hev (by rw [hi]; omega)

/-- The record after reset and the `tsha256r_getch` calls for at most 64 bytes. -/
theorem api_run_getch_reset (l : List Nat) (s0 : tsha256) (hlen : l.length ≤ 64) :
    (api_run (tsha256r_reset s0) (l.map api_call.getch)).event = SHA256B_FSM_INPUT
    ∧ (api_run (tsha256r_reset s0) (l.map api_call.getch)).i_message = l.length
    ∧ stream_bytes (api_run (tsha256r_reset s0) (l.map api_call.getch))
        = l.map (fun c => c % 256) ++ List.replicate (64 - l.length) 0 := by
  rw [api_run_getch l (tsha256r_reset s0) rfl (by show 0 + l.length ≤ 64; omega)]
  obtain ⟨h1, h2, _, h4, _, _⟩ := ingest_fold l (tsha256r_reset s0) [] rfl rfl
    (by simp only [List.length_nil]; omega) (reset_W8_length s0) (reset_stream_bytes s0)
    (by show (0 : Nat) < 2 ^ 64; norm_num)
  simp only [List.length_nil, Nat.zero_add, List.nil_append] at h2 h4
  exact ⟨h1, h2, h4⟩

/-- A message word of the finalizer written out in the bytes of the stream. -/
theorem W32_load_bytes (W : List Nat) (t : Nat) (ht : t < 16) :
    W32_load W t = (stream_of W).getD (4 * t) 0 * 2 ^ 24 + (stream_of W).getD (4 * t + 1) 0 * 2 ^ 16
      + (stream_of W).getD (4 * t + 2) 0 * 2 ^ 8 + (stream_of W).getD (4 * t + 3) 0 := by
  rw [W32_load_stream W t ht, take_4_drop _ _ (by rw [stream_of_length]; omega)]
  simp only [fips180.be_value, List.foldl_cons, List.foldl_nil]
  omega

end tsha256r

namespace tsha256r

/-! ## The loops of the Block Finalizer in the words of the specification -/

theorem ROTR_eq_rotr (x n : Nat) : ROTR x n = fips180.rotr 32 n x := rfl

theorem expansion_body_snd (j : Nat) (s : tsha256) (W : List Nat) :
    (expansion_body j (s, W)).2 =
      W.set j ((W.getD (j - 16) 0 + spec_s0 (W.getD (j - 15) 0) + W.getD (j - 7) 0
        + spec_s1 (W.getD (j - 2) 0)) % 2 ^ 32) := rfl

/-- The expansion loop after `t` iterations: the first 16 words are kept and the words
`16 .. 16 + t - 1` satisfy the recurrence. -/
theorem expansion_recurrence (s : tsha256) (W0 : List Nat) (hW0 : W0.length = 64) (t : Nat)
    (ht : t ≤ 48) :
    ((List.range' 16 t).foldl (fun acc j => expansion_body j acc) (s, W0)).2.length = 64
    ∧ (∀ i, i < 16 →
        ((List.range' 16 t).foldl (fun acc j => expansion_body j acc) (s, W0)).2.getD i 0
          = W0.getD i 0)
    ∧ (∀ i, 16 ≤ i → i < 16 + t →
        ((List.range' 16 t).foldl (fun acc j => expansion_body j acc) (s, W0)).2.getD i 0
          = (((List.range' 16 t).foldl (fun acc j => expansion_body j acc) (s, W0)).2.getD
                (i - 16) 0
            + spec_s0 (((List.range' 16 t).foldl (fun acc j => expansion_body j acc)
                (s, W0)).2.getD (i - 15) 0)
            + ((List.range' 16 t).foldl (fun acc j => expansion_body j acc) (s, W0)).2.getD
                (i - 7) 0
            + spec_s1 (((List.range' 16 t).foldl (fun acc j => expansion_body j acc)
                (s, W0)).2.getD (i - 2) 0)) % 2 ^ 32) := by
  induction t with
  | zero =>
    refine ⟨hW0, fun i _ => rfl, fun i h1 h2 => ?_⟩
    omega
  | succ t ih =>
    obtain ⟨hlen, hfirst, hrec⟩ := ih (by omega)
    rw [fold_range_succ]
    generalize (List.range' 16 t).foldl (fun acc j => expansion_body j acc) (s, W0) = p
      at hlen hfirst hrec
    obtain ⟨s1, W⟩ := p
    simp only at hlen hfirst hrec
    rw [expansion_body_snd]
    refine ⟨by rw [List.length_set]; exact hlen, ?_, ?_⟩
    · intro i hi
      rw [getD_set_other _ _ _ _ (by omega)]
      exact hfirst i hi
    · intro i h1 h2
      rw [getD_set_other _ _ (i - 16) _ (by omega), getD_set_other _ _ (i - 15) _ (by omega),
        getD_set_other _ _ (i - 7) _ (by omega), getD_set_other _ _ (i - 2) _ (by omega)]
      by_cases hi : i = 16 + t
      · subst hi
        rw [getD_set_self _ _ _ (by omega)]
      · rw [getD_set_other _ _ _ _ (fun h => hi h.symm)]
        exact hrec i h1 (by omega)

theorem spec_round_eq (W : List Nat) (j : Nat) (v : List Nat) :
    spec_round W j v = fips180.round fips180.sha256_variant v (K.getD j 0, W.getD j 0) := by
  unfold spec_round fips180.round
  split
  · rfl
  · rfl

theorem fold_zip_take (W : List Nat) (hW : W.length = 64) (H : List Nat) (t : Nat)
    (ht : t ≤ 64) :
    ((List.zip K W).take t).foldl (fips180.round fips180.sha256_variant) H
      = spec_rounds W H t := by
  induction t with
  | zero => rfl
  | succ t ih =>
    rw [take_succ_zip K W t (by show t < 64; omega) (by omega), List.foldl_append, ih (by omega)]
    simp only [spec_rounds, List.range_succ, List.foldl_append, List.foldl_cons, List.foldl_nil]
    rw [spec_round_eq]

end tsha256r

/-! ## The Block Finalizer of SHA-512/256 and the compression function of the standard -/

theorem xor_all_ones64 (e : Nat) (he : e < 2 ^ 64) : e ^^^ 0xffffffffffffffff = 2 ^ 64 - 1 - e := by
  apply Nat.eq_of_testBit_eq
  intro i
  have h1 : (0xffffffffffffffff : Nat) = 2 ^ 64 - 1 := by norm_num
  rw [Nat.testBit_xor, h1, Nat.testBit_two_pow_sub_one,
    show 2 ^ 64 - 1 - e = 2 ^ 64 - (e + 1) by omega, Nat.testBit_two_pow_sub_succ he]
  by_cases hi : i < 64
  · simp [hi]
  · have : e.testBit i = false := by
      apply Nat.testBit_eq_false_of_lt
      exact lt_of_lt_of_le he (Nat.pow_le_pow_right (by norm_num) (by omega))
    simp [hi, this]

namespace tsha512t256r

theorem expansion_frame512 (state : tsha512) (W : List Nat) :
    (for_loop 16 NROUNDS expansion_body (state, W)).1.event = state.event
    ∧ (for_loop 16 NROUNDS expansion_body (state, W)).1.msglen = state.msglen
    ∧ (for_loop 16 NROUNDS expansion_body (state, W)).1.digest = state.digest
    ∧ (for_loop 16 NROUNDS expansion_body (state, W)).2.length = W.length := by
  refine for_loop_invariant
    (fun p => p.1.event = state.event ∧ p.1.msglen = state.msglen
      ∧ p.1.digest = state.digest ∧ p.2.length = W.length) expansion_body ?_ 16 NROUNDS
    (state, W) ⟨rfl, rfl, rfl, rfl⟩
  intro j p hp
  simpa [expansion_body] using hp

theorem compression_frame512 (W : List Nat) (state : tsha512) :
    (for_loop 0 NROUNDS (compression_body W) state).event = state.event
    ∧ (for_loop 0 NROUNDS (compression_body W) state).msglen = state.msglen
    ∧ (for_loop 0 NROUNDS (compression_body W) state).digest = state.digest := by
  refine for_loop_invariant
    (fun s => s.event = state.event ∧ s.msglen = state.msglen ∧ s.digest = state.digest)
    (compression_body W) ?_ 0 NROUNDS state ⟨rfl, rfl, rfl⟩
  intro j s hs
  simpa [compression_body] using hs

theorem expansion_word512 (W A : List Nat) (t : Nat) (hA : A.length = 16 + t)
    (hW : W.take (16 + t) = A.reverse) (s : tsha512) :
    (expansion_body (16 + t) (s, W)).2 =
      W.set (16 + t) (fips180.next_word fips180.sha512t256_variant A) := by
  have hget : ∀ i, i < 16 + t → W.getD i 0 = A.getD (16 + t - 1 - i) 0 := by
    intro i hi
    rw [getD_of_take W (16 + t) i hi, hW, getD_reverse A i (by omega), hA]
  have e1 : W.getD (16 + t - 15) 0 = A.getD 14 0 := by
    rw [hget _ (by omega)]; congr 1; omega
  have e2 : W.getD (16 + t - 2) 0 = A.getD 1 0 := by
    rw [hget _ (by omega)]; congr 1; omega
  have e3 : W.getD (16 + t - 16) 0 = A.getD 15 0 := by
    rw [hget _ (by omega)]; congr 1; omega
  have e4 : W.getD (16 + t - 7) 0 = A.getD 6 0 := by
    rw [hget _ (by omega)]; congr 1; omega
  simp only [expansion_body, e1, e2, e3, e4]
  congr 1
  simp only [fips180.next_word, fips180.small_sigma, fips180.sha512t256_variant, fips180.rotr, ROTR,
    WSIZE_BITS]
  congr 1
  omega

/-- Invariant of the expansion loop: after `t` iterations the first `16 + t` words of the
view are the message schedule of the standard. -/
theorem expansion_invariant512 (s : tsha512) (W0 : List Nat) (hW0 : W0.length = 80) (t : Nat)
    (ht : t ≤ 64) :
    ((List.range' 16 t).foldl (fun acc j => expansion_body j acc) (s, W0)).2.length = 80
    ∧ ((List.range' 16 t).foldl (fun acc j => expansion_body j acc) (s, W0)).2.take (16 + t) =
      ((fun X => fips180.next_word fips180.sha512t256_variant X :: X)^[t]
        (W0.take 16).reverse).reverse := by
  induction t with
  | zero =>
    refine ⟨hW0, ?_⟩
    simp
  | succ t ih =>
    obtain ⟨hlen, htake⟩ := ih (by omega)
    have hA := iterate_cons_length fips180.sha512t256_variant t (W0.take 16).reverse
    rw [List.length_reverse, List.length_take, hW0] at hA
    rw [fold_range_succ, Function.iterate_succ_apply']
    have hstep := expansion_word512 _ _ t (by rw [hA]; omega) htake
      ((List.range' 16 t).foldl (fun acc j => expansion_body j acc) (s, W0)).1
    rw [Prod.mk.eta] at hstep
    rw [hstep]
    refine ⟨by rw [List.length_set]; exact hlen, ?_⟩
    rw [show 16 + (t + 1) = (16 + t) + 1 by omega, take_set_succ _ _ _ (by omega), htake]
    simp

theorem expansion_schedule512 (s : tsha512) (W0 : List Nat) (hW0 : W0.length = 80) :
    (for_loop 16 NROUNDS expansion_body (s, W0)).2 =
      fips180.schedule fips180.sha512t256_variant (W0.take 16) := by
  obtain ⟨hlen, htake⟩ := expansion_invariant512 s W0 hW0 64 (le_refl _)
  have h80 : (16 : Nat) + 64 = 80 := rfl
  rw [h80, List.take_of_length_le (by omega)] at htake
  unfold for_loop fips180.schedule
  rw [schedule_newest_first_iterate]
  exact htake

theorem compression_round512 (W : List Nat) (j : Nat) (s : tsha512) (a b c d e f g k : Nat)
    (hA : s.A = [a, b, c, d, e, f, g, k]) (he : e < 2 ^ 64) :
    (compression_body W j s).A =
      fips180.round fips180.sha512t256_variant s.A (K.getD j 0, W.getD j 0) := by
  simp only [compression_body, hA, fips180.round, fips180.sha512t256_variant, fips180.big_sigma,
    fips180.Ch, fips180.Maj, fips180.rotr, ROTR, WSIZE_BITS, List.getD_cons_zero,
    List.getD_cons_succ, xor_all_ones64 e he]

theorem round_bounds512 (kw : Nat × Nat) (x : List Nat) (hlen : x.length = 8)
    (hb : ∀ y ∈ x, y < 2 ^ 64) :
    (fips180.round fips180.sha512t256_variant x kw).length = 8
    ∧ ∀ y ∈ fips180.round fips180.sha512t256_variant x kw, y < 2 ^ 64 := by
  obtain ⟨a, b, c, d, e, f, g, k, rfl⟩ := list_of_length_8 x hlen
  simp only [fips180.round, fips180.sha512t256_variant]
  refine ⟨rfl, ?_⟩
  intro y hy
  simp only [List.mem_cons, List.mem_singleton, List.not_mem_nil, or_false] at hy hb
  rcases hy with h | h | h | h | h | h | h | h
  · rw [h]; exact Nat.mod_lt _ (by norm_num)
  · rw [h]; exact hb a (Or.inl rfl)
  · rw [h]; exact hb b (Or.inr (Or.inl rfl))
  · rw [h]; exact hb c (Or.inr (Or.inr (Or.inl rfl)))
  · rw [h]; exact Nat.mod_lt _ (by norm_num)
  · rw [h]; exact hb e (Or.inr (Or.inr (Or.inr (Or.inr (Or.inl rfl)))))
  · rw [h]; exact hb f (Or.inr (Or.inr (Or.inr (Or.inr (Or.inr (Or.inl rfl))))))
  · rw [h]; exact hb g (Or.inr (Or.inr (Or.inr (Or.inr (Or.inr (Or.inr (Or.inl rfl)))))))


theorem compression_invariant512 (W : List Nat) (hW : W.length = 80) (s1 : tsha512)
    (hlen : s1.A.length = 8) (hb : ∀ y ∈ s1.A, y < 2 ^ 64) (t : Nat) (ht : t ≤ 80) :
    ((List.range' 0 t).foldl (fun acc j => compression_body W j acc) s1).A =
        ((List.zip K W).take t).foldl (fips180.round fips180.sha512t256_variant) s1.A
    ∧ ((List.range' 0 t).foldl (fun acc j => compression_body W j acc) s1).A.length = 8
    ∧ ∀ y ∈ ((List.range' 0 t).foldl (fun acc j => compression_body W j acc) s1).A,
        y < 2 ^ 64 := by
  induction t with
  | zero => exact ⟨rfl, hlen, hb⟩
  | succ t ih =>
    obtain ⟨h1, h2, h3⟩ := ih (by omega)
    obtain ⟨a, b, c, d, e, f, g, k, hA⟩ := list_of_length_8 _ h2
    have he : e < 2 ^ 64 := h3 e (by rw [hA]; simp)
    have hK : K.length = 80 := rfl
    rw [fold_range_succ, Nat.zero_add, compression_round512 W t _ a b c d e f g k hA he,
      take_succ_zip K W t (by omega) (by omega), List.foldl_append, h1]
    refine ⟨rfl, ?_⟩
    rw [← h1]
    exact round_bounds512 _ _ h2 h3

theorem compression_loop512 (W : List Nat) (hW : W.length = 80) (s1 : tsha512)
    (hlen : s1.A.length = 8) (hb : ∀ y ∈ s1.A, y < 2 ^ 64) :
    (for_loop 0 NROUNDS (compression_body W) s1).A =
        (List.zip K W).foldl (fips180.round fips180.sha512t256_variant) s1.A
    ∧ (for_loop 0 NROUNDS (compression_body W) s1).A.length = 8 := by
  obtain ⟨h1, h2, _⟩ := compression_invariant512 W hW s1 hlen hb 80 (le_refl _)
  have hK : K.length = 80 := rfl
  rw [List.take_of_length_le (by rw [List.length_zip, hK, hW]; exact le_refl _)] at h1
  exact ⟨h1, h2⟩

theorem complete_eq_phases512 (s : tsha512) :
    plain_sha512t256_complete_message_block s =
      compression_phase (for_loop 16 NROUNDS expansion_body (s, W64_of_W8 s.W8)).1
        (for_loop 16 NROUNDS expansion_body (s, W64_of_W8 s.W8)).2 := rfl

theorem compression_phase_digest512 (r1 : tsha512) (W : List Nat) (hd : r1.digest.length = 8)
    (hb : ∀ x ∈ r1.digest, x < 2 ^ 64) (hW : W.length = 80) :
    (compression_phase r1 W).digest =
      List.zipWith (fun x y => (x + y) % 2 ^ 64)
        ((List.zip K W).foldl (fips180.round fips180.sha512t256_variant) r1.digest) r1.digest := by
  obtain ⟨d0, d1, d2, d3, d4, d5, d6, d7, hdig⟩ := list_of_length_8 _ hd
  have hA : ({ r1 with A :=
      [r1.digest.getD 0 0, r1.digest.getD 1 0, r1.digest.getD 2 0, r1.digest.getD 3 0,
       r1.digest.getD 4 0, r1.digest.getD 5 0, r1.digest.getD 6 0, r1.digest.getD 7 0] }
      : tsha512).A = r1.digest := by
    rw [hdig]; rfl
  obtain ⟨h1, h2⟩ := compression_loop512 W hW _ (by rw [hA]; exact hd) (by rw [hA]; exact hb)
  obtain ⟨_, _, h3⟩ := compression_frame512 W ({ r1 with A :=
      [r1.digest.getD 0 0, r1.digest.getD 1 0, r1.digest.getD 2 0, r1.digest.getD 3 0,
       r1.digest.getD 4 0, r1.digest.getD 5 0, r1.digest.getD 6 0, r1.digest.getD 7 0] })
  rw [hA] at h1
  rw [← h1]
  obtain ⟨a0, a1, a2, a3, a4, a5, a6, a7, hfin⟩ := list_of_length_8 _ h2
  simp only [compression_phase]
  rw [hfin, h3]
  simp only [hdig]
  rfl

/-- The Block Finalizer computes the compression function of the standard on the digest and
the sixteen message words of the buffer. -/
theorem complete_digest512 (s : tsha512) (hd : s.digest.length = 8)
    (hb : ∀ x ∈ s.digest, x < 2 ^ 64) :
    (plain_sha512t256_complete_message_block s).digest =
      fips180.compress fips180.sha512t256_variant s.digest (block_words s) := by
  have hW0 : (W64_of_W8 s.W8).length = 80 := by simp [W64_of_W8, NW]
  have hsched := expansion_schedule512 s (W64_of_W8 s.W8) hW0
  have hbw : (W64_of_W8 s.W8).take 16 = block_words s := by
    simp only [W64_of_W8, block_words, NW, ← List.map_take, List.take_range]
    rfl
  rw [hbw] at hsched
  obtain ⟨_, _, hfd, hfl⟩ := expansion_frame512 s (W64_of_W8 s.W8)
  rw [complete_eq_phases512, compression_phase_digest512 _ _ (by rw [hfd]; exact hd)
    (by rw [hfd]; exact hb) (by rw [hfl]; exact hW0), hfd, hsched]
  unfold fips180.compress
  rw [fips_tables_sha512t256.1, show fips180.sha512t256_variant.w = 64 from rfl]

end tsha512t256r

namespace tsha256r

/-! ## The digest outside the Block Finalizer -/

set_option maxRecDepth 100000 in
/-- A call of `tsha256r_update` that does not invoke the Block Finalizer keeps the digest. -/
theorem update_digest_without_finalizer (s : tsha256) (finish : Nat)
    (h : (tsha256r_update_traced s finish).2 = []) :
    (tsha256r_update s finish).digest = s.digest := by
  unfold tsha256r_update
  unfold tsha256r_update_traced at h ⊢
  split_ifs at h ⊢ <;> rfl

/-- A call of `tsha256r_getch` keeps the digest. -/
theorem getch_digest (s : tsha256) (c : Nat) :
    (api_step s (api_call.getch c)).digest = s.digest := by
  simp only [api_step, tsha256r_getch]
  split_ifs <;> rfl

/-- From `COMPLETE` or `ERROR` every call of the interface keeps the digest and leads to
`COMPLETE` or `ERROR`. -/
theorem api_step_after_complete (s : tsha256) (call : api_call)
    (hev : s.event = SHA256B_FSM_COMPLETE ∨ s.event = SHA256B_FSM_ERROR) :
    (api_step s call).digest = s.digest
    ∧ ((api_step s call).event = SHA256B_FSM_COMPLETE
      ∨ (api_step s call).event = SHA256B_FSM_ERROR) := by
  cases call with
  | getch c =>
    have hne : s.event ≠ SHA256B_FSM_INPUT := by
      rcases hev with h | h <;> rw [h] <;> decide
    have hstep : api_step s (api_call.getch c) = s := by
      simp [api_step, tsha256r_getch, hne]
    rw [hstep]
    exact ⟨rfl, hev⟩
  | update finish =>
    show (tsha256r_update s finish).digest = s.digest ∧ _
    rcases hev with h | h
    · by_cases hgate : finish = 1 ∨ MSIZE_BYTES ≤ s.i_message
      · have hu := update_in_complete s finish h hgate
        refine ⟨by rw [tsha256r_update, hu], Or.inr ?_⟩
        show (tsha256r_update s finish).event = _
        rw [tsha256r_update, hu]
      · have hu := update_gate_closed s finish (fun hf => hgate (Or.inl hf)) (by omega)
        refine ⟨by rw [tsha256r_update, hu], Or.inl ?_⟩
        show (tsha256r_update s finish).event = _
        rw [tsha256r_update, hu]
        exact h
    · have hu := update_in_error s finish h
      refine ⟨by rw [tsha256r_update, hu], Or.inr ?_⟩
      show (tsha256r_update s finish).event = _
      rw [tsha256r_update, hu]
      exact h

theorem api_run_after_complete (calls : List api_call) :
    ∀ (s : tsha256), (s.event = SHA256B_FSM_COMPLETE ∨ s.event = SHA256B_FSM_ERROR) →
      (api_run s calls).digest = s.digest := by
  induction calls with
  | nil => intro s _; rfl
  | cons call rest ih =>
    intro s hev
    obtain ⟨h1, h2⟩ := api_step_after_complete s call hev
    exact (ih (api_step s call) h2).trans h1

/-- The message words of two records whose first 64 bytes of `W8` agree. -/
theorem block_words_congr (s1 s2 : tsha256)
    (hW : ∀ i, i < 64 → s1.W8.getD i 0 = s2.W8.getD i 0) :
    block_words s1 = block_words s2 := by
  simp only [block_words]
  apply List.map_congr_left
  intro t ht
  have ht16 : t < 16 := by simpa using ht
  simp only [W32_load]
  rw [hW _ (by omega), hW _ (by omega), hW _ (by omega), hW _ (by omega)]

end tsha256r

namespace tsha256r

/-- The transitions of `tsha256r_update` in which the Block Finalizer is not invoked. -/
theorem update_trace_empty (s : tsha256) (finish : Nat) :
    (¬ (finish = 1 ∨ 64 ≤ s.i_message) → (tsha256r_update_traced s finish).2 = [])
    ∧ (s.event = SHA256B_FSM_INPUT → (tsha256r_update_traced s finish).2 = [])
    ∧ (s.event = SHA256B_FSM_INPUT_UPDATE → finish = 1 →
        (tsha256r_update_traced s finish).2 = [])
    ∧ (s.event = SHA256B_FSM_APPEND_1BIT → s.i_message < 64 →
        (tsha256r_update_traced s finish).2 = [])
    ∧ (s.event = SHA256B_FSM_APPEND_0_PADDING → s.i_message < 56 →
        (tsha256r_update_traced s finish).2 = [])
    ∧ (s.event = SHA256B_FSM_APPEND_LENGTH → 56 ≤ s.i_message →
        (tsha256r_update_traced s finish).2 = [])
    ∧ (s.event = SHA256B_FSM_COMPLETE → (tsha256r_update_traced s finish).2 = [])
    ∧ (s.event = SHA256B_FSM_ERROR → (tsha256r_update_traced s finish).2 = []) := by
  have hclosed : ¬ (finish = 1 ∨ s.i_message ≥ MSIZE_BYTES) →
      (tsha256r_update_traced s finish).2 = [] := by
    intro hg
    unfold tsha256r_update_traced
    rw [if_neg hg]
  refine ⟨hclosed, ?_, ?_, ?_, ?_, ?_, ?_, ?_⟩
  · intro hev
    by_cases hg : finish = 1 ∨ s.i_message ≥ MSIZE_BYTES
    · unfold tsha256r_update_traced
      rw [if_pos hg, if_pos hev]
      split <;> rfl
    · exact hclosed hg
  · intro hev hf
    rw [hf, update_input_update_finish s hev]
  · intro hev hi
    by_cases hg : finish = 1 ∨ s.i_message ≥ MSIZE_BYTES
    · have hf : finish = 1 := by
        rcases hg with h | h
        · exact h
        · simp only [MSIZE_BYTES] at h; omega
      rw [hf, update_append_1bit_room s hev (by simp only [MSIZE_BYTES]; exact hi)]
    · exact hclosed hg
  · intro hev hi
    by_cases hg : finish = 1 ∨ s.i_message ≥ MSIZE_BYTES
    · have hf : finish = 1 := by
        rcases hg with h | h
        · exact h
        · simp only [MSIZE_BYTES] at h; omega
      rw [hf, update_append_0_padding_room s hev
        (by simp only [MSIZE_BYTES, LSIZE_BYTES]; omega)]
    · exact hclosed hg
  · intro hev hi
    by_cases hg : finish = 1 ∨ s.i_message ≥ MSIZE_BYTES
    · have hno : ¬ s.i_message < MSIZE_BYTES - LSIZE_BYTES := by
        simp only [MSIZE_BYTES, LSIZE_BYTES]; omega
      have hu : tsha256r_update_traced s finish = ({ s with event := SHA256B_FSM_ERROR }, []) := by
        unfold tsha256r_update_traced
        rw [if_pos hg]
        simp [hev, hno, SHA256B_FSM_INPUT_UPDATE, SHA256B_FSM_INPUT, SHA256B_FSM_APPEND_1BIT,
          SHA256B_FSM_APPEND_0_PADDING, SHA256B_FSM_APPEND_LENGTH]
      rw [hu]
    · exact hclosed hg
  · intro hev
    by_cases hg : finish = 1 ∨ s.i_message ≥ MSIZE_BYTES
    · rw [update_in_complete s finish hev hg]
    · exact hclosed hg
  · intro hev
    rw [update_in_error s finish hev]

end tsha256r

namespace tsha512t256r

/-! ## The length field of SHA-512/256 -/

theorem store_length512_unfold (s : tsha512) :
    store_length s =
      { s with W8 :=
          ((((((((((((((((s.W8.set 120 (s.msglen * 8 % 2 ^ 64 / 2 ^ 0 % 256)).set 121 (s.msglen * 8 % 2 ^ 64 / 2 ^ 8 % 256)).set 122 (s.msglen * 8 % 2 ^ 64 / 2 ^ 16 % 256)).set 123 (s.msglen * 8 % 2 ^ 64 / 2 ^ 24 % 256)).set 124 (s.msglen * 8 % 2 ^ 64 / 2 ^ 32 % 256)).set 125 (s.msglen * 8 % 2 ^ 64 / 2 ^ 40 % 256)).set 126 (s.msglen * 8 % 2 ^ 64 / 2 ^ 48 % 256)).set 127 (s.msglen * 8 % 2 ^ 64 / 2 ^ 56 % 256)).set 112 (s.msglen * 8 % 2 ^ 64 / 2 ^ 64 % 256)).set 113 (s.msglen * 8 % 2 ^ 64 / 2 ^ 72 % 256)).set 114 (s.msglen * 8 % 2 ^ 64 / 2 ^ 80 % 256)).set 115 (s.msglen * 8 % 2 ^ 64 / 2 ^ 88 % 256)).set 116 (s.msglen * 8 % 2 ^ 64 / 2 ^ 96 % 256)).set 117 (s.msglen * 8 % 2 ^ 64 / 2 ^ 104 % 256)).set 118 (s.msglen * 8 % 2 ^ 64 / 2 ^ 112 % 256)).set 119 (s.msglen * 8 % 2 ^ 64 / 2 ^ 120 % 256)) } := rfl

/-- The bytes of `W8` after the length field has been stored. -/
theorem store_length512_getD (s : tsha512) (hW : 128 ≤ s.W8.length) :
    (store_length s).W8.getD 120 0 = s.msglen * 8 % 2 ^ 64 / 2 ^ 0 % 256
    ∧ (store_length s).W8.getD 121 0 = s.msglen * 8 % 2 ^ 64 / 2 ^ 8 % 256
    ∧ (store_length s).W8.getD 122 0 = s.msglen * 8 % 2 ^ 64 / 2 ^ 16 % 256
    ∧ (store_length s).W8.getD 123 0 = s.msglen * 8 % 2 ^ 64 / 2 ^ 24 % 256
    ∧ (store_length s).W8.getD 124 0 = s.msglen * 8 % 2 ^ 64 / 2 ^ 32 % 256
    ∧ (store_length s).W8.getD 125 0 = s.msglen * 8 % 2 ^ 64 / 2 ^ 40 % 256
    ∧ (store_length s).W8.getD 126 0 = s.msglen * 8 % 2 ^ 64 / 2 ^ 48 % 256
    ∧ (store_length s).W8.getD 127 0 = s.msglen * 8 % 2 ^ 64 / 2 ^ 56 % 256
    ∧ (store_length s).W8.getD 112 0 = s.msglen * 8 % 2 ^ 64 / 2 ^ 64 % 256
    ∧ (store_length s).W8.getD 113 0 = s.msglen * 8 % 2 ^ 64 / 2 ^ 72 % 256
    ∧ (store_length s).W8.getD 114 0 = s.msglen * 8 % 2 ^ 64 / 2 ^ 80 % 256
    ∧ (store_length s).W8.getD 115 0 = s.msglen * 8 % 2 ^ 64 / 2 ^ 88 % 256
    ∧ (store_length s).W8.getD 116 0 = s.msglen * 8 % 2 ^ 64 / 2 ^ 96 % 256
    ∧ (store_length s).W8.getD 117 0 = s.msglen * 8 % 2 ^ 64 / 2 ^ 104 % 256
    ∧ (store_length s).W8.getD 118 0 = s.msglen * 8 % 2 ^ 64 / 2 ^ 112 % 256
    ∧ (store_length s).W8.getD 119 0 = s.msglen * 8 % 2 ^ 64 / 2 ^ 120 % 256 := by
  have h120 : 120 < s.W8.length := by omega
  have h121 : 121 < s.W8.length := by omega
  have h122 : 122 < s.W8.length := by omega
  have h123 : 123 < s.W8.length := by omega
  have h124 : 124 < s.W8.length := by omega
  have h125 : 125 < s.W8.length := by omega
  have h126 : 126 < s.W8.length := by omega
  have h127 : 127 < s.W8.length := by omega
  have h112 : 112 < s.W8.length := by omega
  have h113 : 113 < s.W8.length := by omega
  have h114 : 114 < s.W8.length := by omega
  have h115 : 115 < s.W8.length := by omega
  have h116 : 116 < s.W8.length := by omega
  have h117 : 117 < s.W8.length := by omega
  have h118 : 118 < s.W8.length := by omega
  have h119 : 119 < s.W8.length := by omega
  rw [store_length512_unfold]
  refine ⟨?_, ?_, ?_, ?_, ?_, ?_, ?_, ?_, ?_, ?_, ?_, ?_, ?_, ?_, ?_, ?_⟩
  · simp [List.getD_eq_getElem?_getD, List.getElem?_set, h120]
  · simp [List.getD_eq_getElem?_getD, List.getElem?_set, h121]
  · simp [List.getD_eq_getElem?_getD, List.getElem?_set, h122]
  · simp [List.getD_eq_getElem?_getD, List.getElem?_set, h123]
  · simp [List.getD_eq_getElem?_getD, List.getElem?_set, h124]
  · simp [List.getD_eq_getElem?_getD, List.getElem?_set, h125]
  · simp [List.getD_eq_getElem?_getD, List.getElem?_set, h126]
  · simp [List.getD_eq_getElem?_getD, List.getElem?_set, h127]
  · simp [List.getD_eq_getElem?_getD, List.getElem?_set, h112]
  · simp [List.getD_eq_getElem?_getD, List.getElem?_set, h113]
  · simp [List.getD_eq_getElem?_getD, List.getElem?_set, h114]
  · simp [List.getD_eq_getElem?_getD, List.getElem?_set, h115]
  · simp [List.getD_eq_getElem?_getD, List.getElem?_set, h116]
  · simp [List.getD_eq_getElem?_getD, List.getElem?_set, h117]
  · simp [List.getD_eq_getElem?_getD, List.getElem?_set, h118]
  · simp [List.getD_eq_getElem?_getD, List.getElem?_set, h119]

/-- The words 14 and 15 of the block after the length field has been stored: word 15 is
`msglen * 8` reduced modulo `2 ^ 64`, word 14 is zero. -/
theorem store_length512_words (s : tsha512) (hW : 128 ≤ s.W8.length) :
    W64_load (store_length s).W8 14 = 0
    ∧ W64_load (store_length s).W8 15 = s.msglen * 8 % 2 ^ 64 := by
  obtain ⟨g120, g121, g122, g123, g124, g125, g126, g127, g112, g113, g114, g115, g116, g117, g118, g119⟩ := store_length512_getD s hW
  have hL : s.msglen * 8 % 2 ^ 64 < 2 ^ 64 := Nat.mod_lt _ (by norm_num)
  simp only [W64_load]
  rw [show 8 * 14 = 112 from rfl, show 8 * 15 = 120 from rfl, g112, g113, g114, g115, g116, g117, g118, g119, g120, g121, g122, g123, g124, g125, g126, g127]
  generalize s.msglen * 8 % 2 ^ 64 = L at hL
  constructor <;> omega

theorem update512_append_length_room (s : tsha512) (hev : s.event = SHA512T256_FSM_APPEND_LENGTH)
    (hi : s.i_message < MSIZE_BYTES - LSIZE_BYTES) :
    plain_sha512t256_update_traced s 1 =
      ({ plain_sha512t256_complete_message_block (store_length s) with
          event := SHA512T256_FSM_COMPLETE }, [store_length s]) := by
  simp [plain_sha512t256_update_traced, hev, hi, SHA512T256_FSM_INPUT_UPDATE,
    SHA512T256_FSM_INPUT, SHA512T256_FSM_APPEND_1BIT, SHA512T256_FSM_APPEND_0_PADDING,
    SHA512T256_FSM_APPEND_LENGTH]

end tsha512t256r

namespace tsha256r

/-! ## The bytes of the buffer behind the write position -/

/-- Storing a byte at the write position keeps the zero tail behind the next position. -/
theorem zero_tail_after_store (W : List Nat) (i v : Nat) (hi : i < 64)
    (hz : ∀ p, i ≤ p → p < 64 → W.getD (seq.getD p 0) 0 = 0) :
    ∀ p, (i + 1) % 2 ^ 32 ≤ p → p < 64 → (W.set (seq.getD i 0) v).getD (seq.getD p 0) 0 = 0 := by
  intro p hp hp64
  rw [Nat.mod_eq_of_lt (by omega)] at hp
  rw [getD_set_other _ _ _ _ (fun h => by
    have := seq_injective i hi p hp64 h
    omega)]
  exact hz p (by omega) hp64

set_option maxRecDepth 100000 in
/-- One call of `tsha256r_update` keeps the zero tail of the buffer. -/
theorem update_keeps_zero_tail (s : tsha256) (finish : Nat)
    (hz : ∀ p, s.i_message ≤ p → p < 64 → s.W8.getD (seq.getD p 0) 0 = 0) :
    ∀ p, (tsha256r_update s finish).i_message ≤ p → p < 64 →
      (tsha256r_update s finish).W8.getD (seq.getD p 0) 0 = 0 := by
  unfold tsha256r_update tsha256r_update_traced
  simp only [MSIZE_BYTES, LSIZE_BYTES]
  split_ifs <;> simp only [complete_i_message]
  all_goals first
    | exact hz
    | exact fun p _ hp => complete_W8_getD _ _ (seq_lt p hp)
    | exact zero_tail_after_store _ _ _ (by assumption) hz
    | exact zero_tail_after_store _ 0 _ (by norm_num)
        (fun p _ hp => complete_W8_getD _ _ (seq_lt p hp))

/-- One call of the interface keeps the zero tail of the buffer. -/
theorem api_step_keeps_zero_tail (s : tsha256) (call : api_call)
    (hz : ∀ p, s.i_message ≤ p → p < 64 → s.W8.getD (seq.getD p 0) 0 = 0) :
    ∀ p, (api_step s call).i_message ≤ p → p < 64 →
      (api_step s call).W8.getD (seq.getD p 0) 0 = 0 := by
  cases call with
  | getch c =>
    simp only [api_step, tsha256r_getch, MSIZE_BYTES]
    split_ifs
    · exact hz
    · exact zero_tail_after_store _ _ _ (by assumption) hz
    · exact hz
  | update finish => exact update_keeps_zero_tail s finish hz

theorem api_run_keeps_zero_tail (calls : List api_call) :
    ∀ (s : tsha256), (∀ p, s.i_message ≤ p → p < 64 → s.W8.getD (seq.getD p 0) 0 = 0) →
      ∀ p, (api_run s calls).i_message ≤ p → p < 64 →
        (api_run s calls).W8.getD (seq.getD p 0) 0 = 0 := by
  induction calls with
  | nil => intro s hz; exact hz
  | cons call rest ih =>
    intro s hz
    exact ih (api_step s call) (api_step_keeps_zero_tail s call hz)

theorem reset_zero_tail (s0 : tsha256) :
    ∀ p, (tsha256r_reset s0).i_message ≤ p → p < 64 →
      (tsha256r_reset s0).W8.getD (seq.getD p 0) 0 = 0 := by
  intro p _ _
  show (List.replicate (NW * WSIZE_BYTES) 0).getD _ 0 = 0
  rw [List.getD_eq_getElem?_getD, List.getElem?_replicate]
  split <;> rfl

end tsha256r

namespace tsha256r

/-! ## The stream of bytes passed to the Block Finalizer -/

theorem flatten_streams_length (l : List tsha256) :
    ((l.map stream_bytes).flatten).length = 64 * l.length := by
  induction l with
  | nil => rfl
  | cons a l ih =>
    simp only [List.map_cons, List.flatten_cons, List.length_append, List.length_cons, ih]
    rw [show (stream_bytes a).length = 64 from stream_of_length _]
    omega

/-- The flushed record has an empty, zeroed buffer. -/
theorem flushed_buffer (s : tsha256) :
    (flushed s).event = SHA256B_FSM_INPUT ∧ (flushed s).i_message = 0
    ∧ (flushed s).W8.length = 256 ∧ stream_bytes (flushed s) = List.replicate 64 0
    ∧ (flushed s).msglen = s.msglen := by
  obtain ⟨_, w2, w3, w4, w5, w6⟩ := with_event
    (tsha256r_complete_message_block { s with event := SHA256B_FSM_INPUT_UPDATE })
    SHA256B_FSM_INPUT
  refine ⟨w6, w2.trans (complete_i_message _), ?_, w5.trans (complete_stream_bytes _),
    w3.trans (complete_msglen _)⟩
  show ({ tsha256r_complete_message_block { s with event := SHA256B_FSM_INPUT_UPDATE } with
    event := SHA256B_FSM_INPUT } : tsha256).W8.length = 256
  rw [w4]
  exact complete_W8_length _

/-- The ingestion loop, for every message: the blocks flushed during the loop followed by the
bytes left in the buffer are the bytes buffered before followed by the rest of the message. -/
theorem while_stream (message : List Nat) :
    ∀ (n i : Nat) (s : tsha256) (calls : List tsha256) (done : List Nat),
      s.event = SHA256B_FSM_INPUT → s.i_message = done.length → done.length ≤ 64 →
      s.W8.length = 256 → stream_bytes s = done ++ List.replicate (64 - done.length) 0 →
      s.msglen < 2 ^ 64 →
      2 * (message.length - i) + 1 + (if 64 ≤ done.length then 1 else 0) ≤ n →
      ∃ s1 flushes done1,
        run_tests_while n message i s calls = some (some (s1, calls ++ flushes))
        ∧ s1.event = SHA256B_FSM_INPUT ∧ s1.i_message = done1.length ∧ done1.length ≤ 64
        ∧ s1.W8.length = 256
        ∧ stream_bytes s1 = done1 ++ List.replicate (64 - done1.length) 0
        ∧ s1.msglen = (s.msglen + (message.length - i)) % 2 ^ 64
        ∧ (flushes.map stream_bytes).flatten ++ done1
            = done ++ (message.drop i).map (fun c => c % 256)
        ∧ (0 < done.length + (message.length - i) → 0 < done1.length) := by
  intro n
  induction n with
  | zero => intro i s calls done _ _ _ _ _ _ h; omega
  | succ n ih =>
    intro i s calls done hev hi hdone hW hst hm hfuel
    by_cases hlen : i < message.length
    · by_cases hfull : 64 ≤ done.length
      · rw [if_pos hfull] at hfuel
        have h64 : done.length = 64 := by omega
        rw [while_refuse_step message n i s calls hev
          (by simp only [MSIZE_BYTES]; omega) hlen]
        obtain ⟨f1, f2, f3, f4, f5⟩ := flushed_buffer s
        obtain ⟨s1, flushes, done1, h1, h2, h3, h4, h5, h6, h7, h8, h9⟩ :=
          ih i (flushed s) (calls ++ [{ s with event := SHA256B_FSM_INPUT_UPDATE }]) [] f1 f2
            (by simp) f3 (by simpa using f4) (by rw [f5]; exact hm)
            (by simp only [List.length_nil]; rw [if_neg (by omega)]; omega)
        refine ⟨s1, { s with event := SHA256B_FSM_INPUT_UPDATE } :: flushes, done1, ?_, h2, h3,
          h4, h5, h6, ?_, ?_, ?_⟩
        · rw [h1, List.append_assoc]
          rfl
        · rw [h7, f5]
        · simp only [List.map_cons, List.flatten_cons, List.append_assoc]
          rw [h8, List.nil_append]
          have hs : stream_bytes ({ s with event := SHA256B_FSM_INPUT_UPDATE } : tsha256)
              = done := by
            show stream_bytes s = done
            rw [hst, h64]
            simp
          rw [hs]
        · intro _
          exact h9 (by simp only [List.length_nil]; omega)
      · rw [if_neg hfull] at hfuel
        rw [while_accept_step message n i s calls hev
          (by simp only [MSIZE_BYTES]; omega) hlen]
        obtain ⟨g1, g2, g3, g4, g5, _⟩ := ingest_fold [message.getD i 0] s done hev hi
          (by simp only [List.length_singleton]; omega) hW hst hm
        simp only [List.foldl_cons, List.foldl_nil, List.length_singleton, List.map_cons,
          List.map_nil] at g1 g2 g3 g4 g5
        obtain ⟨s1, flushes, done1, h1, h2, h3, h4, h5, h6, h7, h8, h9⟩ :=
          ih (i + 1) (getch_accepted s (message.getD i 0)) calls
            (done ++ [message.getD i 0 % 256]) g1
            (by rw [g2, List.length_append, List.length_singleton])
            (by rw [List.length_append, List.length_singleton]; omega) g3
            (by rw [g4, List.length_append, List.length_singleton])
            (by rw [g5]; exact Nat.mod_lt _ (by norm_num))
            (by rw [List.length_append, List.length_singleton]; split <;> omega)
        refine ⟨s1, flushes, done1, h1, h2, h3, h4, h5, h6, ?_, ?_, ?_⟩
        · rw [h7, g5]
          omega
        · rw [h8, List.append_assoc]
          congr 1
          rw [List.drop_eq_getElem_cons hlen, List.map_cons, List.getD_eq_getElem _ _ hlen]
          rfl
        · intro _
          exact h9 (by rw [List.length_append, List.length_singleton]; omega)
    · rw [run_tests_while, if_neg hlen]
      refine ⟨s, [], done, by rw [List.append_nil], hev, hi, hdone, hW, hst, ?_, ?_, ?_⟩
      · rw [show message.length - i = 0 by omega, Nat.add_zero, Nat.mod_eq_of_lt hm]
      · rw [List.drop_eq_nil_of_le (by omega)]
        simp
      · intro h
        omega

end tsha256r

namespace tsha256r

/-- From `APPEND_0_PADDING` with room for the length, the do-while loop ends after two more
calls, with one invocation of the Block Finalizer, on the block that holds the length. -/
theorem padding_room_finish_explicit (s : tsha256) (calls : List tsha256) (k : Nat)
    (hev : s.event = SHA256B_FSM_APPEND_0_PADDING)
    (hi : s.i_message < MSIZE_BYTES - LSIZE_BYTES) :
    run_tests_do_while (2 + k) s calls =
      some ({ tsha256r_complete_message_block
                (store_length { s with event := SHA256B_FSM_APPEND_LENGTH }) with
              event := SHA256B_FSM_COMPLETE },
            calls ++ [store_length { s with event := SHA256B_FSM_APPEND_LENGTH }]) := by
  have e5 := update_append_0_padding_room s hev hi
  rw [show 2 + k = (k + 1) + 1 by omega, do_while_continue (k + 1) _ _
      (by rw [e5]; exact (by decide : SHA256B_FSM_APPEND_LENGTH ≠ SHA256B_FSM_COMPLETE))
      (by rw [e5]; exact (by decide : SHA256B_FSM_APPEND_LENGTH ≠ SHA256B_FSM_ERROR)), e5]
  have e6 := update_append_length_room { s with event := SHA256B_FSM_APPEND_LENGTH } rfl hi
  rw [do_while_stop k _ _ (by rw [e6]), e6]
  simp

/-- The block that holds the length field, in stream order: the bytes buffered before, zeros
up to position 55 and the bit length. -/
theorem final_block_stream (t : tsha256) (pre : List Nat) (hW : 64 ≤ t.W8.length)
    (hpre : pre.length ≤ 56)
    (hst : stream_bytes t = pre ++ List.replicate (64 - pre.length) 0) :
    stream_bytes (store_length t) =
      pre ++ List.replicate (56 - pre.length) 0 ++ fips180.be_bytes 8 (t.msglen * 8 % 2 ^ 64) := by
  obtain ⟨hdrop, htake⟩ := store_length_stream_general t hW
  have hsplit := (List.take_append_drop 56 (stream_bytes (store_length t))).symm
  rw [hdrop, htake, hst, List.take_append_eq_append_take, List.take_of_length_le hpre,
    List.take_replicate, show min (56 - pre.length) (64 - pre.length) = 56 - pre.length by omega]
    at hsplit
  rw [hsplit]
  rfl

/-- The record after the marker byte has been stored behind the buffered bytes. -/
theorem marker_stream (c : tsha256) (done : List Nat) (hi : c.i_message = done.length)
    (h64 : done.length < 64) (hW : c.W8.length = 256)
    (hst : stream_bytes c = done ++ List.replicate (64 - done.length) 0) :
    stream_bytes (marker_stored c)
        = (done ++ [0x80]) ++ List.replicate (64 - (done ++ [0x80]).length) 0
    ∧ (marker_stored c).i_message = done.length + 1
    ∧ (marker_stored c).W8.length = 256 := by
  have hst0 : stream_of c.W8 = done ++ List.replicate (64 - done.length) 0 := hst
  refine ⟨?_, ?_, ?_⟩
  · show stream_of (c.W8.set (seq.getD c.i_message 0) 0x80) = _
    rw [stream_of_set c.W8 done.length _ 0x80 h64 (by omega) (by rw [hi]), hst0,
      show 64 - done.length = (63 - done.length) + 1 by omega, append_replicate_set,
      List.length_append, List.length_singleton,
      show 64 - (done.length + 1) = 63 - done.length by omega]
  · rw [marker_stored_i_message, hi]
    exact Nat.mod_eq_of_lt (by omega)
  · show (c.W8.set _ _).length = 256
    rw [List.length_set, hW]

end tsha256r

namespace tsha256r

/-- The do-while loop of the driver, for every number of buffered bytes: the blocks passed to
the Block Finalizer are, in stream order, the buffered bytes, the marker byte, zeros and the
bit length; there is one block when at most 54 bytes are buffered and there are two
otherwise. -/
theorem finish_stream (s : tsha256) (calls : List tsha256) (done : List Nat) (k : Nat)
    (hev : s.event = SHA256B_FSM_INPUT) (hi : s.i_message = done.length)
    (hdone : done.length ≤ 64) (hW : s.W8.length = 256)
    (hst : stream_bytes s = done ++ List.replicate (64 - done.length) 0) :
    ∃ final blocks pad,
      run_tests_do_while (6 + k) s calls = some (final, calls ++ blocks)
      ∧ final.event = SHA256B_FSM_COMPLETE
      ∧ (blocks.map stream_bytes).flatten
          = done ++ [0x80] ++ List.replicate pad 0
            ++ fips180.be_bytes 8 (s.msglen * 8 % 2 ^ 64)
      ∧ blocks.length = (if done.length ≤ 54 then 1 else 2) := by
  have e1 := update_input_finish s hev
  have e2 := update_input_update_finish { s with event := SHA256B_FSM_INPUT_UPDATE } rfl
  have hstart : run_tests_do_while (6 + k) s calls
      = run_tests_do_while (k + 4) { s with event := SHA256B_FSM_APPEND_1BIT } calls := by
    rw [show 6 + k = (k + 5) + 1 by omega,
      do_while_continue (k + 5) s calls
        (by rw [e1]; exact (by decide : SHA256B_FSM_INPUT_UPDATE ≠ SHA256B_FSM_COMPLETE))
        (by rw [e1]; exact (by decide : SHA256B_FSM_INPUT_UPDATE ≠ SHA256B_FSM_ERROR)), e1,
      do_while_continue (k + 4) _ _
        (by rw [e2]; exact (by decide : SHA256B_FSM_APPEND_1BIT ≠ SHA256B_FSM_COMPLETE))
        (by rw [e2]; exact (by decide : SHA256B_FSM_APPEND_1BIT ≠ SHA256B_FSM_ERROR)), e2]
    simp only [List.append_nil]
  clear e1 e2
  by_cases hfull : done.length < 64
  · -- the marker byte fits in the buffer
    obtain ⟨m1, m2, m3⟩ := marker_stream { s with event := SHA256B_FSM_APPEND_1BIT } done hi hfull
      hW hst
    have e3 := update_append_1bit_room { s with event := SHA256B_FSM_APPEND_1BIT } rfl
      (by show s.i_message < MSIZE_BYTES; simp only [MSIZE_BYTES]; omega)
    have hmark : run_tests_do_while (k + 4) { s with event := SHA256B_FSM_APPEND_1BIT } calls
        = run_tests_do_while (k + 3)
            (marker_stored { s with event := SHA256B_FSM_APPEND_1BIT }) calls := by
      rw [do_while_continue (k + 3) _ _
        (by rw [e3]; exact (by decide : SHA256B_FSM_APPEND_0_PADDING ≠ SHA256B_FSM_COMPLETE))
        (by rw [e3]; exact (by decide : SHA256B_FSM_APPEND_0_PADDING ≠ SHA256B_FSM_ERROR)), e3]
      simp only [List.append_nil]
    by_cases hlo : done.length ≤ 54
    · have hfin := padding_room_finish_explicit
        (marker_stored { s with event := SHA256B_FSM_APPEND_1BIT }) calls (k + 1) rfl
        (by rw [m2]; simp only [MSIZE_BYTES, LSIZE_BYTES]; omega)
      rw [← show k + 3 = 2 + (k + 1) by omega] at hfin
      refine ⟨_, _, 55 - done.length, hstart.trans (hmark.trans hfin), rfl, ?_,
        by rw [if_pos hlo]; rfl⟩
      have hblk := final_block_stream
        ({ marker_stored { s with event := SHA256B_FSM_APPEND_1BIT } with
            event := SHA256B_FSM_APPEND_LENGTH } : tsha256) (done ++ [0x80])
        ((with_event _ _).2.2.2.1 ▸ (by rw [m3]; norm_num))
        (by rw [List.length_append, List.length_singleton]; omega)
        ((with_event _ _).2.2.2.2.1.trans m1)
      simp only [List.map_cons, List.map_nil, List.flatten_cons, List.flatten_nil,
        List.append_nil]
      rw [hblk, List.length_append, List.length_singleton,
        show 56 - (done.length + 1) = 55 - done.length by omega]
      rfl
    · have hfin := finish_two_blocks s calls k hev (by omega) (by omega)
      refine ⟨_, _, (63 - done.length) + 56, hfin, rfl, ?_, by rw [if_neg hlo]; rfl⟩
      simp only [List.map_cons, List.map_nil, List.flatten_cons, List.flatten_nil,
        List.append_nil]
      rw [m1, length_block_stream _ _ (by rw [complete_W8_length]; norm_num)
        (complete_W8_getD _), complete_msglen, List.length_append, List.length_singleton,
        show 64 - (done.length + 1) = 63 - done.length by omega, List.replicate_add]
      simp only [List.append_assoc]
      rfl
  · -- the buffer is full: the block is flushed before the marker byte is stored
    have h64 : done.length = 64 := by omega
    have hno : ¬ done.length ≤ 54 := by omega
    have e3 := update_append_1bit_full { s with event := SHA256B_FSM_APPEND_1BIT } 1 rfl
      (by show MSIZE_BYTES ≤ s.i_message; simp only [MSIZE_BYTES]; omega)
    have hm := marker_stored_frame
      (tsha256r_complete_message_block { s with event := SHA256B_FSM_APPEND_1BIT })
    obtain ⟨n1, _, _, _, n5, n6⟩ := marker_on_empty
      (tsha256r_complete_message_block { s with event := SHA256B_FSM_APPEND_1BIT })
      (complete_i_message _) (complete_W8_length _) (complete_W8_getD _)
    have hmark : run_tests_do_while (k + 4) { s with event := SHA256B_FSM_APPEND_1BIT } calls
        = run_tests_do_while (k + 3)
            (marker_stored
              (tsha256r_complete_message_block { s with event := SHA256B_FSM_APPEND_1BIT }))
            (calls ++ [{ s with event := SHA256B_FSM_APPEND_1BIT }]) := by
      rw [do_while_continue (k + 3) _ _
        (by rw [e3]; show (marker_stored _).event ≠ _; rw [hm.2.2]; decide)
        (by rw [e3]; show (marker_stored _).event ≠ _; rw [hm.2.2]; decide), e3]
    have hfin := padding_room_finish_explicit
      (marker_stored
        (tsha256r_complete_message_block { s with event := SHA256B_FSM_APPEND_1BIT }))
      (calls ++ [{ s with event := SHA256B_FSM_APPEND_1BIT }]) (k + 1) hm.2.2
      (by rw [n5]; decide)
    rw [← show k + 3 = 2 + (k + 1) by omega, List.append_assoc, List.singleton_append] at hfin
    refine ⟨_, _, 55, hstart.trans (hmark.trans hfin), rfl, ?_, by rw [if_neg hno]; rfl⟩
    · simp only [List.map_cons, List.map_nil, List.flatten_cons, List.flatten_nil,
        List.append_nil]
      have hs : stream_bytes ({ s with event := SHA256B_FSM_APPEND_1BIT } : tsha256) = done := by
        show stream_bytes s = done
        rw [hst, h64]
        simp
      have hblk := final_block_stream
        ({ marker_stored
            (tsha256r_complete_message_block { s with event := SHA256B_FSM_APPEND_1BIT }) with
            event := SHA256B_FSM_APPEND_LENGTH } : tsha256) [0x80]
        ((with_event _ _).2.2.2.1 ▸ (by rw [n6]; norm_num))
        (by simp)
        ((with_event _ _).2.2.2.2.1.trans (n1.trans rfl))
      have hml : ({ marker_stored
          (tsha256r_complete_message_block { s with event := SHA256B_FSM_APPEND_1BIT }) with
          event := SHA256B_FSM_APPEND_LENGTH } : tsha256).msglen = s.msglen :=
        (with_event _ _).2.2.1.trans ((hm.2.1).trans (complete_msglen _))
      rw [hs, hblk, hml]
      simp only [List.length_singleton, List.append_assoc]

end tsha256r

namespace tsha256r

/-- The hashing sequence of the driver, for every message: it returns, the blocks passed to
the Block Finalizer are in stream order the padded message, and their number is given by the
length of the message. -/
theorem driver_stream (message : List Nat) (state0 : tsha256) (k : Nat) :
    ∃ final calls pad,
      run_tests_hash (2 * message.length + 8 + k) state0 message
        = some (outcome.done final calls)
      ∧ final.event = SHA256B_FSM_COMPLETE
      ∧ (calls.map stream_bytes).flatten
          = message.map (fun c => c % 256) ++ [0x80] ++ List.replicate pad 0
            ++ fips180.be_bytes 8 (message.length % 2 ^ 64 * 8 % 2 ^ 64)
      ∧ calls.length
          = (if message.length % 64 ≤ 54 then message.length / 64 + 1
             else message.length / 64 + 2) := by
  obtain ⟨s1, flushes, done1, h1, h2, h3, h4, h5, h6, h7, h8, h9⟩ :=
    while_stream message (2 * message.length + 8 + k) 0 (tsha256r_reset state0) [] [] rfl rfl
      (by simp) (reset_W8_length state0) (by simpa using reset_stream_bytes state0)
      (by show (0 : Nat) < 2 ^ 64; norm_num)
      (by simp only [List.length_nil]; rw [if_neg (by omega)]; omega)
  obtain ⟨final, blocks, pad, f1, f2, f3, f4⟩ :=
    finish_stream s1 ([] ++ flushes) done1 (2 * message.length + 2 + k) h2 h3 h4 h5 h6
  have hm : s1.msglen = message.length % 2 ^ 64 := by
    rw [h7]
    show (0 + (message.length - 0)) % 2 ^ 64 = _
    rw [Nat.zero_add, Nat.sub_zero]
  rw [List.drop_zero, List.nil_append] at h8
  have hcount : 64 * flushes.length + done1.length = message.length := by
    have := congrArg List.length h8
    rw [List.length_append, flatten_streams_length, List.length_map] at this
    exact this
  have hpos : 0 < message.length → 0 < done1.length := by
    intro h
    exact h9 (by simp only [List.length_nil]; omega)
  refine ⟨final, flushes ++ blocks, pad, ?_, f2, ?_, ?_⟩
  · unfold run_tests_hash
    rw [h1]
    simp only []
    rw [show 2 * message.length + 8 + k = 6 + (2 * message.length + 2 + k) by omega, f1]
    simp
  · rw [List.map_append, List.flatten_append, f3, hm, ← h8]
    simp only [List.append_assoc]
  · rw [List.length_append, f4]
    split <;> split <;> omega

end tsha256r

namespace tsha256r

/-! ## The number of calls made by the do-while loop -/

/-- A do-while loop that has not ended with fuel `n` has not ended with less fuel. -/
theorem do_while_none_below (n : Nat) (s : tsha256) (calls : List tsha256)
    (h : run_tests_do_while n s calls = none) :
    ∀ m, m ≤ n → run_tests_do_while m s calls = none := by
  intro m hm
  cases hr : run_tests_do_while m s calls with
  | none => rfl
  | some r =>
    have := run_tests_do_while_mono (n - m) m s calls r hr
    rw [show m + (n - m) = n by omega, h] at this
    exact absurd this (by simp)

/-- From `INPUT`, the calls `tsha256r_update(state, 1)` lead to `APPEND_LENGTH` with room for
the length after exactly five calls when 55 to 63 bytes are buffered and after exactly four
calls otherwise. -/
theorem finish_reaches_length (s : tsha256) (calls : List tsha256)
    (hev : s.event = SHA256B_FSM_INPUT) :
    ∃ t calls1, t.event = SHA256B_FSM_APPEND_LENGTH
      ∧ t.i_message < MSIZE_BYTES - LSIZE_BYTES
      ∧ ∀ n, run_tests_do_while
            (n + (if 55 ≤ s.i_message ∧ s.i_message ≤ 63 then 5 else 4)) s calls
          = run_tests_do_while n t calls1 := by
  have e1 := update_input_finish s hev
  have e2 := update_input_update_finish { s with event := SHA256B_FSM_INPUT_UPDATE } rfl
  have hstart : ∀ n, run_tests_do_while (n + 2) s calls
      = run_tests_do_while n { s with event := SHA256B_FSM_APPEND_1BIT } calls := by
    intro n
    rw [show n + 2 = (n + 1) + 1 from rfl,
      do_while_continue (n + 1) s calls
        (by rw [e1]; exact (by decide : SHA256B_FSM_INPUT_UPDATE ≠ SHA256B_FSM_COMPLETE))
        (by rw [e1]; exact (by decide : SHA256B_FSM_INPUT_UPDATE ≠ SHA256B_FSM_ERROR)), e1,
      do_while_continue n _ _
        (by rw [e2]; exact (by decide : SHA256B_FSM_APPEND_1BIT ≠ SHA256B_FSM_COMPLETE))
        (by rw [e2]; exact (by decide : SHA256B_FSM_APPEND_1BIT ≠ SHA256B_FSM_ERROR)), e2]
    simp only [List.append_nil]
  clear e1 e2
  by_cases hfull : s.i_message < 64
  · have e3 := update_append_1bit_room { s with event := SHA256B_FSM_APPEND_1BIT } rfl
      (by show s.i_message < MSIZE_BYTES; simp only [MSIZE_BYTES]; omega)
    have hmi : (marker_stored { s with event := SHA256B_FSM_APPEND_1BIT }).i_message
        = s.i_message + 1 := by
      rw [marker_stored_i_message]
      exact Nat.mod_eq_of_lt (by show s.i_message + 1 < 2 ^ 32; omega)
    have hmark : ∀ n, run_tests_do_while (n + 3) s calls
        = run_tests_do_while n (marker_stored { s with event := SHA256B_FSM_APPEND_1BIT })
            calls := by
      intro n
      rw [show n + 3 = (n + 1) + 2 from rfl, hstart, do_while_continue n _ _
        (by rw [e3]; exact (by decide : SHA256B_FSM_APPEND_0_PADDING ≠ SHA256B_FSM_COMPLETE))
        (by rw [e3]; exact (by decide : SHA256B_FSM_APPEND_0_PADDING ≠ SHA256B_FSM_ERROR)), e3]
      simp only [List.append_nil]
    by_cases hlo : s.i_message ≤ 54
    · have e4 := update_append_0_padding_room
        (marker_stored { s with event := SHA256B_FSM_APPEND_1BIT }) rfl
        (by rw [hmi]; simp only [MSIZE_BYTES, LSIZE_BYTES]; omega)
      refine ⟨{ marker_stored { s with event := SHA256B_FSM_APPEND_1BIT } with
          event := SHA256B_FSM_APPEND_LENGTH }, calls, rfl, ?_, ?_⟩
      · show (marker_stored { s with event := SHA256B_FSM_APPEND_1BIT }).i_message < _
        rw [hmi]; simp only [MSIZE_BYTES, LSIZE_BYTES]; omega
      · intro n
        rw [if_neg (by omega), show n + 4 = (n + 1) + 3 from rfl, hmark,
          do_while_continue n _ _
            (by rw [e4]; exact (by decide : SHA256B_FSM_APPEND_LENGTH ≠ SHA256B_FSM_COMPLETE))
            (by rw [e4]; exact (by decide : SHA256B_FSM_APPEND_LENGTH ≠ SHA256B_FSM_ERROR)), e4]
        simp only [List.append_nil]
    · have e4 := update_append_0_padding_flush
        (marker_stored { s with event := SHA256B_FSM_APPEND_1BIT }) rfl
        (by rw [hmi]; simp only [MSIZE_BYTES, LSIZE_BYTES]; omega)
      obtain ⟨_, w2, _, _, _, w6⟩ := with_event
        (tsha256r_complete_message_block
          (marker_stored { s with event := SHA256B_FSM_APPEND_1BIT }))
        SHA256B_FSM_APPEND_0_PADDING
      have e5 := update_append_0_padding_room _ w6
        (by rw [w2, complete_i_message]; decide)
      have hr : ∀ n, run_tests_do_while (n + 5) s calls
          = run_tests_do_while n
              { ({ tsha256r_complete_message_block
                    (marker_stored { s with event := SHA256B_FSM_APPEND_1BIT }) with
                  event := SHA256B_FSM_APPEND_0_PADDING } : tsha256) with
                event := SHA256B_FSM_APPEND_LENGTH }
              (calls ++ [marker_stored { s with event := SHA256B_FSM_APPEND_1BIT }]) := by
        intro n
        rw [show n + 5 = (n + 2) + 3 from rfl, hmark,
          do_while_continue (n + 1) _ _
            (by rw [e4, w6]; decide) (by rw [e4, w6]; decide), e4,
          do_while_continue n _ _
            (by rw [e5]; exact (by decide : SHA256B_FSM_APPEND_LENGTH ≠ SHA256B_FSM_COMPLETE))
            (by rw [e5]; exact (by decide : SHA256B_FSM_APPEND_LENGTH ≠ SHA256B_FSM_ERROR)), e5]
        simp only [List.append_nil]
      refine ⟨_, _, (with_event _ _).2.2.2.2.2, ?_, fun n => by rw [if_pos (by omega)]; exact hr n⟩
      exact ((with_event _ _).2.1.trans (w2.trans (complete_i_message _))).trans_lt
        (by decide)
  · have e3 := update_append_1bit_full { s with event := SHA256B_FSM_APPEND_1BIT } 1 rfl
      (by show MSIZE_BYTES ≤ s.i_message; simp only [MSIZE_BYTES]; omega)
    have hm := marker_stored_frame
      (tsha256r_complete_message_block { s with event := SHA256B_FSM_APPEND_1BIT })
    have hmi : (marker_stored
        (tsha256r_complete_message_block { s with event := SHA256B_FSM_APPEND_1BIT })).i_message
        = 1 := by
      rw [marker_stored_i_message, complete_i_message]
      rfl
    have e4 := update_append_0_padding_room _ hm.2.2 (by rw [hmi]; decide)
    have hr : ∀ n, run_tests_do_while (n + 4) s calls
        = run_tests_do_while n
            { marker_stored
                (tsha256r_complete_message_block { s with event := SHA256B_FSM_APPEND_1BIT }) with
              event := SHA256B_FSM_APPEND_LENGTH }
            (calls ++ [{ s with event := SHA256B_FSM_APPEND_1BIT }]) := by
      intro n
      rw [show n + 4 = (n + 2) + 2 from rfl, hstart,
        do_while_continue (n + 1) _ _
          (by rw [e3, hm.2.2]; decide) (by rw [e3, hm.2.2]; decide), e3,
        do_while_continue n _ _
          (by rw [e4]; exact (by decide : SHA256B_FSM_APPEND_LENGTH ≠ SHA256B_FSM_COMPLETE))
          (by rw [e4]; exact (by decide : SHA256B_FSM_APPEND_LENGTH ≠ SHA256B_FSM_ERROR)), e4]
      simp only [List.append_nil]
    refine ⟨_, _, (with_event _ _).2.2.2.2.2, ?_, fun n => by rw [if_neg (by omega)]; exact hr n⟩
    exact ((with_event _ _).2.1.trans hmi).trans_lt (by decide)

/-- From `INPUT` the do-while loop ends in `COMPLETE` after exactly six calls of
`tsha256r_update(state, 1)` when 55 to 63 bytes are buffered and after exactly five calls
otherwise. -/
theorem finish_exact (s : tsha256) (calls : List tsha256) (hev : s.event = SHA256B_FSM_INPUT) :
    (∃ final calls1,
      run_tests_do_while ((if 55 ≤ s.i_message ∧ s.i_message ≤ 63 then 5 else 4) + 1) s calls
        = some (final, calls1)
      ∧ final.event = SHA256B_FSM_COMPLETE)
    ∧ ∀ m, m ≤ (if 55 ≤ s.i_message ∧ s.i_message ≤ 63 then 5 else 4) →
        run_tests_do_while m s calls = none := by
  obtain ⟨t, calls1, ht, hti, hrun⟩ := finish_reaches_length s calls hev
  have e6 := update_append_length_room t ht hti
  constructor
  · have hr : run_tests_do_while
        ((if 55 ≤ s.i_message ∧ s.i_message ≤ 63 then 5 else 4) + 1) s calls
        = some ({ tsha256r_complete_message_block (store_length t) with
                  event := SHA256B_FSM_COMPLETE }, calls1 ++ [store_length t]) := by
      rw [Nat.add_comm, hrun 1, do_while_stop 0 _ _ (by rw [e6]), e6]
    exact ⟨_, _, hr, rfl⟩
  · apply do_while_none_below
    have := hrun 0
    rw [Nat.zero_add] at this
    rw [this]
    rfl

end tsha256r

/-! ## The hybrid-plain SHA-256 variant and the reference loop -/

namespace tsha256hp

/-- The 48 unrolled expansion steps are the indices of the loop `for (j = 16; j < 64; j++)`. -/
theorem expansion_steps_eq : expansion_steps = List.range' 16 48 := by decide

/-- The 64 unrolled compression steps are the indices of the loop `for (j = 0; j < 64; j++)`,
each with the entry `K[j]` of the table of `main-tsha256r.c`. -/
theorem compression_steps_eq :
    compression_steps = (List.range' 0 64).map (fun j => (j, tsha256r.K.getD j 0)) := by
  decide

theorem ROTRL_eq (v amt : Nat) : ROTRL v amt = tsha256r.ROTR v amt := rfl

theorem expansion_plain_eq (j : Nat) (p : tsha256r.tsha256 × List Nat) :
    DO_MESSAGE_EXPANSION_PLAIN j p = tsha256r.expansion_body j p := rfl

theorem compression_plain_eq (W32 : List Nat) (j : Nat) (s : tsha256r.tsha256) :
    DO_COMPRESSION_PLAIN W32 j (tsha256r.K.getD j 0) s = tsha256r.compression_body W32 j s :=
  rfl

/-- The unrolled expansion is the expansion loop. -/
theorem expansion_unrolled (p : tsha256r.tsha256 × List Nat) :
    DO_MESSAGE_EXPANSION p = for_loop 16 tsha256r.NROUNDS tsha256r.expansion_body p := by
  rw [DO_MESSAGE_EXPANSION, expansion_steps_eq]
  rfl

/-- The unrolled compression is the compression loop. -/
theorem compression_unrolled (W32 : List Nat) (s : tsha256r.tsha256) :
    DO_MESSAGE_COMPRESSION W32 s
      = for_loop 0 tsha256r.NROUNDS (tsha256r.compression_body W32) s := by
  rw [DO_MESSAGE_COMPRESSION, compression_steps_eq, List.foldl_map]
  rfl

/-- The hybrid-plain finalizer returns the record of the reference finalizer. -/
theorem complete_message_block_eq (s : tsha256r.tsha256) :
    tsha256hp_complete_message_block s = tsha256r.tsha256r_complete_message_block s := by
  simp only [tsha256hp_complete_message_block, tsha256r.tsha256r_complete_message_block,
    expansion_unrolled, compression_unrolled, MESSAGE_SIZE_BYTES, tsha256r.MSIZE_BYTES]

theorem store_length_eq (s : tsha256r.tsha256) :
    store_length s = tsha256r.store_length s := by
  simp only [store_length, tsha256r.store_length, Nat.shiftLeft_eq, L_SIZE_BYTES,
    tsha256r.LSIZE_BYTES]
  rfl

theorem reset_eq (s : tsha256r.tsha256) : tsha256hp_reset s = tsha256r.tsha256r_reset s := rfl

theorem getch_eq (s : Option tsha256r.tsha256) (c : Nat) :
    tsha256hp_getch s c = tsha256r.tsha256r_getch s c := rfl

set_option maxRecDepth 100000 in
theorem update_traced_eq (s : tsha256r.tsha256) (finish : Nat) :
    tsha256hp_update_traced s finish = tsha256r.tsha256r_update_traced s finish := by
  simp only [tsha256hp_update_traced, tsha256r.tsha256r_update_traced,
    complete_message_block_eq, store_length_eq]
  rfl

theorem update_eq (s : tsha256r.tsha256) (finish : Nat) :
    tsha256hp_update s finish = tsha256r.tsha256r_update s finish := by
  rw [tsha256hp_update, tsha256r.tsha256r_update, update_traced_eq]

theorem run_tests_while_eq (message : List Nat) :
    ∀ (fuel i : Nat) (s : tsha256r.tsha256) (calls : List tsha256r.tsha256),
      run_tests_while fuel message i s calls = tsha256r.run_tests_while fuel message i s calls
  | 0, _, _, _ => rfl
  | fuel + 1, i, s, calls => by
    simp only [run_tests_while, tsha256r.run_tests_while, getch_eq, update_traced_eq,
      run_tests_while_eq message fuel]
    rfl

theorem run_tests_do_while_eq :
    ∀ (fuel : Nat) (s : tsha256r.tsha256) (calls : List tsha256r.tsha256),
      run_tests_do_while fuel s calls = tsha256r.run_tests_do_while fuel s calls
  | 0, _, _ => rfl
  | fuel + 1, s, calls => by
    simp only [run_tests_do_while, tsha256r.run_tests_do_while, update_traced_eq,
      run_tests_do_while_eq fuel]
    rfl

theorem run_tests_hash_eq (fuel : Nat) (s : tsha256r.tsha256) (message : List Nat) :
    run_tests_hash fuel s message = tsha256r.run_tests_hash fuel s message := by
  simp only [run_tests_hash, tsha256r.run_tests_hash, run_tests_while_eq,
    run_tests_do_while_eq, reset_eq]

theorem run_tests_digest_eq (fuel : Nat) (s : tsha256r.tsha256) (message : List Nat) :
    run_tests_digest fuel s message = tsha256r.run_tests_digest fuel s message := by
  simp only [run_tests_digest, tsha256r.run_tests_digest, run_tests_hash_eq]
  rfl

end tsha256hp


/-! ## Claims -/

/-- C1 (fails on the code): on the 55-byte message `message_55` the driver of `run_tests`
ends in `COMPLETE`, but its eight digest words are not the SHA-256 digest of FIPS 180-4: the
code yields `8dae2213 ...`, the standard `9f4390f8 ...`. -/
theorem C1_sha256_driver_differs_from_fips_at_55_bytes (state0 : tsha256r.tsha256) (k : Nat) :
    message_55.length = 55
    ∧ tsha256r.run_tests_digest (64 + k) state0 message_55 =
      some (tsha256r.SHA256B_FSM_COMPLETE,
        [0x8dae2213, 0xbe498438, 0x15e7ced6, 0x7d8cbe7d,
         0xa18847dc, 0xa23ed21b, 0x3ad06470, 0x12178096])
    ∧ fips180.sha256 message_55 =
        [0x9f4390f8, 0xd30c2dd9, 0x2ec9f095, 0xb65e2b9a,
         0xe9b0a925, 0xa5258e24, 0x1c9f1e91, 0x0f734318] :=
  ⟨by decide!, tsha256r.run_tests_digest_of_eval 64 k state0 _ _ (by decide!), by decide!⟩

/-- C2 (fails on the code): on the 111-byte message `message_111` the SHA-512/256 driver ends in
`COMPLETE`, but its first four digest words are not the SHA-512/256 digest of FIPS 180-4: the
code yields `e454f4708d4c693b ...`, the standard `0239e429f98d0ed6 ...`. -/
theorem C2_sha512t256_driver_differs_from_fips_at_111_bytes (state0 : tsha512t256r.tsha512)
    (k : Nat) :
    message_111.length = 111
    ∧ tsha512t256r.run_tests_digest_truncated (120 + k) state0 message_111 =
      some (tsha512t256r.SHA512T256_FSM_COMPLETE,
        [0xe454f4708d4c693b, 0x92df813aad54018d, 0x5018798f70f2c333, 0xf7f277c698e654e4])
    ∧ fips180.sha512t256 message_111 =
        [0x0239e429f98d0ed6, 0x1ee8e2a7c30afe98, 0xc1c3a80ce5dff62a, 0x107e9c538f7632ce] :=
  ⟨by decide!, tsha512t256r.run_tests512_truncated_of_eval 120 k state0 _ _ (by decide!),
   by decide!⟩

/-- C3: for every fuel of at least 8 and every prior content of the record, the SHA-256 driver
ends in `COMPLETE` with digest `e3b0c442 ... 7852b855` on the empty message and with digest
`ba7816bf ... f20015ad` on the message "abc". -/
theorem C3_sha256_single_block_known_answers (state0 : tsha256r.tsha256) (k : Nat) :
    tsha256r.run_tests_digest (8 + k) state0 [] =
      some (tsha256r.SHA256B_FSM_COMPLETE,
        [0xe3b0c442, 0x98fc1c14, 0x9afbf4c8, 0x996fb924,
         0x27ae41e4, 0x649b934c, 0xa495991b, 0x7852b855])
    ∧ tsha256r.run_tests_digest (8 + k) state0 message_abc =
      some (tsha256r.SHA256B_FSM_COMPLETE,
        [0xba7816bf, 0x8f01cfea, 0x414140de, 0x5dae2223,
         0xb00361a3, 0x96177a9c, 0xb410ff61, 0xf20015ad]) :=
  ⟨tsha256r.run_tests_digest_of_eval 8 k state0 _ _ (by decide!),
   tsha256r.run_tests_digest_of_eval 8 k state0 _ _ (by decide!)⟩

/-- C4: on the 56-byte test message the SHA-256 driver ends in `COMPLETE` with digest
`248d6a61 ... 19db06c1`, after two invocations of the Block Finalizer. -/
theorem C4_sha256_two_block_known_answer (state0 : tsha256r.tsha256) (k : Nat) :
    message_56.length = 56
    ∧ tsha256r.run_tests_digest (64 + k) state0 message_56 =
      some (tsha256r.SHA256B_FSM_COMPLETE,
        [0x248d6a61, 0xd20638b8, 0xe5c02693, 0x0c3e6039,
         0xa33ce459, 0x64ff2167, 0xf6ecedd4, 0x19db06c1])
    ∧ tsha256r.run_tests_calls (64 + k) state0 message_56 = some 2 :=
  ⟨by decide!, tsha256r.run_tests_digest_of_eval 64 k state0 _ _ (by decide!),
   tsha256r.run_tests_calls_of_eval 64 k state0 _ _ (by decide!)⟩

/-- C5: on the 128-byte test message the SHA-256 driver ends in `COMPLETE` with digest
`c1a8e9a9 ... b1a71f40`, after three invocations of the Block Finalizer; when the ingestion
loop ends the record is in `INPUT` with a full buffer of 64 bytes. -/
theorem C5_sha256_three_block_known_answer (state0 : tsha256r.tsha256) (k : Nat) :
    message_128.length = 128
    ∧ tsha256r.run_tests_digest (136 + k) state0 message_128 =
      some (tsha256r.SHA256B_FSM_COMPLETE,
        [0xc1a8e9a9, 0xd09f4a72, 0xa2ee2693, 0x8170d241,
         0x50b2654b, 0x4e88c69a, 0xdf86dfe7, 0xb1a71f40])
    ∧ tsha256r.run_tests_calls (136 + k) state0 message_128 = some 3
    ∧ tsha256r.run_tests_buffer (136 + k) state0 message_128 =
      some (tsha256r.SHA256B_FSM_INPUT, 64) :=
  ⟨by decide!, tsha256r.run_tests_digest_of_eval 136 k state0 _ _ (by decide!),
   tsha256r.run_tests_calls_of_eval 136 k state0 _ _ (by decide!),
   tsha256r.run_tests_buffer_of_eval 136 k state0 _ _ (by decide!)⟩

/-- C6: the SHA-512/256 driver ends in `COMPLETE` with first four digest words
`c672b8d1ef56ed28 ...` on the empty message, `53048e2681941ef9 ...` on "abc" and
`3928e184fb8690f8 ...` on the 112-byte test message. -/
theorem C6_sha512t256_known_answers (state0 : tsha512t256r.tsha512) (k : Nat) :
    tsha512t256r.run_tests_digest_truncated (8 + k) state0 [] =
      some (tsha512t256r.SHA512T256_FSM_COMPLETE,
        [0xc672b8d1ef56ed28, 0xab87c3622c511406, 0x9bdd3ad7b8f97374, 0x98d0c01ecef0967a])
    ∧ tsha512t256r.run_tests_digest_truncated (8 + k) state0 message_abc =
      some (tsha512t256r.SHA512T256_FSM_COMPLETE,
        [0x53048e2681941ef9, 0x9b2e29b76b4c7dab, 0xe4c2d0c634fc6d46, 0xe0e2f13107e7af23])
    ∧ message_112.length = 112
    ∧ tsha512t256r.run_tests_digest_truncated (120 + k) state0 message_112 =
      some (tsha512t256r.SHA512T256_FSM_COMPLETE,
        [0x3928e184fb8690f8, 0x40da3988121d31be, 0x65cb9d3ef83ee614, 0x6feac861e19b563a])
    ∧ tsha512t256r.run_tests_calls (120 + k) state0 message_112 = some 2 :=
  ⟨tsha512t256r.run_tests512_truncated_of_eval 8 k state0 _ _ (by decide!),
   tsha512t256r.run_tests512_truncated_of_eval 8 k state0 _ _ (by decide!),
   by decide!,
   tsha512t256r.run_tests512_truncated_of_eval 120 k state0 _ _ (by decide!),
   tsha512t256r.run_tests512_calls_of_eval 120 k state0 _ _ (by decide!)⟩

/-- C7 (fails on the code): for every message of exactly 55 bytes the padding does not stay
in the block of the message. The Block Finalizer is invoked twice: first on the 55 message
bytes, the byte `0x80` and eight zero bytes (no length field), then on a block of 56 zero bytes
followed by the big-endian 64-bit value 440. -/
theorem C7_55_bytes_take_two_finalizer_calls (message : List Nat) (state0 : tsha256r.tsha256)
    (k : Nat) (hlen : message.length = 55) (hb : ∀ b ∈ message, b < 256) :
    tsha256r.run_tests_calls (56 + k) state0 message = some 2
    ∧ ∃ final c1 c2,
      tsha256r.run_tests_hash (56 + k) state0 message = some (tsha256r.outcome.done final [c1, c2])
      ∧ final.event = tsha256r.SHA256B_FSM_COMPLETE
      ∧ tsha256r.stream_bytes c1 = message ++ [0x80] ++ List.replicate 8 0
      ∧ tsha256r.stream_bytes c2 = List.replicate 56 0 ++ [0, 0, 0, 0, 0, 0, 0x01, 0xb8] := by
  obtain ⟨final, c1, c2, h, he, h1, h2⟩ :=
    tsha256r.driver_two_blocks message state0 k (by omega) (by omega) hb
  rw [hlen] at h h1 h2
  refine ⟨?_, final, c1, c2, h, he, h1, ?_⟩
  · unfold tsha256r.run_tests_calls
    rw [h]
    rfl
  · rw [h2]
    norm_num

theorem C7_55_bytes_take_two_finalizer_calls_witness :
    message_55.length = 55 ∧ (∀ b ∈ message_55, b < 256)
    ∧ tsha256r.run_tests_calls (56 + 0) tsha256r.zero_state message_55 = some 2
    ∧ ∃ final c1 c2,
      tsha256r.run_tests_hash (56 + 0) tsha256r.zero_state message_55 =
        some (tsha256r.outcome.done final [c1, c2])
      ∧ final.event = tsha256r.SHA256B_FSM_COMPLETE
      ∧ tsha256r.stream_bytes c1 = message_55 ++ [0x80] ++ List.replicate 8 0
      ∧ tsha256r.stream_bytes c2 = List.replicate 56 0 ++ [0, 0, 0, 0, 0, 0, 0x01, 0xb8] :=
  ⟨by decide!, by decide!,
   C7_55_bytes_take_two_finalizer_calls message_55 tsha256r.zero_state 0 (by decide!)
     (by decide!)⟩

/-- C8: for every message of exactly 56 bytes and every fuel of at least 57, the driver ends in
`COMPLETE` after exactly two invocations of the Block Finalizer: the first on the block made of
the message, the byte `0x80` and seven zero bytes, the second on a block of 56 zero bytes
followed by the big-endian 64-bit value 448. -/
theorem C8_56_bytes_force_an_extra_block (message : List Nat) (state0 : tsha256r.tsha256)
    (k : Nat) (hlen : message.length = 56) (hb : ∀ b ∈ message, b < 256) :
    tsha256r.run_tests_calls (57 + k) state0 message = some 2
    ∧ ∃ final c1 c2,
      tsha256r.run_tests_hash (57 + k) state0 message = some (tsha256r.outcome.done final [c1, c2])
      ∧ final.event = tsha256r.SHA256B_FSM_COMPLETE
      ∧ tsha256r.stream_bytes c1 = message ++ [0x80] ++ List.replicate 7 0
      ∧ tsha256r.stream_bytes c2 = List.replicate 56 0 ++ fips180.be_bytes 8 448
      ∧ fips180.be_bytes 8 448 = [0, 0, 0, 0, 0, 0, 0x01, 0xc0] := by
  obtain ⟨final, c1, c2, h, he, h1, h2⟩ :=
    tsha256r.driver_two_blocks message state0 k (by omega) (by omega) hb
  rw [hlen] at h h1 h2
  have hbe : fips180.be_bytes 8 448 = [0, 0, 0, 0, 0, 0, 0x01, 0xc0] := by decide
  refine ⟨?_, final, c1, c2, h, he, h1, ?_, hbe⟩
  · unfold tsha256r.run_tests_calls
    rw [h]
    rfl
  · rw [h2, hbe]
    norm_num

theorem C8_56_bytes_force_an_extra_block_witness :
    message_56.length = 56 ∧ (∀ b ∈ message_56, b < 256)
    ∧ tsha256r.run_tests_calls (57 + 0) tsha256r.zero_state message_56 = some 2
    ∧ ∃ final c1 c2,
      tsha256r.run_tests_hash (57 + 0) tsha256r.zero_state message_56 =
        some (tsha256r.outcome.done final [c1, c2])
      ∧ final.event = tsha256r.SHA256B_FSM_COMPLETE
      ∧ tsha256r.stream_bytes c1 = message_56 ++ [0x80] ++ List.replicate 7 0
      ∧ tsha256r.stream_bytes c2 = List.replicate 56 0 ++ fips180.be_bytes 8 448
      ∧ fips180.be_bytes 8 448 = [0, 0, 0, 0, 0, 0, 0x01, 0xc0] :=
  ⟨by decide!, by decide!,
   C8_56_bytes_force_an_extra_block message_56 tsha256r.zero_state 0 (by decide!) (by decide!)⟩

/-- C9: in `INPUT` with `k < 64` buffered bytes, `tsha256r_getch` returns 1; afterwards
`W8[seq[k]]` holds the byte, where `seq[k] = k XOR 3` is byte `3 - k mod 4` of word `k / 4`,
`i_message` is `k + 1`, `msglen` has grown by one modulo `2 ^ 64`, and the other bytes of
`W8`, the digest and the event are unchanged. -/
theorem C9_getch_accepts_a_byte (s : tsha256r.tsha256) (k c : Nat)
    (hW : s.W8.length = 256) (hev : s.event = tsha256r.SHA256B_FSM_INPUT)
    (hk : s.i_message = k) (hk64 : k < 64) (hc : c < 256) :
    ∃ s1, tsha256r.tsha256r_getch (some s) c = (1, some s1)
      ∧ s1.W8.getD (tsha256r.seq.getD k 0) 0 = c
      ∧ tsha256r.seq.getD k 0 = k ^^^ 3
      ∧ tsha256r.seq.getD k 0 = 4 * (k / 4) + (3 - k % 4)
      ∧ s1.i_message = k + 1
      ∧ s1.msglen = (s.msglen + 1) % 2 ^ 64
      ∧ (∀ p, p ≠ tsha256r.seq.getD k 0 → s1.W8.getD p 0 = s.W8.getD p 0)
      ∧ s1.W8.length = s.W8.length
      ∧ s1.digest = s.digest
      ∧ s1.event = s.event := by
  have hseq : ∀ j, j < 64 → tsha256r.seq.getD j 0 = j ^^^ 3
      ∧ tsha256r.seq.getD j 0 = 4 * (j / 4) + (3 - j % 4) := by decide!
  have hlt : tsha256r.seq.getD k 0 < s.W8.length := by
    rw [hW]; exact lt_trans (tsha256r.seq_lt k hk64) (by norm_num)
  refine ⟨tsha256r.getch_accepted s c,
    tsha256r.getch_accepts s c hev (by rw [hk]; exact hk64), ?_, (hseq k hk64).1,
    (hseq k hk64).2, ?_, rfl, ?_, ?_, rfl, rfl⟩
  · show (s.W8.set (tsha256r.seq.getD s.i_message 0) (c % 256)).getD _ 0 = c
    rw [hk, tsha256r.getD_set_self _ _ _ hlt, Nat.mod_eq_of_lt hc]
  · show (s.i_message + 1) % 2 ^ 32 = k + 1
    rw [hk]
    exact Nat.mod_eq_of_lt (by omega)
  · intro p hp
    show (s.W8.set (tsha256r.seq.getD s.i_message 0) (c % 256)).getD p 0 = _
    rw [hk]
    exact tsha256r.getD_set_other _ _ _ _ (Ne.symm hp)
  · show (s.W8.set _ _).length = _
    rw [List.length_set]

theorem C9_getch_accepts_a_byte_witness :
    fresh_state.W8.length = 256 ∧ fresh_state.event = tsha256r.SHA256B_FSM_INPUT
    ∧ fresh_state.i_message = 0 ∧ 0 < 64 ∧ 0x61 < 256
    ∧ ∃ s1, tsha256r.tsha256r_getch (some fresh_state) 0x61 = (1, some s1)
      ∧ s1.W8.getD (tsha256r.seq.getD 0 0) 0 = 0x61
      ∧ tsha256r.seq.getD 0 0 = 0 ^^^ 3
      ∧ tsha256r.seq.getD 0 0 = 4 * (0 / 4) + (3 - 0 % 4)
      ∧ s1.i_message = 0 + 1
      ∧ s1.msglen = (fresh_state.msglen + 1) % 2 ^ 64
      ∧ (∀ p, p ≠ tsha256r.seq.getD 0 0 → s1.W8.getD p 0 = fresh_state.W8.getD p 0)
      ∧ s1.W8.length = fresh_state.W8.length
      ∧ s1.digest = fresh_state.digest
      ∧ s1.event = fresh_state.event :=
  ⟨by decide!, by decide, by decide, by decide, by decide,
   C9_getch_accepts_a_byte fresh_state 0 0x61 (by decide!) (by decide) (by decide) (by decide)
     (by decide)⟩

/-- C10: in `INPUT` with a full buffer (`i_message >= 64`), `tsha256r_getch` returns 0 and
only moves the event to `INPUT_UPDATE`: the buffer, `i_message`, `msglen`, the digest and all
other fields are unchanged. -/
theorem C10_getch_on_a_full_buffer (s : tsha256r.tsha256) (c : Nat)
    (hev : s.event = tsha256r.SHA256B_FSM_INPUT) (hfull : s.i_message ≥ 64) :
    ∃ s1, tsha256r.tsha256r_getch (some s) c = (0, some s1)
      ∧ s1 = { s with event := tsha256r.SHA256B_FSM_INPUT_UPDATE }
      ∧ s1.event = tsha256r.SHA256B_FSM_INPUT_UPDATE
      ∧ s1.W8 = s.W8
      ∧ s1.i_message = s.i_message
      ∧ s1.msglen = s.msglen
      ∧ s1.digest = s.digest := by
  refine ⟨{ s with event := tsha256r.SHA256B_FSM_INPUT_UPDATE }, ?_, rfl, rfl, rfl, rfl, rfl,
    rfl⟩
  have hnot : ¬ s.i_message < tsha256r.MSIZE_BYTES := by
    simp only [tsha256r.MSIZE_BYTES]; omega
  simp [tsha256r.tsha256r_getch, hev, hnot]

theorem C10_getch_on_a_full_buffer_witness :
    full_input_state.event = tsha256r.SHA256B_FSM_INPUT ∧ full_input_state.i_message ≥ 64
    ∧ ∃ s1, tsha256r.tsha256r_getch (some full_input_state) 0x61 = (0, some s1)
      ∧ s1 = { full_input_state with event := tsha256r.SHA256B_FSM_INPUT_UPDATE }
      ∧ s1.event = tsha256r.SHA256B_FSM_INPUT_UPDATE
      ∧ s1.W8 = full_input_state.W8
      ∧ s1.i_message = full_input_state.i_message
      ∧ s1.msglen = full_input_state.msglen
      ∧ s1.digest = full_input_state.digest :=
  ⟨by decide!, by decide!,
   C10_getch_on_a_full_buffer full_input_state 0x61 (by decide!) (by decide!)⟩

/-- C11: in every event other than `INPUT` (`INPUT_UPDATE`, `APPEND_1BIT`, `APPEND_0_PADDING`,
`APPEND_LENGTH`, `COMPLETE`, `ERROR` or any other value), `tsha256r_getch` returns 0 and the
record after the call is the record before it. -/
theorem C11_getch_outside_input_changes_nothing (s : tsha256r.tsha256) (c : Nat)
    (hev : s.event ≠ tsha256r.SHA256B_FSM_INPUT) :
    tsha256r.tsha256r_getch (some s) c = (0, some s) := by
  simp [tsha256r.tsha256r_getch, hev]

theorem C11_getch_outside_input_changes_nothing_witness :
    (tsha256r.tsha256r_update fresh_state 1).event ≠ tsha256r.SHA256B_FSM_INPUT
    ∧ tsha256r.tsha256r_getch (some (tsha256r.tsha256r_update fresh_state 1)) 0x61
        = (0, some (tsha256r.tsha256r_update fresh_state 1)) :=
  ⟨by decide!,
   C11_getch_outside_input_changes_nothing (tsha256r.tsha256r_update fresh_state 1) 0x61
     (by decide!)⟩

/-- C12: with a null record `tsha256r_getch` returns `-EINVAL`, that is -22, and there is no
record to change; with a record it returns 0 or 1. The result is negative exactly for the
null record. -/
theorem C12_getch_fails_exactly_on_null :
    (∀ c, tsha256r.tsha256r_getch none c = (-22, none))
    ∧ (∀ s c, (tsha256r.tsha256r_getch (some s) c).1 = 0
        ∨ (tsha256r.tsha256r_getch (some s) c).1 = 1)
    ∧ (∀ st c, (tsha256r.tsha256r_getch st c).1 < 0 ↔ st = none) := by
  have h1 : ∀ s c, (tsha256r.tsha256r_getch (some s) c).1 = 0
      ∨ (tsha256r.tsha256r_getch (some s) c).1 = 1 := by
    intro s c
    unfold tsha256r.tsha256r_getch
    simp only
    split
    · exact Or.inl rfl
    · split
      · exact Or.inr rfl
      · exact Or.inl rfl
  refine ⟨fun c => rfl, h1, ?_⟩
  intro st c
  cases st with
  | none => exact ⟨fun _ => rfl, fun _ => (by decide : (-22 : Int) < 0)⟩
  | some s =>
    constructor
    · intro h
      rcases h1 s c with h0 | h0 <;> rw [h0] at h <;> exact absurd h (by decide)
    · intro h
      exact absurd h (by simp)

/-- C13: whatever the record held before, `tsha256r_reset` leaves `msglen = 0`,
`i_message = 0`, the event `INPUT`, the 256 bytes of `W8`, the working variables and the
scratch fields zero, and the digest equal to the initial hash value of SHA-256;
`plain_sha512t256_reset` does the same on its record (640 bytes of `W8`) with the initial hash
value of SHA-512/256. -/
theorem C13_reset_postcondition (s : tsha256r.tsha256) (t : tsha512t256r.tsha512) :
    tsha256r.tsha256r_reset s =
      { digest := [0x6A09E667, 0xBB67AE85, 0x3C6EF372, 0xA54FF53A,
                   0x510E527F, 0x9B05688C, 0x1F83D9AB, 0x5BE0CD19],
        msglen := 0, i_message := 0, event := tsha256r.SHA256B_FSM_INPUT,
        A := List.replicate 8 0, W8 := List.replicate 256 0,
        sig0 := 0, sig1 := 0, Ch := 0, Maj := 0, SIG0 := 0, SIG1 := 0, T1 := 0, T2 := 0 }
    ∧ tsha512t256r.plain_sha512t256_reset t =
      { digest := [0x22312194FC2BF72C, 0x9F555FA3C84C64C2, 0x2393B86B6F53B151,
                   0x963877195940EABD, 0x96283EE2A88EFFE3, 0xBE5E1E2553863992,
                   0x2B0199FC2C85B8AA, 0x0EB72DDC81C52CA2],
        msglen := 0, i_message := 0, event := tsha512t256r.SHA512T256_FSM_INPUT,
        A := List.replicate 8 0, W8 := List.replicate 640 0,
        sig0 := 0, sig1 := 0, Ch := 0, Maj := 0, SIG0 := 0, SIG1 := 0, T1 := 0, T2 := 0 } :=
  ⟨rfl, rfl⟩

/-- C14: no state is carried over from one use of the record to the next. For all records
`s1` and `s2` and every message: `tsha256r_reset` applied twice gives what it gives applied
once, and that is the same record whatever the record held before. The hashing sequence of
`run_tests` starts with `tsha256r_reset`; started on `tsha256r_reset s1` (two resets
back-to-back) and on `s2` it gives the same outcome for every fuel, and with fuel
`2 * length + 8` or more it returns: both runs end in `COMPLETE` with the same final record,
the same trace of Block Finalizer calls and the same digest, which depend on the message
alone. -/
theorem C14_no_residual_state (s1 s2 : tsha256r.tsha256) (message : List Nat) (k : Nat) :
    tsha256r.tsha256r_reset (tsha256r.tsha256r_reset s1) = tsha256r.tsha256r_reset s1
    ∧ tsha256r.tsha256r_reset s1 = tsha256r.tsha256r_reset s2
    ∧ (∀ fuel, tsha256r.run_tests_hash fuel (tsha256r.tsha256r_reset s1) message
        = tsha256r.run_tests_hash fuel s2 message)
    ∧ ∃ final calls, final.event = tsha256r.SHA256B_FSM_COMPLETE
        ∧ (∀ t1 t2,
            tsha256r.run_tests_hash (2 * message.length + 8 + k) (tsha256r.tsha256r_reset t1)
                message = some (tsha256r.outcome.done final calls)
            ∧ tsha256r.run_tests_hash (2 * message.length + 8 + k) t2 message
                = some (tsha256r.outcome.done final calls)
            ∧ tsha256r.run_tests_digest (2 * message.length + 8 + k)
                (tsha256r.tsha256r_reset t1) message
                = some (tsha256r.SHA256B_FSM_COMPLETE, tsha256r.tsha256r_get_hashcode final)
            ∧ tsha256r.run_tests_digest (2 * message.length + 8 + k) t2 message
                = some (tsha256r.SHA256B_FSM_COMPLETE, tsha256r.tsha256r_get_hashcode final)) := by
  obtain ⟨final, calls, hf, hrun⟩ := tsha256r.driver_terminates message k
  refine ⟨rfl, rfl, fun _ => rfl, final, calls, hf, fun t1 t2 => ⟨hrun _, hrun _, ?_, ?_⟩⟩
  · unfold tsha256r.run_tests_digest
    rw [hrun]
    simp only [hf]
  · unfold tsha256r.run_tests_digest
    rw [hrun]
    simp only [hf]

/-- C15: for every record, `tsha256r_close` leaves the all-zero record: the eight digest
words, `msglen`, `i_message`, the event, the 256 bytes of `W8`, the working variables
`A[0..7]` and the scratch fields are zero. -/
theorem C15_close_erases_everything (s : tsha256r.tsha256) :
    tsha256r.tsha256r_close s =
      { digest := List.replicate 8 0, msglen := 0, i_message := 0, event := 0,
        A := List.replicate 8 0, W8 := List.replicate 256 0,
        sig0 := 0, sig1 := 0, Ch := 0, Maj := 0, SIG0 := 0, SIG1 := 0, T1 := 0, T2 := 0 } :=
  rfl

/-- C16: in `INPUT`, `tsha256r_update(state, 1)` only sets the event to `INPUT_UPDATE`, and
`tsha256r_update(state, 0)` leaves the record as it is, for every value of `i_message`;
neither call invokes the Block Finalizer. -/
theorem C16_update_in_input (s : tsha256r.tsha256)
    (hev : s.event = tsha256r.SHA256B_FSM_INPUT) :
    tsha256r.tsha256r_update_traced s 1 =
      ({ s with event := tsha256r.SHA256B_FSM_INPUT_UPDATE }, [])
    ∧ tsha256r.tsha256r_update s 1 = { s with event := tsha256r.SHA256B_FSM_INPUT_UPDATE }
    ∧ tsha256r.tsha256r_update_traced s 0 = (s, [])
    ∧ tsha256r.tsha256r_update s 0 = s := by
  have h1 := tsha256r.update_input_finish s hev
  have h0 : tsha256r.tsha256r_update_traced s 0 = (s, []) := by
    simp [tsha256r.tsha256r_update_traced, hev]
  exact ⟨h1, by rw [tsha256r.tsha256r_update, h1], h0, by rw [tsha256r.tsha256r_update, h0]⟩

theorem C16_update_in_input_witness :
    full_input_state.event = tsha256r.SHA256B_FSM_INPUT
    ∧ full_input_state.i_message = 64
    ∧ tsha256r.tsha256r_update_traced full_input_state 1 =
      ({ full_input_state with event := tsha256r.SHA256B_FSM_INPUT_UPDATE }, [])
    ∧ tsha256r.tsha256r_update full_input_state 1 =
      { full_input_state with event := tsha256r.SHA256B_FSM_INPUT_UPDATE }
    ∧ tsha256r.tsha256r_update_traced full_input_state 0 = (full_input_state, [])
    ∧ tsha256r.tsha256r_update full_input_state 0 = full_input_state :=
  ⟨by decide!, by decide!, C16_update_in_input full_input_state (by decide!)⟩

/-- C17: in `INPUT_UPDATE`, `tsha256r_update(state, 1)` only sets the event to `APPEND_1BIT`.
With a full buffer (`i_message >= 64`), `tsha256r_update(state, 0)` invokes the Block
Finalizer once, on the record: the digest becomes the compression function of the standard
applied to the digest and the block parsed from the 64 buffered bytes, `i_message` becomes 0,
the 64 bytes of the message buffer become zero, `msglen` is kept and the event is `INPUT`. -/
theorem C17_update_in_input_update (s : tsha256r.tsha256)
    (hev : s.event = tsha256r.SHA256B_FSM_INPUT_UPDATE)
    (hd : s.digest.length = 8) (hb : ∀ x ∈ s.digest, x < 2 ^ 32) :
    tsha256r.tsha256r_update_traced s 1 =
      ({ s with event := tsha256r.SHA256B_FSM_APPEND_1BIT }, [])
    ∧ (64 ≤ s.i_message →
      ∃ s1, tsha256r.tsha256r_update_traced s 0 = (s1, [s])
        ∧ tsha256r.tsha256r_update s 0 = s1
        ∧ s1.digest = fips180.compress fips180.sha256_variant s.digest (tsha256r.block_words s)
        ∧ fips180.parse fips180.sha256_variant (tsha256r.stream_bytes s)
            = [tsha256r.block_words s]
        ∧ s1.i_message = 0
        ∧ tsha256r.stream_bytes s1 = List.replicate 64 0
        ∧ (∀ i, i < 64 → s1.W8.getD i 0 = 0)
        ∧ s1.msglen = s.msglen
        ∧ s1.event = tsha256r.SHA256B_FSM_INPUT) := by
  refine ⟨tsha256r.update_input_update_finish s hev, fun hfull => ?_⟩
  have h0 := tsha256r.update_input_update_flush s 0 hev hfull (by decide)
  obtain ⟨c1, c2, c3, c4, c5, c6⟩ :=
    tsha256r.complete_with_event s tsha256r.SHA256B_FSM_INPUT hd hb
  exact ⟨_, h0, by rw [tsha256r.tsha256r_update, h0], c1, tsha256r.block_words_parse s, c2, c3,
    c4, c5, c6⟩

theorem C17_update_in_input_update_witness :
    input_update_state.event = tsha256r.SHA256B_FSM_INPUT_UPDATE
    ∧ input_update_state.digest.length = 8
    ∧ (∀ x ∈ input_update_state.digest, x < 2 ^ 32)
    ∧ 64 ≤ input_update_state.i_message
    ∧ ∃ s1, tsha256r.tsha256r_update_traced input_update_state 0 = (s1, [input_update_state])
        ∧ tsha256r.tsha256r_update input_update_state 0 = s1
        ∧ s1.digest = fips180.compress fips180.sha256_variant input_update_state.digest
            (tsha256r.block_words input_update_state)
        ∧ fips180.parse fips180.sha256_variant (tsha256r.stream_bytes input_update_state)
            = [tsha256r.block_words input_update_state]
        ∧ s1.i_message = 0
        ∧ tsha256r.stream_bytes s1 = List.replicate 64 0
        ∧ (∀ i, i < 64 → s1.W8.getD i 0 = 0)
        ∧ s1.msglen = input_update_state.msglen
        ∧ s1.event = tsha256r.SHA256B_FSM_INPUT :=
  ⟨by decide!, by decide!, by decide!, by decide!,
   (C17_update_in_input_update input_update_state (by decide!) (by decide!) (by decide!)).2
     (by decide!)⟩

/-- C18: in `APPEND_1BIT` with `k < 64` buffered bytes, `tsha256r_update(state, 1)` stores the
byte `0x80` at `W8[seq[k]]`, that is at position `k` of the stream, sets `i_message` to
`k + 1` and the event to `APPEND_0_PADDING`, does not invoke the Block Finalizer, and leaves
the digest, `msglen` and the other bytes of `W8` unchanged. -/
theorem C18_append_1bit_with_room (s : tsha256r.tsha256) (k : Nat)
    (hW : s.W8.length = 256) (hev : s.event = tsha256r.SHA256B_FSM_APPEND_1BIT)
    (hk : s.i_message = k) (hk64 : k < 64) :
    ∃ s1, tsha256r.tsha256r_update_traced s 1 = (s1, [])
      ∧ tsha256r.tsha256r_update s 1 = s1
      ∧ s1.W8.getD (tsha256r.seq.getD k 0) 0 = 0x80
      ∧ tsha256r.stream_bytes s1 = (tsha256r.stream_bytes s).set k 0x80
      ∧ s1.i_message = k + 1
      ∧ s1.event = tsha256r.SHA256B_FSM_APPEND_0_PADDING
      ∧ s1.digest = s.digest
      ∧ s1.msglen = s.msglen
      ∧ (∀ p, p ≠ tsha256r.seq.getD k 0 → s1.W8.getD p 0 = s.W8.getD p 0)
      ∧ s1.W8.length = s.W8.length := by
  have h1 := tsha256r.update_append_1bit_room s hev
    (by rw [hk]; simp only [tsha256r.MSIZE_BYTES]; exact hk64)
  have hlt : tsha256r.seq.getD k 0 < s.W8.length := by
    rw [hW]; exact lt_trans (tsha256r.seq_lt k hk64) (by norm_num)
  refine ⟨tsha256r.marker_stored s, h1, by rw [tsha256r.tsha256r_update, h1], ?_, ?_, ?_, rfl,
    rfl, rfl, ?_, ?_⟩
  · show (s.W8.set (tsha256r.seq.getD s.i_message 0) 0x80).getD _ 0 = 0x80
    rw [hk, tsha256r.getD_set_self _ _ _ hlt]
  · show tsha256r.stream_of (s.W8.set (tsha256r.seq.getD s.i_message 0) 0x80) = _
    rw [tsha256r.stream_of_set s.W8 k _ 0x80 hk64 (by omega) (by rw [hk])]
    rfl
  · show (s.i_message + 1) % 2 ^ 32 = k + 1
    rw [hk]
    exact Nat.mod_eq_of_lt (by omega)
  · intro p hp
    show (s.W8.set (tsha256r.seq.getD s.i_message 0) 0x80).getD p 0 = _
    rw [hk]
    exact tsha256r.getD_set_other _ _ _ _ (Ne.symm hp)
  · show (s.W8.set _ _).length = _
    rw [List.length_set]

theorem C18_append_1bit_with_room_witness :
    append_1bit_state.W8.length = 256
    ∧ append_1bit_state.event = tsha256r.SHA256B_FSM_APPEND_1BIT
    ∧ append_1bit_state.i_message = 3
    ∧ ∃ s1, tsha256r.tsha256r_update_traced append_1bit_state 1 = (s1, [])
        ∧ tsha256r.tsha256r_update append_1bit_state 1 = s1
        ∧ s1.W8.getD (tsha256r.seq.getD 3 0) 0 = 0x80
        ∧ tsha256r.stream_bytes s1 = (tsha256r.stream_bytes append_1bit_state).set 3 0x80
        ∧ s1.i_message = 3 + 1
        ∧ s1.event = tsha256r.SHA256B_FSM_APPEND_0_PADDING
        ∧ s1.digest = append_1bit_state.digest
        ∧ s1.msglen = append_1bit_state.msglen
        ∧ (∀ p, p ≠ tsha256r.seq.getD 3 0 → s1.W8.getD p 0 = append_1bit_state.W8.getD p 0)
        ∧ s1.W8.length = append_1bit_state.W8.length :=
  ⟨by decide!, by decide!, by decide!,
   C18_append_1bit_with_room append_1bit_state 3 (by decide!) (by decide!) (by decide!)
     (by decide)⟩

/-- C19: in `APPEND_1BIT` with a full buffer (`i_message = 64`), `tsha256r_update`, for every
value of `finish`, invokes the Block Finalizer once, on the record, and then stores `0x80` at
position 0 of the stream in the zeroed buffer: the most significant byte of word 0, the other
bytes of the message buffer being zero. Afterwards `i_message = 1`, the event is
`APPEND_0_PADDING`, `msglen` is unchanged and the digest is the compression function of the
standard applied to the old digest and the block of buffered bytes. -/
theorem C19_append_1bit_with_a_full_buffer (s : tsha256r.tsha256) (finish : Nat)
    (hev : s.event = tsha256r.SHA256B_FSM_APPEND_1BIT) (hfull : s.i_message = 64)
    (hd : s.digest.length = 8) (hb : ∀ x ∈ s.digest, x < 2 ^ 32) :
    ∃ s1, tsha256r.tsha256r_update_traced s finish = (s1, [s])
      ∧ tsha256r.tsha256r_update s finish = s1
      ∧ s1 = tsha256r.marker_stored (tsha256r.tsha256r_complete_message_block s)
      ∧ s1.digest = fips180.compress fips180.sha256_variant s.digest (tsha256r.block_words s)
      ∧ fips180.parse fips180.sha256_variant (tsha256r.stream_bytes s)
          = [tsha256r.block_words s]
      ∧ tsha256r.stream_bytes s1 = 0x80 :: List.replicate 63 0
      ∧ tsha256r.W32_load s1.W8 0 = 0x80000000
      ∧ s1.W8.getD 3 0 = 0x80
      ∧ (∀ i, i < 64 → i ≠ 3 → s1.W8.getD i 0 = 0)
      ∧ s1.i_message = 1
      ∧ s1.event = tsha256r.SHA256B_FSM_APPEND_0_PADDING
      ∧ s1.msglen = s.msglen := by
  have h0 := tsha256r.update_append_1bit_full s finish hev
    (by rw [hfull]; exact le_refl _)
  obtain ⟨m1, m2, m3, m4, m5, _⟩ := tsha256r.marker_on_empty
    (tsha256r.tsha256r_complete_message_block s) (tsha256r.complete_i_message s)
    (tsha256r.complete_W8_length s) (tsha256r.complete_W8_getD s)
  obtain ⟨f1, f2, f3⟩ := tsha256r.marker_stored_frame (tsha256r.tsha256r_complete_message_block s)
  exact ⟨_, h0, by rw [tsha256r.tsha256r_update, h0], rfl,
    f1.trans (tsha256r.complete_digest s hd hb), tsha256r.block_words_parse s, m1, m2, m3, m4,
    m5, f3, f2.trans (tsha256r.complete_msglen s)⟩

theorem C19_append_1bit_with_a_full_buffer_witness :
    append_1bit_full_state.event = tsha256r.SHA256B_FSM_APPEND_1BIT
    ∧ append_1bit_full_state.i_message = 64
    ∧ append_1bit_full_state.digest.length = 8
    ∧ (∀ x ∈ append_1bit_full_state.digest, x < 2 ^ 32)
    ∧ ∃ s1, tsha256r.tsha256r_update_traced append_1bit_full_state 1
          = (s1, [append_1bit_full_state])
        ∧ tsha256r.tsha256r_update append_1bit_full_state 1 = s1
        ∧ s1 = tsha256r.marker_stored
            (tsha256r.tsha256r_complete_message_block append_1bit_full_state)
        ∧ s1.digest = fips180.compress fips180.sha256_variant append_1bit_full_state.digest
            (tsha256r.block_words append_1bit_full_state)
        ∧ fips180.parse fips180.sha256_variant (tsha256r.stream_bytes append_1bit_full_state)
            = [tsha256r.block_words append_1bit_full_state]
        ∧ tsha256r.stream_bytes s1 = 0x80 :: List.replicate 63 0
        ∧ tsha256r.W32_load s1.W8 0 = 0x80000000
        ∧ s1.W8.getD 3 0 = 0x80
        ∧ (∀ i, i < 64 → i ≠ 3 → s1.W8.getD i 0 = 0)
        ∧ s1.i_message = 1
        ∧ s1.event = tsha256r.SHA256B_FSM_APPEND_0_PADDING
        ∧ s1.msglen = append_1bit_full_state.msglen :=
  ⟨by decide!, by decide!, by decide!, by decide!,
   C19_append_1bit_with_a_full_buffer append_1bit_full_state 1 (by decide!) (by decide!)
     (by decide!) (by decide!)⟩

/-- C20: in `APPEND_0_PADDING` with `finish = 1`: when `i_message < 56`, `tsha256r_update`
only sets the event to `APPEND_LENGTH` and does not invoke the Block Finalizer; otherwise it
invokes the Block Finalizer once, on the record, which leaves `i_message = 0` and a zeroed
message buffer, the event stays `APPEND_0_PADDING`, and the next call sets the event to
`APPEND_LENGTH`. -/
theorem C20_update_in_append_0_padding (s : tsha256r.tsha256)
    (hev : s.event = tsha256r.SHA256B_FSM_APPEND_0_PADDING)
    (hd : s.digest.length = 8) (hb : ∀ x ∈ s.digest, x < 2 ^ 32) :
    (s.i_message < 56 →
      tsha256r.tsha256r_update_traced s 1 =
        ({ s with event := tsha256r.SHA256B_FSM_APPEND_LENGTH }, []))
    ∧ (56 ≤ s.i_message →
      ∃ s1, tsha256r.tsha256r_update_traced s 1 = (s1, [s])
        ∧ tsha256r.tsha256r_update s 1 = s1
        ∧ s1.digest = fips180.compress fips180.sha256_variant s.digest (tsha256r.block_words s)
        ∧ s1.i_message = 0
        ∧ tsha256r.stream_bytes s1 = List.replicate 64 0
        ∧ (∀ i, i < 64 → s1.W8.getD i 0 = 0)
        ∧ s1.msglen = s.msglen
        ∧ s1.event = tsha256r.SHA256B_FSM_APPEND_0_PADDING
        ∧ tsha256r.tsha256r_update_traced s1 1 =
            ({ s1 with event := tsha256r.SHA256B_FSM_APPEND_LENGTH }, [])) := by
  constructor
  · intro hlt
    exact tsha256r.update_append_0_padding_room s hev
      (by simp only [tsha256r.MSIZE_BYTES, tsha256r.LSIZE_BYTES]; omega)
  · intro hge
    have h0 := tsha256r.update_append_0_padding_flush s hev
      (by simp only [tsha256r.MSIZE_BYTES, tsha256r.LSIZE_BYTES]; omega)
    obtain ⟨c1, c2, c3, c4, c5, c6⟩ :=
      tsha256r.complete_with_event s tsha256r.SHA256B_FSM_APPEND_0_PADDING hd hb
    exact ⟨_, h0, by rw [tsha256r.tsha256r_update, h0], c1, c2, c3, c4, c5, c6,
      tsha256r.update_append_0_padding_room _ c6
        (by rw [c2]; exact (by decide : (0 : Nat) < tsha256r.MSIZE_BYTES - tsha256r.LSIZE_BYTES))⟩

theorem C20_update_in_append_0_padding_witness :
    padding_state.event = tsha256r.SHA256B_FSM_APPEND_0_PADDING
    ∧ padding_state.digest.length = 8
    ∧ (∀ x ∈ padding_state.digest, x < 2 ^ 32)
    ∧ 56 ≤ padding_state.i_message
    ∧ ∃ s1, tsha256r.tsha256r_update_traced padding_state 1 = (s1, [padding_state])
        ∧ tsha256r.tsha256r_update padding_state 1 = s1
        ∧ s1.digest = fips180.compress fips180.sha256_variant padding_state.digest
            (tsha256r.block_words padding_state)
        ∧ s1.i_message = 0
        ∧ tsha256r.stream_bytes s1 = List.replicate 64 0
        ∧ (∀ i, i < 64 → s1.W8.getD i 0 = 0)
        ∧ s1.msglen = padding_state.msglen
        ∧ s1.event = tsha256r.SHA256B_FSM_APPEND_0_PADDING
        ∧ tsha256r.tsha256r_update_traced s1 1 =
            ({ s1 with event := tsha256r.SHA256B_FSM_APPEND_LENGTH }, []) :=
  ⟨by decide!, by decide!, by decide!, by decide!,
   (C20_update_in_append_0_padding padding_state (by decide!) (by decide!) (by decide!)).2
     (by decide!)⟩

/-- C21: in `APPEND_LENGTH` with `i_message < 56`, `tsha256r_update(state, 1)` stores
`msglen * 8 mod 2^64` through `seq2` as a big-endian field in the bytes 56..63 of the stream
(word 14 of the block is the high half, word 15 the low half; the other bytes of `W8` are
kept), invokes the Block Finalizer exactly once, on the block so completed, and sets the event
to `COMPLETE`; the digest becomes the compression function of the standard applied to the
old digest and that block. -/
theorem C21_update_in_append_length (s : tsha256r.tsha256)
    (hev : s.event = tsha256r.SHA256B_FSM_APPEND_LENGTH) (hi : s.i_message < 56)
    (hW : s.W8.length = 256) (hd : s.digest.length = 8) (hb : ∀ x ∈ s.digest, x < 2 ^ 32) :
    ∃ s1, tsha256r.tsha256r_update_traced s 1 = (s1, [tsha256r.store_length s])
      ∧ tsha256r.tsha256r_update s 1 = s1
      ∧ (tsha256r.stream_bytes (tsha256r.store_length s)).drop 56
          = fips180.be_bytes 8 (s.msglen * 8 % 2 ^ 64)
      ∧ fips180.be_value ((tsha256r.stream_bytes (tsha256r.store_length s)).drop 56)
          = s.msglen * 8 % 2 ^ 64
      ∧ (tsha256r.stream_bytes (tsha256r.store_length s)).take 56
          = (tsha256r.stream_bytes s).take 56
      ∧ (tsha256r.block_words (tsha256r.store_length s)).getD 14 0
          = s.msglen * 8 % 2 ^ 64 / 2 ^ 32
      ∧ (tsha256r.block_words (tsha256r.store_length s)).getD 15 0
          = s.msglen * 8 % 2 ^ 64 % 2 ^ 32
      ∧ (∀ p, (p < 56 ∨ 64 ≤ p) → (tsha256r.store_length s).W8.getD p 0 = s.W8.getD p 0)
      ∧ s1.digest = fips180.compress fips180.sha256_variant s.digest
          (tsha256r.block_words (tsha256r.store_length s))
      ∧ s1.event = tsha256r.SHA256B_FSM_COMPLETE
      ∧ s1.i_message = 0
      ∧ s1.msglen = s.msglen := by
  have hW64 : 64 ≤ s.W8.length := by omega
  have h0 := tsha256r.update_append_length_room s hev
    (by simp only [tsha256r.MSIZE_BYTES, tsha256r.LSIZE_BYTES]; omega)
  obtain ⟨_, _, _, _, _, _, _, _, hrest, _, hdig, hmsg, _, _⟩ := tsha256r.store_length_getD s hW64
  obtain ⟨hdrop, htake⟩ := tsha256r.store_length_stream_general s hW64
  obtain ⟨w14, w15⟩ := tsha256r.store_length_words s hW64
  obtain ⟨c1, c2, _, _, c5, c6⟩ := tsha256r.complete_with_event (tsha256r.store_length s)
    tsha256r.SHA256B_FSM_COMPLETE (by rw [hdig]; exact hd) (by rw [hdig]; exact hb)
  refine ⟨_, h0, by rw [tsha256r.tsha256r_update, h0], hdrop, ?_, htake, ?_, ?_, hrest, ?_, c6,
    c2, c5.trans hmsg⟩
  · rw [hdrop]
    exact be_value_8 _ (Nat.mod_lt _ (by norm_num))
  · rw [tsha256r.block_words_getD _ 14 (by norm_num)]
    exact w14
  · rw [tsha256r.block_words_getD _ 15 (by norm_num)]
    exact w15
  · rw [c1, hdig]

theorem C21_update_in_append_length_witness :
    append_length_state.event = tsha256r.SHA256B_FSM_APPEND_LENGTH
    ∧ append_length_state.i_message = 4
    ∧ append_length_state.msglen = 3
    ∧ ∃ s1, tsha256r.tsha256r_update_traced append_length_state 1
          = (s1, [tsha256r.store_length append_length_state])
        ∧ tsha256r.tsha256r_update append_length_state 1 = s1
        ∧ (tsha256r.stream_bytes (tsha256r.store_length append_length_state)).drop 56
            = fips180.be_bytes 8 (append_length_state.msglen * 8 % 2 ^ 64)
        ∧ fips180.be_value
            ((tsha256r.stream_bytes (tsha256r.store_length append_length_state)).drop 56)
            = append_length_state.msglen * 8 % 2 ^ 64
        ∧ (tsha256r.stream_bytes (tsha256r.store_length append_length_state)).take 56
            = (tsha256r.stream_bytes append_length_state).take 56
        ∧ (tsha256r.block_words (tsha256r.store_length append_length_state)).getD 14 0
            = append_length_state.msglen * 8 % 2 ^ 64 / 2 ^ 32
        ∧ (tsha256r.block_words (tsha256r.store_length append_length_state)).getD 15 0
            = append_length_state.msglen * 8 % 2 ^ 64 % 2 ^ 32
        ∧ (∀ p, (p < 56 ∨ 64 ≤ p) →
            (tsha256r.store_length append_length_state).W8.getD p 0
              = append_length_state.W8.getD p 0)
        ∧ s1.digest = fips180.compress fips180.sha256_variant append_length_state.digest
            (tsha256r.block_words (tsha256r.store_length append_length_state))
        ∧ s1.event = tsha256r.SHA256B_FSM_COMPLETE
        ∧ s1.i_message = 0
        ∧ s1.msglen = append_length_state.msglen :=
  ⟨by decide!, by decide!, by decide!,
   C21_update_in_append_length append_length_state (by decide!) (by decide!) (by decide!)
     (by decide!) (by decide!)⟩

/-- C22: in `APPEND_LENGTH` with `i_message >= 56`, `tsha256r_update(state, 1)` sets the event
to `ERROR` and changes nothing else: no length byte is stored, the Block Finalizer is not
invoked, and the digest, `W8`, `i_message` and `msglen` are those of the record before. -/
theorem C22_append_length_without_room (s : tsha256r.tsha256)
    (hev : s.event = tsha256r.SHA256B_FSM_APPEND_LENGTH) (hi : 56 ≤ s.i_message) :
    tsha256r.tsha256r_update_traced s 1 = ({ s with event := tsha256r.SHA256B_FSM_ERROR }, [])
    ∧ tsha256r.tsha256r_update s 1 = { s with event := tsha256r.SHA256B_FSM_ERROR }
    ∧ (tsha256r.tsha256r_update s 1).event = tsha256r.SHA256B_FSM_ERROR
    ∧ (tsha256r.tsha256r_update s 1).digest = s.digest
    ∧ (tsha256r.tsha256r_update s 1).W8 = s.W8
    ∧ (tsha256r.tsha256r_update s 1).i_message = s.i_message
    ∧ (tsha256r.tsha256r_update s 1).msglen = s.msglen := by
  have h0 := tsha256r.update_append_length_no_room s hev
    (by simp only [tsha256r.MSIZE_BYTES, tsha256r.LSIZE_BYTES]; omega)
  have h1 : tsha256r.tsha256r_update s 1 = { s with event := tsha256r.SHA256B_FSM_ERROR } := by
    rw [tsha256r.tsha256r_update, h0]
  refine ⟨h0, h1, ?_, ?_, ?_, ?_, ?_⟩ <;> rw [h1]

theorem C22_append_length_without_room_witness :
    append_length_no_room_state.event = tsha256r.SHA256B_FSM_APPEND_LENGTH
    ∧ append_length_no_room_state.i_message = 57
    ∧ tsha256r.tsha256r_update_traced append_length_no_room_state 1
        = ({ append_length_no_room_state with event := tsha256r.SHA256B_FSM_ERROR }, [])
    ∧ tsha256r.tsha256r_update append_length_no_room_state 1
        = { append_length_no_room_state with event := tsha256r.SHA256B_FSM_ERROR }
    ∧ (tsha256r.tsha256r_update append_length_no_room_state 1).event
        = tsha256r.SHA256B_FSM_ERROR
    ∧ (tsha256r.tsha256r_update append_length_no_room_state 1).digest
        = append_length_no_room_state.digest
    ∧ (tsha256r.tsha256r_update append_length_no_room_state 1).W8
        = append_length_no_room_state.W8
    ∧ (tsha256r.tsha256r_update append_length_no_room_state 1).i_message
        = append_length_no_room_state.i_message
    ∧ (tsha256r.tsha256r_update append_length_no_room_state 1).msglen
        = append_length_no_room_state.msglen :=
  ⟨by decide!, by decide!,
   C22_append_length_without_room append_length_no_room_state (by decide!) (by decide!)⟩

/-- C23, as the code has it: `ERROR` is terminal, a call of `tsha256r_update` in `ERROR`
changes nothing, whatever `finish` is. In `COMPLETE`, a call with `finish` other than 1 and
fewer than 64 buffered bytes changes nothing, and a call with `finish = 1` sets the event to
`ERROR` and changes nothing else. So from `COMPLETE` or `ERROR` the event is `COMPLETE` or
`ERROR` after every call. -/
theorem C23_update_in_complete_and_error (s : tsha256r.tsha256) (finish : Nat) :
    (s.event = tsha256r.SHA256B_FSM_ERROR →
      tsha256r.tsha256r_update_traced s finish = (s, [])
      ∧ tsha256r.tsha256r_update s finish = s)
    ∧ (s.event = tsha256r.SHA256B_FSM_COMPLETE → finish ≠ 1 → s.i_message < 64 →
      tsha256r.tsha256r_update_traced s finish = (s, [])
      ∧ tsha256r.tsha256r_update s finish = s)
    ∧ (s.event = tsha256r.SHA256B_FSM_COMPLETE →
      tsha256r.tsha256r_update_traced s 1 = ({ s with event := tsha256r.SHA256B_FSM_ERROR }, [])
      ∧ tsha256r.tsha256r_update s 1 = { s with event := tsha256r.SHA256B_FSM_ERROR })
    ∧ (s.event = tsha256r.SHA256B_FSM_COMPLETE ∨ s.event = tsha256r.SHA256B_FSM_ERROR →
      (tsha256r.tsha256r_update s finish).event = tsha256r.SHA256B_FSM_COMPLETE
      ∨ (tsha256r.tsha256r_update s finish).event = tsha256r.SHA256B_FSM_ERROR) := by
  have herr : s.event = tsha256r.SHA256B_FSM_ERROR →
      tsha256r.tsha256r_update_traced s finish = (s, [])
      ∧ tsha256r.tsha256r_update s finish = s := by
    intro hev
    have h := tsha256r.update_in_error s finish hev
    exact ⟨h, by rw [tsha256r.tsha256r_update, h]⟩
  refine ⟨herr, ?_, ?_, ?_⟩
  · intro _ hf hi
    have h := tsha256r.update_gate_closed s finish hf hi
    exact ⟨h, by rw [tsha256r.tsha256r_update, h]⟩
  · intro hev
    have h := tsha256r.update_in_complete s 1 hev (Or.inl rfl)
    exact ⟨h, by rw [tsha256r.tsha256r_update, h]⟩
  · intro hev
    rcases hev with hev | hev
    · by_cases hgate : finish = 1 ∨ tsha256r.MSIZE_BYTES ≤ s.i_message
      · right
        rw [tsha256r.tsha256r_update, tsha256r.update_in_complete s finish hev hgate]
      · left
        rw [tsha256r.tsha256r_update, tsha256r.update_gate_closed s finish
          (fun h => hgate (Or.inl h)) (by omega)]
        exact hev
    · right
      rw [(herr hev).2]
      exact hev

/-- C23, counterexample: the record after the finalization of the empty message is in
`COMPLETE`, and one more call `tsha256r_update(state, 1)` leaves it in `ERROR`; so
`tsha256r_update` does not keep the event of every record in `COMPLETE` for `finish = 1`. -/
theorem C23_complete_is_left_by_update :
    complete_state.event = tsha256r.SHA256B_FSM_COMPLETE
    ∧ (tsha256r.tsha256r_update complete_state 1).event = tsha256r.SHA256B_FSM_ERROR
    ∧ ¬ (∀ (s : tsha256r.tsha256) (finish : Nat),
          (s.event = tsha256r.SHA256B_FSM_COMPLETE ∨ s.event = tsha256r.SHA256B_FSM_ERROR) →
          (finish = 0 ∨ finish = 1) →
          (tsha256r.tsha256r_update s finish).event = s.event) := by
  have h1 : complete_state.event = tsha256r.SHA256B_FSM_COMPLETE := by decide!
  have h2 : (tsha256r.tsha256r_update complete_state 1).event = tsha256r.SHA256B_FSM_ERROR := by
    decide!
  refine ⟨h1, h2, fun h => ?_⟩
  have h3 := h complete_state 1 (Or.inl h1) (Or.inr rfl)
  rw [h2, h1] at h3
  exact absurd h3 (by decide)

/-- C24: after `tsha256r_reset` and any finite sequence of `tsha256r_getch` and
`tsha256r_update` calls, with any bytes and any values of `finish`, `i_message` is at most 64
(and it reaches 64); after `plain_sha512t256_reset` and any sequence of calls of the
SHA-512/256 interface it is at most 128. -/
theorem C24_buffer_capacity_invariant (s : tsha256r.tsha256) (calls : List tsha256r.api_call)
    (t : tsha512t256r.tsha512) (calls512 : List tsha512t256r.api_call) :
    0 ≤ (tsha256r.api_run (tsha256r.tsha256r_reset s) calls).i_message
    ∧ (tsha256r.api_run (tsha256r.tsha256r_reset s) calls).i_message ≤ 64
    ∧ (tsha512t256r.api_run (tsha512t256r.plain_sha512t256_reset t) calls512).i_message ≤ 128
    ∧ (tsha256r.api_run (tsha256r.tsha256r_reset s)
        ((List.replicate 64 0x61).map tsha256r.api_call.getch)).i_message = 64 := by
  refine ⟨Nat.zero_le _, ?_, ?_, ?_⟩
  · exact (tsha256r.api_run_invariant calls (tsha256r.tsha256r_reset s) (Nat.zero_le _)
      (fun h => absurd h (by decide : (0 : Nat) ≠ 4)) (Or.inl rfl)).1
  · exact tsha512t256r.api_run512_keeps_bound calls512 _ (Nat.zero_le _)
  · exact (tsha256r.api_run_getch_reset (List.replicate 64 0x61) s
      (by rw [List.length_replicate])).2.1.trans (List.length_replicate _ _)

/-- C25: after `tsha256r_reset` and any finite sequence of `tsha256r_getch` and
`tsha256r_update` calls, a record in `APPEND_LENGTH` has `i_message < 56`, so the branch of
`tsha256r_update` for a length field without room is not taken; a call on a record that is
neither in `COMPLETE` nor in `ERROR` does not lead to `ERROR`; and a run that ends in `ERROR`
has passed through `COMPLETE` before. -/
theorem C25_error_only_after_complete (s0 : tsha256r.tsha256)
    (calls : List tsha256r.api_call) :
    ((tsha256r.api_run (tsha256r.tsha256r_reset s0) calls).event
        = tsha256r.SHA256B_FSM_APPEND_LENGTH →
      (tsha256r.api_run (tsha256r.tsha256r_reset s0) calls).i_message < 56)
    ∧ (∀ call,
        (tsha256r.api_run (tsha256r.tsha256r_reset s0) calls).event
          ≠ tsha256r.SHA256B_FSM_COMPLETE →
        (tsha256r.api_run (tsha256r.tsha256r_reset s0) calls).event
          ≠ tsha256r.SHA256B_FSM_ERROR →
        (tsha256r.api_step (tsha256r.api_run (tsha256r.tsha256r_reset s0) calls) call).event
          ≠ tsha256r.SHA256B_FSM_ERROR)
    ∧ ((tsha256r.api_run (tsha256r.tsha256r_reset s0) calls).event
        = tsha256r.SHA256B_FSM_ERROR →
      ∃ before after, calls = before ++ after
        ∧ (tsha256r.api_run (tsha256r.tsha256r_reset s0) before).event
            = tsha256r.SHA256B_FSM_COMPLETE) := by
  have hne : (tsha256r.tsha256r_reset s0).event = tsha256r.SHA256B_FSM_APPEND_LENGTH →
      (tsha256r.tsha256r_reset s0).i_message < 56 :=
    fun h => absurd h (by decide : (0 : Nat) ≠ 4)
  obtain ⟨h1, h2, h3⟩ := tsha256r.api_run_invariant calls (tsha256r.tsha256r_reset s0)
    (Nat.zero_le _) hne (Or.inl rfl)
  refine ⟨h2, ?_, ?_⟩
  · intro call hc he hstep
    rcases (tsha256r.api_step_keeps_invariant _ call h1 h2 h3).2.2.2 hstep with h | h
    · exact hc h
    · exact he h
  · exact tsha256r.error_only_after_complete calls (tsha256r.tsha256r_reset s0)
      (Nat.zero_le _) hne (Or.inl rfl) (by decide : (0 : Nat) ≠ 255)

/-- C26: for every record with a digest `H` of eight 32-bit words and every schedule `W` of 64
words, the compression phase of `_tsha256r_complete_message_block` (the part after the
expansion loop) leaves `digest[i] = (H[i] + v64[i]) mod 2^32` for `i` in 0..7, where
`v0 = H` and `v(j+1)` is the round of the specification applied to `vj` with `K[j]` and
`W[j]`, for `j = 0..63`; `K` has 64 entries. -/
theorem C26_sha256_compression (s : tsha256r.tsha256) (W : List Nat)
    (hd : s.digest.length = 8) (hb : ∀ x ∈ s.digest, x < 2 ^ 32) (hW : W.length = 64) :
    (tsha256r.compression_phase s W).digest
      = List.zipWith (fun x y => (x + y) % 2 ^ 32) s.digest (tsha256r.spec_rounds W s.digest 64)
    ∧ (tsha256r.spec_rounds W s.digest 64).length = 8
    ∧ (∀ i, i < 8 → (tsha256r.compression_phase s W).digest.getD i 0
        = (s.digest.getD i 0 + (tsha256r.spec_rounds W s.digest 64).getD i 0) % 2 ^ 32)
    ∧ tsha256r.spec_rounds W s.digest 0 = s.digest
    ∧ (∀ j, tsha256r.spec_rounds W s.digest (j + 1)
        = tsha256r.spec_round W j (tsha256r.spec_rounds W s.digest j))
    ∧ tsha256r.K.length = 64
    ∧ (∀ st, tsha256r.tsha256r_complete_message_block st
        = tsha256r.compression_phase
            (for_loop 16 tsha256r.NROUNDS tsha256r.expansion_body
              (st, tsha256r.W32_of_W8 st.W8)).1
            (for_loop 16 tsha256r.NROUNDS tsha256r.expansion_body
              (st, tsha256r.W32_of_W8 st.W8)).2) := by
  have hfold : (List.zip tsha256r.K W).foldl (fips180.round fips180.sha256_variant) s.digest
      = tsha256r.spec_rounds W s.digest 64 := by
    have h := tsha256r.fold_zip_take W hW s.digest 64 (le_refl _)
    rw [List.take_of_length_le (by
      rw [List.length_zip, hW, show tsha256r.K.length = 64 from rfl]; exact le_refl _)] at h
    exact h
  have hlen : (tsha256r.spec_rounds W s.digest 64).length = 8 := by
    have h := (tsha256r.compression_invariant W hW { s with A := s.digest } hd hb 64
      (le_refl _))
    have h1 : (List.foldl (fun acc j => tsha256r.compression_body W j acc)
        { s with A := s.digest } (List.range' 0 64)).A
        = tsha256r.spec_rounds W s.digest 64 :=
      h.1.trans (tsha256r.fold_zip_take W hW s.digest 64 (le_refl _))
    rw [← h1]
    exact h.2.1
  have hdig : (tsha256r.compression_phase s W).digest
      = List.zipWith (fun x y => (x + y) % 2 ^ 32) s.digest
          (tsha256r.spec_rounds W s.digest 64) := by
    rw [tsha256r.compression_phase_digest s W hd hb hW, hfold]
    exact List.zipWith_comm_of_comm _ (fun x y => by rw [Nat.add_comm]) _ _
  refine ⟨hdig, hlen, ?_, rfl, ?_, rfl, fun st => rfl⟩
  · intro i hi
    rw [hdig]
    generalize tsha256r.spec_rounds W s.digest 64 = v at hlen
    obtain ⟨v0, v1, v2, v3, v4, v5, v6, v7, hv8⟩ := list_of_length_8 _ hlen
    obtain ⟨d0, d1, d2, d3, d4, d5, d6, d7, hd8⟩ := list_of_length_8 _ hd
    rw [hd8, hv8]
    interval_cases i <;> rfl
  · intro j
    simp only [tsha256r.spec_rounds, List.range_succ, List.foldl_append, List.foldl_cons,
      List.foldl_nil]

theorem C26_sha256_compression_witness :
    fresh_state.digest.length = 8
    ∧ (∀ x ∈ fresh_state.digest, x < 2 ^ 32)
    ∧ (tsha256r.W32_of_W8 full_input_state.W8).length = 64
    ∧ (tsha256r.compression_phase fresh_state (tsha256r.W32_of_W8 full_input_state.W8)).digest
      = List.zipWith (fun x y => (x + y) % 2 ^ 32) fresh_state.digest
          (tsha256r.spec_rounds (tsha256r.W32_of_W8 full_input_state.W8) fresh_state.digest 64) :=
  ⟨by decide!, by decide!, by decide!,
   (C26_sha256_compression fresh_state (tsha256r.W32_of_W8 full_input_state.W8) (by decide!)
     (by decide!) (by decide!)).1⟩

/-- C27: for every array `W` of 64 words, the expansion loop of
`_tsha256r_complete_message_block` keeps `W[0..15]`, the block, and leaves, for every `i` in
`[16, 64)`, `W[i] = (W[i-16] + s0(W[i-15]) + W[i-7] + s1(W[i-2])) mod 2^32`, with
`s0(x) = rotr(x,7) ^ rotr(x,18) ^ (x >> 3)` and `s1(x) = rotr(x,17) ^ rotr(x,19) ^ (x >> 10)`;
the result is the message schedule of the standard for the block. -/
theorem C27_sha256_message_schedule (s : tsha256r.tsha256) (W0 : List Nat)
    (hW0 : W0.length = 64) :
    (for_loop 16 tsha256r.NROUNDS tsha256r.expansion_body (s, W0)).2.length = 64
    ∧ (∀ i, i < 16 →
        (for_loop 16 tsha256r.NROUNDS tsha256r.expansion_body (s, W0)).2.getD i 0
          = W0.getD i 0)
    ∧ (∀ i, 16 ≤ i → i < 64 →
        (for_loop 16 tsha256r.NROUNDS tsha256r.expansion_body (s, W0)).2.getD i 0
          = ((for_loop 16 tsha256r.NROUNDS tsha256r.expansion_body (s, W0)).2.getD (i - 16) 0
            + tsha256r.spec_s0
                ((for_loop 16 tsha256r.NROUNDS tsha256r.expansion_body (s, W0)).2.getD (i - 15) 0)
            + (for_loop 16 tsha256r.NROUNDS tsha256r.expansion_body (s, W0)).2.getD (i - 7) 0
            + tsha256r.spec_s1
                ((for_loop 16 tsha256r.NROUNDS tsha256r.expansion_body (s, W0)).2.getD (i - 2) 0))
            % 2 ^ 32)
    ∧ (for_loop 16 tsha256r.NROUNDS tsha256r.expansion_body (s, W0)).2
        = fips180.schedule fips180.sha256_variant (W0.take 16)
    ∧ (∀ x n, tsha256r.ROTR x n = ((x >>> n) ||| (x <<< (32 - n))) % 2 ^ 32) := by
  obtain ⟨h1, h2, h3⟩ := tsha256r.expansion_recurrence s W0 hW0 48 (le_refl _)
  exact ⟨h1, h2, fun i hi hi64 => h3 i hi (by omega), tsha256r.expansion_schedule s W0 hW0,
    fun _ _ => rfl⟩

theorem C27_sha256_message_schedule_witness :
    (tsha256r.W32_of_W8 full_input_state.W8).length = 64
    ∧ (for_loop 16 tsha256r.NROUNDS tsha256r.expansion_body
        (full_input_state, tsha256r.W32_of_W8 full_input_state.W8)).2.length = 64
    ∧ (for_loop 16 tsha256r.NROUNDS tsha256r.expansion_body
        (full_input_state, tsha256r.W32_of_W8 full_input_state.W8)).2
        = fips180.schedule fips180.sha256_variant
            ((tsha256r.W32_of_W8 full_input_state.W8).take 16) :=
  ⟨by decide!,
   (C27_sha256_message_schedule full_input_state (tsha256r.W32_of_W8 full_input_state.W8)
     (by decide!)).1,
   (C27_sha256_message_schedule full_input_state (tsha256r.W32_of_W8 full_input_state.W8)
     (by decide!)).2.2.2.1⟩

/-- C28: for every record with a digest `H` of eight 64-bit words,
`_plain_sha512t256_complete_message_block` leaves as digest the compression function of
FIPS 180-4 for SHA-512 applied to `H` and the sixteen message words of the buffer: a schedule
of 80 words with `s0 = rotr 1 ^ rotr 8 ^ shr 7` and `s1 = rotr 19 ^ rotr 61 ^ shr 6`, 80
rounds with `S0 = rotr 28 ^ rotr 34 ^ rotr 39` and `S1 = rotr 14 ^ rotr 18 ^ rotr 41`, the
table `K` of the source (80 entries, the constants of the standard), and the final addition
`digest[i] = (H[i] + working[i]) mod 2^64`. -/
theorem C28_sha512t256_block_finalizer (s : tsha512t256r.tsha512)
    (hd : s.digest.length = 8) (hb : ∀ x ∈ s.digest, x < 2 ^ 64) :
    (tsha512t256r.plain_sha512t256_complete_message_block s).digest
      = fips180.compress fips180.sha512t256_variant s.digest (tsha512t256r.block_words s)
    ∧ (tsha512t256r.plain_sha512t256_complete_message_block s).digest
      = List.zipWith (fun x y => (x + y) % 2 ^ 64)
          ((List.zip tsha512t256r.K
              (fips180.schedule fips180.sha512t256_variant (tsha512t256r.block_words s))).foldl
            (fips180.round fips180.sha512t256_variant) s.digest)
          s.digest
    ∧ (fips180.schedule fips180.sha512t256_variant (tsha512t256r.block_words s)).length = 80
    ∧ fips180.sha512t256_variant.w = 64
    ∧ fips180.sha512t256_variant.rounds = 80
    ∧ fips180.sha512t256_variant.sigma0 = (1, 8, 7)
    ∧ fips180.sha512t256_variant.sigma1 = (19, 61, 6)
    ∧ fips180.sha512t256_variant.Sigma0 = (28, 34, 39)
    ∧ fips180.sha512t256_variant.Sigma1 = (14, 18, 41)
    ∧ fips180.sha512t256_variant.K = tsha512t256r.K
    ∧ tsha512t256r.K.length = 80 := by
  have h1 := tsha512t256r.complete_digest512 s hd hb
  have hW0 : (tsha512t256r.W64_of_W8 s.W8).length = 80 := by
    simp [tsha512t256r.W64_of_W8, tsha512t256r.NW]
  have hbw : (tsha512t256r.W64_of_W8 s.W8).take 16 = tsha512t256r.block_words s := by
    simp only [tsha512t256r.W64_of_W8, tsha512t256r.block_words, tsha512t256r.NW,
      ← List.map_take, List.take_range]
    rfl
  have hlen : (fips180.schedule fips180.sha512t256_variant
      (tsha512t256r.block_words s)).length = 80 := by
    rw [← hbw, ← tsha512t256r.expansion_schedule512 s _ hW0]
    exact (tsha512t256r.expansion_frame512 s _).2.2.2.trans hW0
  refine ⟨h1, ?_, hlen, rfl, rfl, rfl, rfl, rfl, rfl, fips_tables_sha512t256.1, rfl⟩
  rw [h1]
  unfold fips180.compress
  rw [fips_tables_sha512t256.1]
  rfl

theorem C28_sha512t256_block_finalizer_witness :
    fresh_state512.digest.length = 8
    ∧ (∀ x ∈ fresh_state512.digest, x < 2 ^ 64)
    ∧ (tsha512t256r.plain_sha512t256_complete_message_block fresh_state512).digest
      = fips180.compress fips180.sha512t256_variant fresh_state512.digest
          (tsha512t256r.block_words fresh_state512) :=
  ⟨by decide!, by decide!,
   (C28_sha512t256_block_finalizer fresh_state512 (by decide!) (by decide!)).1⟩

/-- C29: after `tsha256r_reset` and the `tsha256r_getch` calls for 64 bytes `b[0..63]`, every
call has returned 1, the buffer holds the bytes in stream order, and each of the sixteen
message words the Block Finalizer reads, the little-endian load of `W8[4j..4j+3]`, is
`b[4j] * 2^24 + b[4j+1] * 2^16 + b[4j+2] * 2^8 + b[4j+3]`. -/
theorem C29_big_endian_block_packing (s0 : tsha256r.tsha256) (b : List Nat)
    (hlen : b.length = 64) (hb : ∀ x ∈ b, x < 256) :
    (∀ k, k < 64 →
      (tsha256r.tsha256r_getch
        (some (tsha256r.api_run (tsha256r.tsha256r_reset s0)
          ((b.take k).map tsha256r.api_call.getch))) (b.getD k 0)).1 = 1)
    ∧ (tsha256r.api_run (tsha256r.tsha256r_reset s0) (b.map tsha256r.api_call.getch)).i_message
        = 64
    ∧ tsha256r.stream_bytes
        (tsha256r.api_run (tsha256r.tsha256r_reset s0) (b.map tsha256r.api_call.getch)) = b
    ∧ (∀ j, j < 16 →
      tsha256r.W32_load
          (tsha256r.api_run (tsha256r.tsha256r_reset s0) (b.map tsha256r.api_call.getch)).W8 j
        = b.getD (4 * j) 0 * 2 ^ 24 + b.getD (4 * j + 1) 0 * 2 ^ 16
          + b.getD (4 * j + 2) 0 * 2 ^ 8 + b.getD (4 * j + 3) 0)
    ∧ (∀ j, j < 16 →
      (tsha256r.block_words
          (tsha256r.api_run (tsha256r.tsha256r_reset s0)
            (b.map tsha256r.api_call.getch))).getD j 0
        = b.getD (4 * j) 0 * 2 ^ 24 + b.getD (4 * j + 1) 0 * 2 ^ 16
          + b.getD (4 * j + 2) 0 * 2 ^ 8 + b.getD (4 * j + 3) 0) := by
  obtain ⟨_, h2, h3⟩ := tsha256r.api_run_getch_reset b s0 (by omega)
  rw [hlen, Nat.sub_self, List.replicate_zero, List.append_nil,
    tsha256r.map_mod_256 b hb] at h3
  have hword : ∀ j, j < 16 →
      tsha256r.W32_load
          (tsha256r.api_run (tsha256r.tsha256r_reset s0) (b.map tsha256r.api_call.getch)).W8 j
        = b.getD (4 * j) 0 * 2 ^ 24 + b.getD (4 * j + 1) 0 * 2 ^ 16
          + b.getD (4 * j + 2) 0 * 2 ^ 8 + b.getD (4 * j + 3) 0 := by
    intro j hj
    rw [tsha256r.W32_load_bytes _ j hj]
    have h3a : tsha256r.stream_of
        (tsha256r.api_run (tsha256r.tsha256r_reset s0) (b.map tsha256r.api_call.getch)).W8 = b :=
      h3
    rw [h3a]
  refine ⟨?_, h2.trans hlen, h3, hword, ?_⟩
  · intro k hk
    obtain ⟨e1, e2, _⟩ := tsha256r.api_run_getch_reset (b.take k) s0
      (by rw [List.length_take]; omega)
    rw [tsha256r.getch_accepts _ _ e1
      (by rw [e2, List.length_take]; simp only [tsha256r.MSIZE_BYTES]; omega)]
  · intro j hj
    rw [tsha256r.block_words_getD _ j hj]
    exact hword j hj

theorem C29_big_endian_block_packing_witness :
    (List.replicate 64 0x61).length = 64
    ∧ (∀ x ∈ List.replicate 64 0x61, x < 256)
    ∧ tsha256r.stream_bytes
        (tsha256r.api_run (tsha256r.tsha256r_reset tsha256r.zero_state)
          ((List.replicate 64 0x61).map tsha256r.api_call.getch)) = List.replicate 64 0x61
    ∧ tsha256r.W32_load
        (tsha256r.api_run (tsha256r.tsha256r_reset tsha256r.zero_state)
          ((List.replicate 64 0x61).map tsha256r.api_call.getch)).W8 0 = 0x61616161 :=
  ⟨by decide!, by decide!,
   (C29_big_endian_block_packing tsha256r.zero_state (List.replicate 64 0x61) (by decide!)
     (by decide!)).2.2.1,
   ((C29_big_endian_block_packing tsha256r.zero_state (List.replicate 64 0x61) (by decide!)
     (by decide!)).2.2.2.1 0 (by decide)).trans (by decide!)⟩

/-- C30: for every record, after `_tsha256r_complete_message_block` the first 64 bytes of
`W8`, the message buffer, are zero and `i_message = 0`; `msglen` and the event are those of
the record before. -/
theorem C30_finalizer_resets_the_buffer (s : tsha256r.tsha256) :
    (∀ i, i < 64 → (tsha256r.tsha256r_complete_message_block s).W8.getD i 0 = 0)
    ∧ (tsha256r.tsha256r_complete_message_block s).W8.take 64 = List.replicate 64 0
    ∧ tsha256r.stream_bytes (tsha256r.tsha256r_complete_message_block s) = List.replicate 64 0
    ∧ (tsha256r.tsha256r_complete_message_block s).W8.length = 256
    ∧ (tsha256r.tsha256r_complete_message_block s).i_message = 0
    ∧ (tsha256r.tsha256r_complete_message_block s).msglen = s.msglen
    ∧ (tsha256r.tsha256r_complete_message_block s).event = s.event := by
  refine ⟨tsha256r.complete_W8_getD s, ?_, tsha256r.complete_stream_bytes s,
    tsha256r.complete_W8_length s, tsha256r.complete_i_message s, tsha256r.complete_msglen s,
    tsha256r.complete_event s⟩
  simp only [tsha256r.tsha256r_complete_message_block, tsha256r.memset0, tsha256r.MSIZE_BYTES]
  rw [List.take_append_of_le_length (by rw [List.length_replicate]),
    List.take_of_length_le (by rw [List.length_replicate])]

/-- C31: `tsha256r_getch` keeps the digest for every record and byte, and `tsha256r_update`
keeps it in every call that does not invoke `_tsha256r_complete_message_block`; these are the
calls that do not pass the gate and the calls in `INPUT`, in `INPUT_UPDATE` with `finish = 1`,
in `APPEND_1BIT` with `i_message < 64`, in `APPEND_0_PADDING` with `i_message < 56`, in
`APPEND_LENGTH` with `i_message >= 56`, in `COMPLETE` and in `ERROR`. From a record in
`COMPLETE` no sequence of calls changes the digest. -/
theorem C31_digest_changed_only_by_the_finalizer (s : tsha256r.tsha256) (c finish : Nat)
    (calls : List tsha256r.api_call) :
    (∀ r s1, tsha256r.tsha256r_getch (some s) c = (r, some s1) → s1.digest = s.digest)
    ∧ ((tsha256r.tsha256r_update_traced s finish).2 = [] →
        (tsha256r.tsha256r_update s finish).digest = s.digest)
    ∧ (¬ (finish = 1 ∨ 64 ≤ s.i_message) → (tsha256r.tsha256r_update_traced s finish).2 = [])
    ∧ (s.event = tsha256r.SHA256B_FSM_INPUT → (tsha256r.tsha256r_update_traced s finish).2 = [])
    ∧ (s.event = tsha256r.SHA256B_FSM_INPUT_UPDATE → finish = 1 →
        (tsha256r.tsha256r_update_traced s finish).2 = [])
    ∧ (s.event = tsha256r.SHA256B_FSM_APPEND_1BIT → s.i_message < 64 →
        (tsha256r.tsha256r_update_traced s finish).2 = [])
    ∧ (s.event = tsha256r.SHA256B_FSM_APPEND_0_PADDING → s.i_message < 56 →
        (tsha256r.tsha256r_update_traced s finish).2 = [])
    ∧ (s.event = tsha256r.SHA256B_FSM_APPEND_LENGTH → 56 ≤ s.i_message →
        (tsha256r.tsha256r_update_traced s finish).2 = [])
    ∧ (s.event = tsha256r.SHA256B_FSM_COMPLETE →
        (tsha256r.tsha256r_update_traced s finish).2 = [])
    ∧ (s.event = tsha256r.SHA256B_FSM_ERROR →
        (tsha256r.tsha256r_update_traced s finish).2 = [])
    ∧ (s.event = tsha256r.SHA256B_FSM_COMPLETE →
        (tsha256r.api_run s calls).digest = s.digest) := by
  obtain ⟨h1, h2, h3, h4, h5, h6, h7, h8⟩ := tsha256r.update_trace_empty s finish
  refine ⟨?_, tsha256r.update_digest_without_finalizer s finish, h1, h2, h3, h4, h5, h6, h7, h8,
    fun hev => tsha256r.api_run_after_complete calls s (Or.inl hev)⟩
  intro r s1 hg
  have hd := tsha256r.getch_digest s c
  simp only [tsha256r.api_step, hg] at hd
  exact hd

/-- C32: evaluation of `plain_sha512t256_update(state, 1)` of `main-tsha512t256r.c` on a record
in `APPEND_LENGTH` with `i_message < 112` and `msglen = 2 ^ 61`. The bit length is `2 ^ 64`,
the 128-bit field that holds it has word 14 equal to 1 and word 15 equal to 0. The block
passed to the Block Finalizer has both words equal to 0: the product `state->msglen*8` is
computed on `u64` and loses the bit that belongs in word 14. -/
theorem C32_length_field_is_truncated_to_64_bits :
    long_message_state512.event = tsha512t256r.SHA512T256_FSM_APPEND_LENGTH
    ∧ long_message_state512.i_message < 112
    ∧ long_message_state512.msglen = 2 ^ 61
    ∧ (tsha512t256r.plain_sha512t256_update_traced long_message_state512 1).2
        = [tsha512t256r.store_length long_message_state512]
    ∧ tsha512t256r.W64_load (tsha512t256r.store_length long_message_state512).W8 14 = 0
    ∧ tsha512t256r.W64_load (tsha512t256r.store_length long_message_state512).W8 15 = 0
    ∧ tsha512t256r.W64_load (tsha512t256r.store_length long_message_state512).W8 14 * 2 ^ 64
        + tsha512t256r.W64_load (tsha512t256r.store_length long_message_state512).W8 15
        ≠ long_message_state512.msglen * 8 := by
  refine ⟨by decide!, by decide!, by decide!, by decide!, by decide!, by decide!, by decide!⟩

/-- C33: for every record, the unrolled finalizer `_tsha256hp_complete_message_block` of
`main-tsha256hp.c` returns the record that the loop `_tsha256r_complete_message_block`
returns, in particular the same digest, the same `i_message` and the same `W8`; the unrolled
steps are the expansion indices 16..63 and the compression indices 0..63 in order, with the
inlined constants equal to the table `K` of `main-tsha256r.c`; the two drivers return the
same result for every message, every fuel and every content of the local record, and with
fuel `2 * length + 8` or more both return the digest in the event `COMPLETE`. -/
theorem C33_unrolled_sha256_equals_the_loop (s state0 : tsha256r.tsha256) (message : List Nat)
    (fuel k : Nat) :
    tsha256hp.tsha256hp_complete_message_block s = tsha256r.tsha256r_complete_message_block s
    ∧ (tsha256hp.tsha256hp_complete_message_block s).digest
        = (tsha256r.tsha256r_complete_message_block s).digest
    ∧ (tsha256hp.tsha256hp_complete_message_block s).i_message
        = (tsha256r.tsha256r_complete_message_block s).i_message
    ∧ (tsha256hp.tsha256hp_complete_message_block s).W8
        = (tsha256r.tsha256r_complete_message_block s).W8
    ∧ tsha256hp.expansion_steps = List.range' 16 48
    ∧ tsha256hp.compression_steps.map Prod.fst = List.range 64
    ∧ tsha256hp.compression_steps.map Prod.snd = tsha256r.K
    ∧ tsha256hp.run_tests_digest fuel state0 message
        = tsha256r.run_tests_digest fuel state0 message
    ∧ ∃ digest,
        tsha256hp.run_tests_digest (2 * message.length + 8 + k) state0 message
          = some (tsha256hp.TSHA256_FSM_COMPLETE, digest)
        ∧ tsha256r.run_tests_digest (2 * message.length + 8 + k) state0 message
          = some (tsha256r.SHA256B_FSM_COMPLETE, digest) := by
  have he := tsha256hp.complete_message_block_eq s
  refine ⟨he, by rw [he], by rw [he], by rw [he], tsha256hp.expansion_steps_eq, by decide,
    by decide, tsha256hp.run_tests_digest_eq fuel state0 message, ?_⟩
  obtain ⟨final, calls, hf, hrun⟩ := tsha256r.driver_terminates message k
  have hr : tsha256r.run_tests_digest (2 * message.length + 8 + k) state0 message
      = some (tsha256r.SHA256B_FSM_COMPLETE, final.digest) := by
    simp only [tsha256r.run_tests_digest, hrun state0, tsha256r.tsha256r_get_hashcode, hf]
  exact ⟨final.digest, by rw [tsha256hp.run_tests_digest_eq]; exact hr, hr⟩

/-- C34: evaluation of the driver of `main-tsha512t256hp.c` on the three messages of its
`run_tests`. The loops end in `COMPLETE` and the four digest words that `memcmp` compares
differ from the expected digests `t0`, `t1`, `t2` of that `run_tests`; the driver of
`main-tsha512t256r.c` returns the expected digests for the same messages. -/
theorem C34_hybrid_plain_sha512t256_misses_its_test_vectors :
    tsha512t256hp.run_tests_digest 5 tsha512t256hp.zero_state [] =
      some (tsha512t256hp.SHA256T_FSM_COMPLETE,
        [0x21A3FD7C7AE4E7EB, 0xB30E47535A1398E1, 0x9B265DEB049BBDC2, 0x869402962D81885E])
    ∧ tsha512t256hp.run_tests_digest 5 tsha512t256hp.zero_state message_abc =
      some (tsha512t256hp.SHA256T_FSM_COMPLETE,
        [0xD65850E7B5A830D0, 0xC46A2594BDE120D6, 0xD7331B8A36482CE2, 0xAD78046D6F850FDC])
    ∧ tsha512t256hp.run_tests_digest 113 tsha512t256hp.zero_state message_112 =
      some (tsha512t256hp.SHA256T_FSM_COMPLETE,
        [0x2410D3A2414056D3, 0xEA32C37E1C8ABA34, 0x1A0C1BB96948BFB0, 0x40FF2BFCF8EFA589])
    ∧ tsha512t256hp.run_tests_digest 5 tsha512t256hp.zero_state [] ≠
      some (tsha512t256hp.SHA256T_FSM_COMPLETE, tsha512t256hp.expected_digests.getD 0 [])
    ∧ tsha512t256hp.run_tests_digest 5 tsha512t256hp.zero_state message_abc ≠
      some (tsha512t256hp.SHA256T_FSM_COMPLETE, tsha512t256hp.expected_digests.getD 1 [])
    ∧ tsha512t256hp.run_tests_digest 113 tsha512t256hp.zero_state message_112 ≠
      some (tsha512t256hp.SHA256T_FSM_COMPLETE, tsha512t256hp.expected_digests.getD 2 [])
    ∧ tsha512t256r.run_tests_digest_truncated 5 tsha512t256r.zero_state [] =
      some (tsha512t256r.SHA512T256_FSM_COMPLETE, tsha512t256hp.expected_digests.getD 0 [])
    ∧ tsha512t256r.run_tests_digest_truncated 5 tsha512t256r.zero_state message_abc =
      some (tsha512t256r.SHA512T256_FSM_COMPLETE, tsha512t256hp.expected_digests.getD 1 [])
    ∧ tsha512t256r.run_tests_digest_truncated 113 tsha512t256r.zero_state message_112 =
      some (tsha512t256r.SHA512T256_FSM_COMPLETE, tsha512t256hp.expected_digests.getD 2 []) := by
  have h0 : tsha512t256hp.run_tests_digest 5 tsha512t256hp.zero_state [] =
      some (tsha512t256hp.SHA256T_FSM_COMPLETE,
        [0x21A3FD7C7AE4E7EB, 0xB30E47535A1398E1, 0x9B265DEB049BBDC2, 0x869402962D81885E]) := by
    decide!
  have h1 : tsha512t256hp.run_tests_digest 5 tsha512t256hp.zero_state message_abc =
      some (tsha512t256hp.SHA256T_FSM_COMPLETE,
        [0xD65850E7B5A830D0, 0xC46A2594BDE120D6, 0xD7331B8A36482CE2, 0xAD78046D6F850FDC]) := by
    decide!
  have h2 : tsha512t256hp.run_tests_digest 113 tsha512t256hp.zero_state message_112 =
      some (tsha512t256hp.SHA256T_FSM_COMPLETE,
        [0x2410D3A2414056D3, 0xEA32C37E1C8ABA34, 0x1A0C1BB96948BFB0, 0x40FF2BFCF8EFA589]) := by
    decide!
  refine ⟨h0, h1, h2, ?_, ?_, ?_, by decide!, by decide!, by decide!⟩
  · rw [h0]; decide
  · rw [h1]; decide
  · rw [h2]; decide

/-- C35: for every message of bytes of length below `2 ^ 61` the driver of `main-tsha256r.c`
returns, and the blocks passed to `_tsha256r_complete_message_block`, each read as 64 bytes in
stream order and concatenated in call order, are the message, the byte `0x80`, `pad` zero
bytes for some `pad`, and the eight big-endian bytes of `8 * length`; the total length is 64
times the number of blocks. -/
theorem C35_padded_stream_structure (message : List Nat) (state0 : tsha256r.tsha256) (k : Nat)
    (hb : ∀ b ∈ message, b < 256) (hlen : message.length < 2 ^ 61) :
    ∃ final calls pad,
      tsha256r.run_tests_hash (2 * message.length + 8 + k) state0 message
        = some (tsha256r.outcome.done final calls)
      ∧ final.event = tsha256r.SHA256B_FSM_COMPLETE
      ∧ (calls.map tsha256r.stream_bytes).flatten
          = message ++ [0x80] ++ List.replicate pad 0 ++ fips180.be_bytes 8 (8 * message.length)
      ∧ ((calls.map tsha256r.stream_bytes).flatten).length = 64 * calls.length := by
  obtain ⟨final, calls, pad, hrun, hev, hst, _⟩ := tsha256r.driver_stream message state0 k
  refine ⟨final, calls, pad, hrun, hev, ?_, tsha256r.flatten_streams_length calls⟩
  rw [hst, tsha256r.map_mod_256 message hb,
    Nat.mod_eq_of_lt (lt_trans hlen (by norm_num : 2 ^ 61 < 2 ^ 64)),
    Nat.mod_eq_of_lt (by omega), Nat.mul_comm]

theorem C35_padded_stream_structure_witness :
    (∀ b ∈ message_56, b < 256) ∧ message_56.length < 2 ^ 61
    ∧ ∃ final calls pad,
      tsha256r.run_tests_hash (2 * message_56.length + 8 + 0) tsha256r.zero_state message_56
        = some (tsha256r.outcome.done final calls)
      ∧ final.event = tsha256r.SHA256B_FSM_COMPLETE
      ∧ (calls.map tsha256r.stream_bytes).flatten
          = message_56 ++ [0x80] ++ List.replicate pad 0
            ++ fips180.be_bytes 8 (8 * message_56.length)
      ∧ ((calls.map tsha256r.stream_bytes).flatten).length = 64 * calls.length :=
  ⟨by decide!, by decide!,
    C35_padded_stream_structure message_56 tsha256r.zero_state 0 (by decide!) (by decide!)⟩

/-- C36: for every message the driver of `main-tsha256r.c` returns, and the number of
invocations of `_tsha256r_complete_message_block` is `length / 64 + 1` when
`length % 64 <= 54` and `length / 64 + 2` when `length % 64 >= 55`. -/
theorem C36_block_count (message : List Nat) (state0 : tsha256r.tsha256) (k : Nat) :
    ∃ final calls,
      tsha256r.run_tests_hash (2 * message.length + 8 + k) state0 message
        = some (tsha256r.outcome.done final calls)
      ∧ tsha256r.run_tests_calls (2 * message.length + 8 + k) state0 message
        = some calls.length
      ∧ (message.length % 64 ≤ 54 → calls.length = message.length / 64 + 1)
      ∧ (55 ≤ message.length % 64 → calls.length = message.length / 64 + 2) := by
  obtain ⟨final, calls, pad, hrun, _, _, hc⟩ := tsha256r.driver_stream message state0 k
  refine ⟨final, calls, hrun, by simp only [tsha256r.run_tests_calls, hrun], ?_, ?_⟩
  · intro h; rw [hc, if_pos h]
  · intro h; rw [hc, if_neg (by omega)]

/-- C37: a record returned by the loop `while (i < bytes)` of the driver, started on the
record after `tsha256r_reset`, is in `INPUT`; from it the do-while loop of
`tsha256r_update(state, 1)` calls ends in `COMPLETE` at the sixth call and not before when
`55 <= i_message <= 63`, and at the fifth call and not before otherwise. -/
theorem C37_finalization_takes_five_or_six_calls (n : Nat) (message : List Nat)
    (state0 s : tsha256r.tsha256) (calls : List tsha256r.tsha256)
    (hreach : tsha256r.run_tests_while n message 0 (tsha256r.tsha256r_reset state0) []
      = some (some (s, calls))) :
    s.event = tsha256r.SHA256B_FSM_INPUT
    ∧ (55 ≤ s.i_message ∧ s.i_message ≤ 63 →
        (∃ final calls1, tsha256r.run_tests_do_while 6 s calls = some (final, calls1)
          ∧ final.event = tsha256r.SHA256B_FSM_COMPLETE)
        ∧ ∀ m, m ≤ 5 → tsha256r.run_tests_do_while m s calls = none)
    ∧ (¬ (55 ≤ s.i_message ∧ s.i_message ≤ 63) →
        (∃ final calls1, tsha256r.run_tests_do_while 5 s calls = some (final, calls1)
          ∧ final.event = tsha256r.SHA256B_FSM_COMPLETE)
        ∧ ∀ m, m ≤ 4 → tsha256r.run_tests_do_while m s calls = none) := by
  have hev : s.event = tsha256r.SHA256B_FSM_INPUT := by
    obtain ⟨s1, c1, hw, he⟩ := tsha256r.while_terminates message
      (n + (2 * message.length + 2)) 0 (tsha256r.tsha256r_reset state0) [] rfl
      (by split <;> omega)
    have hm := tsha256r.run_tests_while_mono (2 * message.length + 2) message n 0
      (tsha256r.tsha256r_reset state0) [] _ hreach
    rw [hm] at hw
    have hs : s = s1 := by
      have := Option.some.inj (Option.some.inj hw)
      exact congrArg Prod.fst this
    rw [hs]; exact he
  have hx := tsha256r.finish_exact s calls hev
  refine ⟨hev, fun hc => ?_, fun hc => ?_⟩
  · rw [if_pos hc] at hx; exact hx
  · rw [if_neg hc] at hx; exact hx

theorem C37_finalization_takes_five_or_six_calls_witness :
    tsha256r.run_tests_while 56 message_55 0 (tsha256r.tsha256r_reset tsha256r.zero_state) []
      = some (some (message_55.foldl tsha256r.getch_accepted
          (tsha256r.tsha256r_reset tsha256r.zero_state), []))
    ∧ (message_55.foldl tsha256r.getch_accepted
        (tsha256r.tsha256r_reset tsha256r.zero_state)).i_message = 55
    ∧ (∃ final calls1, tsha256r.run_tests_do_while 6 (message_55.foldl tsha256r.getch_accepted
          (tsha256r.tsha256r_reset tsha256r.zero_state)) [] = some (final, calls1)
        ∧ final.event = tsha256r.SHA256B_FSM_COMPLETE)
    ∧ ∀ m, m ≤ 5 → tsha256r.run_tests_do_while m (message_55.foldl tsha256r.getch_accepted
          (tsha256r.tsha256r_reset tsha256r.zero_state)) [] = none :=
  ⟨by decide!, by decide!,
    (C37_finalization_takes_five_or_six_calls 56 message_55 tsha256r.zero_state _ []
      (by decide!)).2.1 (by decide!)⟩

/-- C38: in every record reached from `tsha256r_reset` by a sequence of `tsha256r_getch` and
`tsha256r_update` calls, `i_message` is at most 64 and every byte `W8[seq[p]]` with
`i_message <= p < 64` is zero. -/
theorem C38_zero_tail_invariant (s0 : tsha256r.tsha256) (calls : List tsha256r.api_call) :
    (tsha256r.api_run (tsha256r.tsha256r_reset s0) calls).i_message ≤ 64
    ∧ ∀ p, (tsha256r.api_run (tsha256r.tsha256r_reset s0) calls).i_message ≤ p → p < 64 →
        (tsha256r.api_run (tsha256r.tsha256r_reset s0) calls).W8.getD
          (tsha256r.seq.getD p 0) 0 = 0 := by
  refine ⟨(tsha256r.api_run_invariant calls (tsha256r.tsha256r_reset s0) (Nat.zero_le _)
      (fun h => absurd h (by decide : (0 : Nat) ≠ 4)) (Or.inl rfl)).1, ?_⟩
  exact tsha256r.api_run_keeps_zero_tail calls _ (tsha256r.reset_zero_tail s0)

/-- C39: with fewer than 64 buffered bytes, `tsha256r_update(state, 0)` returns with the
record unchanged, whatever the event is: no transition is made and the Block Finalizer is not
invoked. -/
theorem C39_update_without_finish_is_gated (s : tsha256r.tsha256) (hi : s.i_message < 64) :
    tsha256r.tsha256r_update_traced s 0 = (s, [])
    ∧ tsha256r.tsha256r_update s 0 = s := by
  have h := tsha256r.update_gate_closed s 0 (by decide)
    (by simp only [tsha256r.MSIZE_BYTES]; exact hi)
  exact ⟨h, by rw [tsha256r.tsha256r_update, h]⟩

theorem C39_update_without_finish_is_gated_witness :
    append_length_state.i_message < 64
    ∧ append_length_state.event = tsha256r.SHA256B_FSM_APPEND_LENGTH
    ∧ tsha256r.tsha256r_update_traced append_length_state 0 = (append_length_state, [])
    ∧ tsha256r.tsha256r_update append_length_state 0 = append_length_state :=
  ⟨by decide!, by decide!, C39_update_without_finish_is_gated append_length_state (by decide!)⟩

/-- C40: two records with the same digest (eight 32-bit words) and the same first 64 bytes of
`W8` have the same digest after `_tsha256r_complete_message_block`, whatever the bytes
`W8[64..255]`, the working variables `A`, the scratch fields, `msglen`, `i_message` and the
event hold: the digest is the compression function of the standard applied to the digest and
the sixteen message words. -/
theorem C40_finalizer_ignores_stale_scratch (s1 s2 : tsha256r.tsha256)
    (hdig : s1.digest = s2.digest) (hW : ∀ i, i < 64 → s1.W8.getD i 0 = s2.W8.getD i 0)
    (hd : s1.digest.length = 8) (hb : ∀ x ∈ s1.digest, x < 2 ^ 32) :
    (tsha256r.tsha256r_complete_message_block s1).digest
      = (tsha256r.tsha256r_complete_message_block s2).digest
    ∧ (tsha256r.tsha256r_complete_message_block s1).digest
      = fips180.compress fips180.sha256_variant s1.digest (tsha256r.block_words s1) := by
  have h1 := tsha256r.complete_digest s1 hd hb
  have h2 := tsha256r.complete_digest s2 (by rw [← hdig]; exact hd) (by rw [← hdig]; exact hb)
  refine ⟨?_, h1⟩
  rw [h1, h2, hdig, tsha256r.block_words_congr s1 s2 hW]

theorem C40_finalizer_ignores_stale_scratch_witness :
    full_input_state.digest = stale_state.digest
    ∧ (∀ i, i < 64 → full_input_state.W8.getD i 0 = stale_state.W8.getD i 0)
    ∧ full_input_state.W8 ≠ stale_state.W8
    ∧ full_input_state.A ≠ stale_state.A
    ∧ (tsha256r.tsha256r_complete_message_block full_input_state).digest
        = (tsha256r.tsha256r_complete_message_block stale_state).digest :=
  ⟨by decide!, by decide!, by decide!, by decide!,
    (C40_finalizer_ignores_stale_scratch full_input_state stale_state (by decide!) (by decide!)
      (by decide!) (by decide!)).1⟩
